import Mathlib

/-! live-poll-backend: the poll / question lifecycle of `server.js`.

A shallow embedding of `src/server.js` (one Node.js file: an in-memory poll
table driven by socket.io event handlers and one `setTimeout` per question)
and theorems about it.

Modelling boundary.

* JavaScript values that the handlers receive are JSON scalars (`JSVal`);
  arrays and objects that the code only stores or forwards are carried as an
  uninspected `compound` value.  A finite number is a dyadic rational
  `m / 2 ^ k` (every finite double is one); `-0` is read as `0`, which the
  code cannot tell apart (`counts[-0]` is `counts[0]`).
* `options` is an array (the code calls `.map` on it), `duration` and the
  clock are integers (seconds, milliseconds).  `duration`, `duration * 1000`
  and `Date.now() + duration * 1000` are double-precision numbers (`JSNum`):
  every product and sum is rounded to the nearest double, ties to even, and
  overflows to an infinity.
* Plain objects used as dictionaries (`polls`, `students`, `answers`) are
  lists of own entries kept in the order in which `Object.keys` enumerates
  them: canonical array indices ascending first, then the other keys in
  insertion order.
* `polls[pollId]` also finds what `polls` inherits from `Object.prototype`
  (`constructor`, `__proto__`, ...).  The handlers `startQuestion`,
  `studentJoin`, `studentAnswer` and `timerCallback` are the handlers on poll
  ids that resolve among the entries of the table or not at all, and `step`,
  `run` are traces of them; `runtimeStart`, `runtimeJoin`, `runtimeAnswer`
  and `runtimeCallback` add the poll ids that resolve to an inherited object,
  and `runtimeRun_of_plain` shows that the two agree on every trace in which
  no poll id is the name of a member of `Object.prototype`.
* Question objects are shared by reference between `polls[pollId].current`
  and the closure of the timer callback, so they live in a heap
  (`ServerState.questions`) and are referred to by address.
* Rooms, `console.log`, the HTTP endpoint and real time belong to the
  transport and the runtime; a timer firing is an input of the model.
-/

namespace LivePoll

/-! ## JavaScript values -/

/-- A value received in an event payload. `number m k` is the finite number
`m / 2 ^ k`. -/
inductive JSVal where
  | undefined
  | null
  | bool (b : Bool)
  | number (m : Int) (k : Nat)
  | nan
  | infinity (negative : Bool)
  | string (s : String)
  | compound (json : String)
  deriving DecidableEq, Repr

namespace JSVal

/-- The integer `i` as a JavaScript number. -/
def ofNat (i : Nat) : JSVal := number (Int.ofNat i) 0

/-- `typeof v === 'number'`. -/
def isNumber : JSVal → Bool
  | number _ _ => true
  | nan => true
  | infinity _ => true
  | _ => false

/-- Truthiness, as tested by `||`, `!` and `if`. -/
def truthy : JSVal → Bool
  | undefined => false
  | null => false
  | bool b => b
  | number m _ => decide (m ≠ 0)
  | nan => false
  | infinity _ => true
  | string s => decide (s ≠ "")
  | compound _ => true

/-- The array index that `v`, used as a property key, names: a number
prints as a canonical index exactly when its value is a non-negative
integer. -/
def arrayKey : JSVal → Option Nat
  | number m k => if 0 ≤ m ∧ m % (2 : Int) ^ k = 0 then some (m / (2 : Int) ^ k).toNat else none
  | _ => none

/-- `a || b`. -/
def orElse (a b : JSVal) : JSVal := if a.truthy then a else b

end JSVal

/-! ## Objects used as dictionaries -/

/-- Value of a decimal digit. -/
def digitOf (c : Char) : Option Nat :=
  if 48 ≤ c.toNat ∧ c.toNat ≤ 57 then some (c.toNat - 48) else none

/-- Value of a string of decimal digits, most significant first. -/
def digitsValue : List Char → Nat → Option Nat
  | [], acc => some acc
  | c :: cs, acc =>
    match digitOf c with
    | some d => digitsValue cs (acc * 10 + d)
    | none => none

/-- The array index a property key denotes, if it is a canonical numeric
string below `2 ^ 32 - 1`. -/
def arrayIndex (key : String) : Option Nat :=
  match key.data with
  | [] => none
  | [ '0' ] => some 0
  | '0' :: _ => none
  | cs =>
    match digitsValue cs 0 with
    | some n => if n < 4294967295 then some n else none
    | none => none

/-- Own enumerable entries of a plain object, in enumeration order. -/
abbrev JSObj (α : Type) := List (String × α)

namespace JSObj

variable {α : Type}

/-- `Object.keys(o)`. -/
def keys (o : JSObj α) : List String := o.map Prod.fst

/-- `Object.values(o)`. -/
def values (o : JSObj α) : List α := o.map Prod.snd

/-- `o[key]`, `none` for `undefined`. -/
def get (o : JSObj α) (key : String) : Option α :=
  match o with
  | [] => none
  | (k, v) :: rest => if k = key then some v else get rest key

/-- Overwrite the value of an existing key, keeping its position. -/
def replace (o : JSObj α) (key : String) (v : α) : JSObj α :=
  match o with
  | [] => []
  | (k, w) :: rest => if k = key then (k, v) :: rest else (k, w) :: replace rest key v

/-- Place a new array-index key: after the smaller indices, before the
larger ones and before every other key. -/
def insertIndex (o : JSObj α) (n : Nat) (key : String) (v : α) : JSObj α :=
  match o with
  | [] => [(key, v)]
  | (k, w) :: rest =>
    match arrayIndex k with
    | some m => if m < n then (k, w) :: insertIndex rest n key v else (key, v) :: (k, w) :: rest
    | none => (key, v) :: (k, w) :: rest

/-- `o[key] = v`. -/
def set (o : JSObj α) (key : String) (v : α) : JSObj α :=
  match get o key with
  | some _ => replace o key v
  | none =>
    match arrayIndex key with
    | some n => insertIndex o n key v
    | none => o ++ [(key, v)]

/-- `delete o[key]`. -/
def delete (o : JSObj α) (key : String) : JSObj α :=
  o.filter (fun e => decide (e.1 ≠ key))

end JSObj

/-! ## Numbers -/

/-- A double-precision number whose value is an integer, an infinity, or
`NaN`: the values that `duration`, `duration * 1000` and
`Date.now() + duration * 1000` take when `duration` and the clock are
integers. -/
inductive JSNum where
  | finite (z : Int)
  | infinity (negative : Bool)
  | nan
  deriving DecidableEq, Repr

/-- A numeric literal. -/
instance (n : Nat) : OfNat JSNum n := ⟨JSNum.finite (Int.ofNat n)⟩

namespace JSNum

/-- The spacing of the doubles around `n`: the least power of two `q`, from
`q` on, with `n < 2 ^ 53 * q`. -/
def quantum (n : Nat) : Nat → Nat → Nat
  | 0, q => q
  | fuel + 1, q => if n < 9007199254740992 * q then q else quantum n fuel (2 * q)

/-- The natural number `n` rounded to 53 significant bits, to nearest and
ties to even. -/
def roundNat (n : Nat) : Nat :=
  if n < 9007199254740992 then n
  else
    let q := quantum n n 1
    let m := n / q
    let r := n % q
    if q < 2 * r ∨ (2 * r = q ∧ m % 2 = 1) then (m + 1) * q else m * q

/-- The least magnitude that is no longer finite, `2 ^ 1024`. -/
def overflow : Nat := 2 ^ 256 * 2 ^ 256 * 2 ^ 256 * 2 ^ 256

/-- The double nearest to the integer `z`. -/
def ofInt (z : Int) : JSNum :=
  let v := roundNat z.natAbs
  if v < overflow then finite (if z < 0 then -(Int.ofNat v) else Int.ofNat v)
  else infinity (decide (z < 0))

/-- The operator `+` on numbers. -/
def add : JSNum → JSNum → JSNum
  | finite a, finite b => ofInt (a + b)
  | finite _, infinity n => infinity n
  | infinity n, finite _ => infinity n
  | infinity n, infinity m => if n = m then infinity n else nan
  | _, _ => nan

/-- The operator `*` on numbers. -/
def mul : JSNum → JSNum → JSNum
  | finite a, finite b => ofInt (a * b)
  | finite a, infinity n => if a = 0 then nan else infinity (xor (decide (a < 0)) n)
  | infinity n, finite b => if b = 0 then nan else infinity (xor n (decide (b < 0)))
  | infinity n, infinity m => infinity (xor n m)
  | _, _ => nan

end JSNum

/-! ## Data model -/

/-- The object built by `teacher:start-question` (lines 59-67). -/
structure Question where
  id : String
  question : JSVal
  options : List JSVal
  answers : JSObj JSVal
  duration : JSNum
  endsAt : JSNum
  correctIndex : JSVal
  deriving DecidableEq, Repr

/-- The object returned by `computeResults`. -/
structure Tally where
  counts : List Nat
  total : Nat
  deriving DecidableEq, Repr

/-! ## computeResults (lines 24-30) -/

/-- `counts[idx]`, `none` for `undefined`. -/
def elementAt (counts : List Nat) (idx : JSVal) : Option Nat :=
  match idx.arrayKey with
  | some i => counts[i]?
  | none => none

/-- `counts[idx]++` for an `idx` at which `counts[idx]` is defined. -/
def increment (counts : List Nat) (idx : JSVal) : List Nat :=
  match idx.arrayKey with
  | some i => counts.set i (counts.getD i 0 + 1)
  | none => counts

/-- The body of the `forEach` callback (line 27). -/
def countAnswer (counts : List Nat) (idx : JSVal) : List Nat :=
  if idx.isNumber && (elementAt counts idx).isSome then increment counts idx else counts

/-- `computeResults(current)`. -/
def computeResults (current : Question) : Tally :=
  let counts := current.options.map (fun _ => 0)
  let counts := (JSObj.values current.answers).foldl countAnswer counts
  { counts := counts, total := (JSObj.keys current.answers).length }

/-! ## Server state -/

/-- An element of `history`: the object `{ ...current, results: res }`. -/
structure HistoryEntry where
  question : Question
  results : Tally
  deriving DecidableEq, Repr

/-- A value of the `polls` table (line 18). `current` is the address of the
question object, `none` for `null`; `timeout` is the handle stored by line
89, `none` while that property is undefined. -/
structure Poll where
  title : JSVal
  students : JSObj JSVal
  current : Option Nat
  history : List HistoryEntry
  timeout : Option Nat
  deriving DecidableEq, Repr

/-- A pending `setTimeout` (lines 78-87): its handle, the variables `pollId`
and `current` its callback closes over, and the delay in milliseconds. -/
structure Timer where
  id : Nat
  pollId : String
  current : Nat
  delay : JSNum
  deriving DecidableEq, Repr

/-- The process state: the `polls` table, the heap of question objects, the
pending timers and the number of timer handles handed out so far. -/
structure ServerState where
  polls : JSObj Poll
  questions : List Question
  timers : List Timer
  nextTimer : Nat
  deriving DecidableEq, Repr

/-- The state after start-up: `polls = {}`. -/
def ServerState.init : ServerState :=
  { polls := [], questions := [], timers := [], nextTimer := 0 }

/-- The question object that `polls[pollId].current` refers to. -/
def ServerState.currentQuestion (s : ServerState) (pollId : String) : Option Question :=
  match JSObj.get s.polls pollId with
  | some poll =>
    match poll.current with
    | some ref => s.questions[ref]?
    | none => none
  | none => none

/-- Payload of an outbound event. -/
inductive Event where
  | questionStart (question : JSVal) (options : List JSVal) (endsAt : JSNum)
  | questionPartial (tally : Tally)
  | questionEnd (results : Tally) (correctIndex : JSVal) (options : List JSVal)
  | studentList (names : List JSVal)
  deriving DecidableEq, Repr

/-- One `io.to(room).emit(...)`. -/
structure Broadcast where
  room : String
  event : Event
  deriving DecidableEq, Repr

/-- Argument handed to the acknowledgment callback `cb`. -/
inductive Ack where
  | ok
  | created (pollId : String)
  | error (message : String)
  deriving DecidableEq, Repr

/-- What one handler run or one timer callback does: the state it leaves,
the broadcasts it makes in order, the acknowledgment it passes to `cb`, and
the exception it throws, if any. -/
structure Outcome where
  state : ServerState
  emitted : List Broadcast
  ack : Option Ack
  thrown : Option String
  deriving DecidableEq, Repr

/-- Replace the poll object stored under an existing key. -/
def ServerState.putPoll (s : ServerState) (pollId : String) (poll : Poll) : ServerState :=
  { s with polls := JSObj.replace s.polls pollId poll }

/-! ## Handlers -/

/-- Handler of `teacher:create-poll` (lines 38-52); `pollId` is the value
drawn by `makeId()`. -/
def createPoll (s : ServerState) (title : JSVal) (pollId : String) : Outcome :=
  let poll : Poll :=
    { title := title.orElse (JSVal.string "Untitled Poll"), students := [], current := none,
      history := [], timeout := none }
  { state := { s with polls := JSObj.set s.polls pollId poll },
    emitted := [],
    ack := some (Ack.created pollId),
    thrown := none }

/-- Handler of `teacher:start-question` (lines 55-91); `qid` is the value
drawn by `makeId()`, `now` the reading of `Date.now()`, and `duration` is
`none` when the payload has no such field (the parameter default `60` then
applies). `polls[pollId]` is looked up among the entries of the table;
`runtimeStart` adds the poll ids that resolve to an inherited object. -/
def startQuestion (s : ServerState) (pollId : String) (question : JSVal) (options : List JSVal)
    (duration : Option Int) (correctIndex : JSVal) (qid : String) (now : Int) : Outcome :=
  match JSObj.get s.polls pollId with
  | none => { state := s, emitted := [], ack := some (Ack.error "Poll not found"), thrown := none }
  | some poll =>
    if poll.current.isSome then
      { state := s, emitted := [], ack := some (Ack.error "Question already active"),
        thrown := none }
    else
      let duration := (duration.map JSNum.ofInt).getD 60
      let current : Question :=
        { id := qid, question := question, options := options, answers := [],
          duration := duration, endsAt := JSNum.add (JSNum.ofInt now) (JSNum.mul duration 1000),
          correctIndex := correctIndex }
      let ref := s.questions.length
      let timer : Timer :=
        { id := s.nextTimer, pollId := pollId, current := ref,
          delay := JSNum.mul duration 1000 }
      let poll := { poll with current := some ref, timeout := some timer.id }
      { state :=
          { polls := JSObj.replace s.polls pollId poll,
            questions := s.questions ++ [current],
            timers := s.timers ++ [timer],
            nextTimer := s.nextTimer + 1 },
        emitted :=
          [{ room := pollId,
             event := Event.questionStart current.question current.options current.endsAt }],
        ack := some Ack.ok,
        thrown := none }

/-- Handler of `student:join` (lines 94-104) run for the session `socket`.
`polls[pollId]` is looked up among the entries of the table; `runtimeJoin`
adds the poll ids that resolve to an inherited object. -/
def studentJoin (s : ServerState) (socket : String) (pollId : String) (name : JSVal) : Outcome :=
  match JSObj.get s.polls pollId with
  | none => { state := s, emitted := [], ack := some (Ack.error "Poll not found"), thrown := none }
  | some poll =>
    let students := JSObj.set poll.students socket (name.orElse (JSVal.string "Anonymous"))
    { state := s.putPoll pollId { poll with students := students },
      emitted := [{ room := pollId, event := Event.studentList (JSObj.values students) }],
      ack := some Ack.ok,
      thrown := none }

/-- `clearTimeout(handle)`. -/
def clearTimeout (timers : List Timer) (handle : Option Nat) : List Timer :=
  timers.filter (fun t => decide (some t.id ≠ handle))

/-- Handler of `student:answer` (lines 107-131) run for the session
`socket`. `polls[pollId]` is looked up among the entries of the table;
`runtimeAnswer` adds the poll ids that resolve to an inherited object. -/
def studentAnswer (s : ServerState) (socket : String) (pollId : String) (optionIndex : JSVal) :
    Outcome :=
  match JSObj.get s.polls pollId with
  | none =>
    { state := s, emitted := [], ack := some (Ack.error "No active question"), thrown := none }
  | some poll =>
    match poll.current with
    | none =>
      { state := s, emitted := [], ack := some (Ack.error "No active question"), thrown := none }
    | some ref =>
      match s.questions[ref]? with
      | none => { state := s, emitted := [], ack := none, thrown := some "dangling address" }
      | some q =>
        let current := { q with answers := JSObj.set q.answers socket optionIndex }
        let questions := s.questions.set ref current
        let tally := computeResults current
        let first : Broadcast := { room := pollId, event := Event.questionPartial tally }
        let totalStudents := (JSObj.keys poll.students).length
        let answered := (JSObj.keys current.answers).length
        if 0 < totalStudents ∧ totalStudents ≤ answered then
          let res := computeResults current
          let poll :=
            { poll with
              history := poll.history ++ [{ question := current, results := res }],
              current := none }
          { state :=
              { polls := JSObj.replace s.polls pollId poll,
                questions := questions,
                timers := clearTimeout s.timers poll.timeout,
                nextTimer := s.nextTimer },
            emitted :=
              [first,
               { room := pollId,
                 event := Event.questionEnd res current.correctIndex current.options }],
            ack := some Ack.ok,
            thrown := none }
        else
          { state := { s with questions := questions },
            emitted := [first],
            ack := some Ack.ok,
            thrown := none }

/-- The callback given to `setTimeout` (lines 78-87), run in state `s` for
the closure variables held by `t`. Reading a property of `null` or
`undefined` throws a `TypeError`. `polls[pollId]` is looked up among the
entries of the table; `runtimeCallback` adds the poll ids that resolve to an
inherited object. -/
def timerCallback (s : ServerState) (t : Timer) : Outcome :=
  match JSObj.get s.polls t.pollId with
  | none => { state := s, emitted := [], ack := none, thrown := some "TypeError" }
  | some poll =>
    match poll.current with
    | none => { state := s, emitted := [], ack := none, thrown := some "TypeError" }
    | some ref =>
      match s.questions[ref]?, s.questions[t.current]? with
      | some q, some current =>
        let res := computeResults q
        let poll :=
          { poll with
            history := poll.history ++ [{ question := current, results := res }],
            current := none }
        { state := s.putPoll t.pollId poll,
          emitted :=
            [{ room := t.pollId,
               event := Event.questionEnd res current.correctIndex current.options }],
          ack := none,
          thrown := none }
      | _, _ => { state := s, emitted := [], ack := none, thrown := some "dangling address" }

/-- The pending timer with handle `id` expires: it leaves the pending set
and its callback runs. Nothing happens for a handle that is not pending. -/
def timerFire (s : ServerState) (id : Nat) : Outcome :=
  match s.timers.find? (fun t => decide (t.id = id)) with
  | none => { state := s, emitted := [], ack := none, thrown := none }
  | some t => timerCallback { s with timers := s.timers.filter (fun u => decide (u.id ≠ id)) } t

/-- `poll.students[socket.id]` tested as a condition (line 136). -/
def isJoined (poll : Poll) (socket : String) : Bool :=
  match JSObj.get poll.students socket with
  | some name => name.truthy
  | none => false

/-- The loop body of the disconnect handler (lines 136-139) on one entry of
`Object.entries(polls)`. -/
def dropStudent (socket : String) (entry : String × Poll) : String × Poll :=
  if isJoined entry.2 socket then
    (entry.1, { entry.2 with students := JSObj.delete entry.2.students socket })
  else entry

/-- The broadcast made by the loop body of the disconnect handler. -/
def dropNotice (socket : String) (entry : String × Poll) : Option Broadcast :=
  if isJoined entry.2 socket then
    some { room := entry.1,
           event := Event.studentList (JSObj.values (JSObj.delete entry.2.students socket)) }
  else none

/-- Handler of `disconnect` (lines 134-142) run for the session `socket`. -/
def disconnect (s : ServerState) (socket : String) : Outcome :=
  { state := { s with polls := s.polls.map (dropStudent socket) },
    emitted := s.polls.filterMap (dropNotice socket),
    ack := none,
    thrown := none }

/-! ## Event traces -/

/-- One thing that can happen to the server: an inbound event together with
the values the handler draws from its environment, or the expiry of a
timer. -/
inductive Input where
  | createPoll (title : JSVal) (pollId : String)
  | startQuestion (pollId : String) (question : JSVal) (options : List JSVal)
      (duration : Option Int) (correctIndex : JSVal) (qid : String) (now : Int)
  | join (socket : String) (pollId : String) (name : JSVal)
  | answer (socket : String) (pollId : String) (optionIndex : JSVal)
  | disconnect (socket : String)
  | timerFire (id : Nat)
  deriving DecidableEq, Repr

/-- Run the handler that an input selects. -/
def step (s : ServerState) : Input → Outcome
  | Input.createPoll title pollId => createPoll s title pollId
  | Input.startQuestion pollId question options duration correctIndex qid now =>
    startQuestion s pollId question options duration correctIndex qid now
  | Input.join socket pollId name => studentJoin s socket pollId name
  | Input.answer socket pollId optionIndex => studentAnswer s socket pollId optionIndex
  | Input.disconnect socket => disconnect s socket
  | Input.timerFire id => timerFire s id

/-- The state after a sequence of inputs. -/
def run (s : ServerState) : List Input → ServerState
  | [] => s
  | e :: rest => run (step s e).state rest

/-- The broadcasts made during a sequence of inputs, in order. -/
def broadcasts (s : ServerState) : List Input → List Broadcast
  | [] => []
  | e :: rest => (step s e).emitted ++ broadcasts (step s e).state rest

/-! ## Reading a tally -/

/-- The value `v` is the number `i`. -/
def JSVal.denotes (v : JSVal) (i : Nat) : Bool :=
  match v with
  | JSVal.number m k => decide (m = (i : Int) * (2 : Int) ^ k)
  | _ => false

/-- The value `v` is an integer index into an array of length `n`. -/
def JSVal.validIndex (n : Nat) (v : JSVal) : Bool :=
  (List.range n).any (fun i => v.denotes i)

/-- Number of entries of an answers mapping whose answer is the number `i`. -/
def answersFor (answers : JSObj JSVal) (i : Nat) : Nat :=
  (answers.filter (fun e => e.2.denotes i)).length

/-! ## Sample data -/

/-- The option labels of the sample question. -/
def sampleOptions : List JSVal := [JSVal.string "A", JSVal.string "B", JSVal.string "C"]

/-- A question with three options on which two sessions chose options 0
and 1. -/
def sampleQuestion : Question :=
  { id := "q1", question := JSVal.string "Pick one", options := sampleOptions,
    answers := [("alice", JSVal.ofNat 0), ("bob", JSVal.ofNat 1)],
    duration := 60, endsAt := 61000, correctIndex := JSVal.ofNat 1 }

/-- A question whose answers are a string, the fraction 3/2, the numbers -1
and 7, `NaN`, `undefined` and one valid index written as 4/2. -/
def messyQuestion : Question :=
  { sampleQuestion with
    answers :=
      [("s1", JSVal.string "1"), ("s2", JSVal.number 3 1), ("s3", JSVal.number (-1) 0),
       ("s4", JSVal.ofNat 7), ("s5", JSVal.nan), ("s6", JSVal.undefined),
       ("s7", JSVal.number 4 1)] }

/-- The scenario of the specification up to the start of the question: a
poll is created, two students join, a question with three options starts. -/
def sampleSetup : List Input :=
  [Input.createPoll (JSVal.string "Quiz 1") "poll1",
   Input.join "alice" "poll1" (JSVal.string "Alice"),
   Input.join "bob" "poll1" (JSVal.string "Bob"),
   Input.startQuestion "poll1" (JSVal.string "Pick one") sampleOptions (some 60)
     (JSVal.ofNat 1) "q1" 1000]

/-- The state in which the sample question is running and nobody has
answered. -/
def sampleActive : ServerState := run ServerState.init sampleSetup

/-- The state after Alice has answered option 0. -/
def sampleAfterAlice : ServerState :=
  (step sampleActive (Input.answer "alice" "poll1" (JSVal.ofNat 0))).state

/-- The state with the sample poll created and both students joined, before
any question. -/
def sampleIdle : ServerState := run ServerState.init (sampleSetup.take 3)

/-- The sample poll object while its question is running. -/
def sampleActivePoll : Poll :=
  { title := JSVal.string "Quiz 1",
    students := [("alice", JSVal.string "Alice"), ("bob", JSVal.string "Bob")],
    current := some 0, history := [], timeout := some 0 }

/-- A run in which `makeId()` returns the same poll id twice: the second
`teacher:create-poll` replaces the poll object while the timer of its
question is pending; a second question starts, the first timer expires and
ends it. What remains is an idle poll and the pending timer (handle 1) of
the question that has just ended. -/
def collisionTrace : List Input :=
  [Input.createPoll (JSVal.string "Quiz 1") "poll1",
   Input.startQuestion "poll1" (JSVal.string "First") sampleOptions (some 60) (JSVal.ofNat 1)
     "q1" 1000,
   Input.createPoll (JSVal.string "Quiz 2") "poll1",
   Input.startQuestion "poll1" (JSVal.string "Second") sampleOptions (some 60) (JSVal.ofNat 2)
     "q2" 2000,
   Input.timerFire 0]

/-- The state at the end of `collisionTrace`. -/
def collisionState : ServerState := run ServerState.init collisionTrace

/-- The event is a `question:end`. -/
def Broadcast.isEnd (b : Broadcast) : Bool :=
  match b.event with
  | Event.questionEnd _ _ _ => true
  | _ => false

/-- The event is a `question:start`. -/
def Broadcast.isStart (b : Broadcast) : Bool :=
  match b.event with
  | Event.questionStart _ _ _ => true
  | _ => false

/-! ## Bookkeeping for traces

None of what follows exists in the program; it names what a run does so that
statements about whole traces can be written. -/

/-- One ending of a question: the room the `question:end` went to, the
address of the question object whose fields were announced and archived, the
address of the question that was the poll's `current` and was cleared, which
of the two paths ran, and the entry pushed on the history. -/
structure EndRecord where
  room : String
  archived : Nat
  cleared : Nat
  byTimer : Bool
  entry : HistoryEntry
  deriving DecidableEq, Repr

/-- The `question:end` broadcast that goes with a record. -/
def EndRecord.broadcast (r : EndRecord) : Broadcast :=
  { room := r.room,
    event := Event.questionEnd r.entry.results r.entry.question.correctIndex
      r.entry.question.options }

/-- The ending, if any, that input `e` causes in state `s`: the
early-completion branch of `student:answer` ends the poll's current question,
the timer callback ends the question it closes over. -/
def endRecord (s : ServerState) : Input → Option EndRecord
  | Input.answer socket pollId optionIndex =>
    match JSObj.get s.polls pollId with
    | none => none
    | some poll =>
      match poll.current with
      | none => none
      | some ref =>
        match s.questions[ref]? with
        | none => none
        | some q =>
          let current := { q with answers := JSObj.set q.answers socket optionIndex }
          if 0 < (JSObj.keys poll.students).length ∧
              (JSObj.keys poll.students).length ≤ (JSObj.keys current.answers).length then
            some { room := pollId, archived := ref, cleared := ref, byTimer := false,
                   entry := { question := current, results := computeResults current } }
          else none
  | Input.timerFire id =>
    match s.timers.find? (fun t => decide (t.id = id)) with
    | none => none
    | some t =>
      match JSObj.get s.polls t.pollId with
      | none => none
      | some poll =>
        match poll.current with
        | none => none
        | some ref =>
          match s.questions[ref]?, s.questions[t.current]? with
          | some q, some current =>
            some { room := t.pollId, archived := t.current, cleared := ref, byTimer := true,
                   entry := { question := current, results := computeResults q } }
          | _, _ => none
  | _ => none

/-- The endings that happen during a sequence of inputs, in order. -/
def endLog (s : ServerState) : List Input → List EndRecord
  | [] => []
  | e :: rest => (endRecord s e).toList ++ endLog (step s e).state rest

/-- The part of a poll object that the question lifecycle reads and writes. -/
structure PollCore where
  current : Option Nat
  timeout : Option Nat
  history : List HistoryEntry
  deriving DecidableEq, Repr

/-- Forget title and students. -/
def Poll.core (p : Poll) : PollCore :=
  { current := p.current, timeout := p.timeout, history := p.history }

/-- The lifecycle part of `polls[pollId]`. -/
def ServerState.view (s : ServerState) (pollId : String) : Option PollCore :=
  (JSObj.get s.polls pollId).map Poll.core

/-- 1 if the poll `pollId` has a current question, else 0. -/
def ServerState.active (s : ServerState) (pollId : String) : Nat :=
  match s.view pollId with
  | some c => if c.current.isSome then 1 else 0
  | none => 0

/-- The `question:end` broadcasts to room `p`. -/
def endsIn (p : String) (out : List Broadcast) : List Broadcast :=
  out.filter (fun b => b.isEnd && decide (b.room = p))

/-- The `question:start` broadcasts to room `p`. -/
def startsIn (p : String) (out : List Broadcast) : List Broadcast :=
  out.filter (fun b => b.isStart && decide (b.room = p))

/-- What holds of the lifecycle parts of the polls, the heap of questions,
the pending timers, the number of handles handed out and the endings so far,
in every state that a trace reaches. -/
structure Inv (view : String → Option PollCore) (heap : List Question) (timers : List Timer)
    (next : Nat) (log : List EndRecord) : Prop where
  cur_lt : ∀ p c r, view p = some c → c.current = some r → r < heap.length
  cur_fresh : ∀ p c r, view p = some c → c.current = some r →
    ∀ rec ∈ log, rec.archived ≠ r ∧ rec.cleared ≠ r
  cur_inj : ∀ p p' c c' r, view p = some c → view p' = some c' →
    c.current = some r → c'.current = some r → p = p'
  timer_lt : ∀ t ∈ timers, t.current < heap.length ∧ t.id < next
  timer_fresh : ∀ t ∈ timers, ∀ rec ∈ log, rec.archived ≠ t.current
  timer_inj : ∀ t ∈ timers, ∀ t' ∈ timers, (t.current = t'.current ∨ t.id = t'.id) → t = t'
  link : ∀ p c r, view p = some c → c.current = some r →
    ∀ t ∈ timers, t.current = r → t.pollId = p ∧ c.timeout = some t.id
  log_lt : ∀ rec ∈ log, rec.archived < heap.length ∧ rec.cleared < heap.length
  archived_nodup : (log.map EndRecord.archived).Nodup
  cleared_nodup : (log.map EndRecord.cleared).Nodup
  history : ∀ p c, view p = some c →
    List.IsSuffix c.history ((log.filter (fun r => decide (r.room = p))).map EndRecord.entry)
  frozen : ∀ rec ∈ log, heap[rec.archived]? = some rec.entry.question
  results : ∀ rec ∈ log, ∃ qc, heap[rec.cleared]? = some qc ∧ rec.entry.results = computeResults qc
  handle_lt : ∀ p c n, view p = some c → c.timeout = some n → n < next
  owner : ∀ p c n, view p = some c → c.timeout = some n →
    ∀ t ∈ timers, t.id = n → t.pollId = p

/-- The invariant, of a state and the endings that led to it. -/
def Consistent (s : ServerState) (log : List EndRecord) : Prop :=
  Inv s.view s.questions s.timers s.nextTimer log

/-- The state in which the sample question is running and Bob has left. -/
def sampleBobLeft : ServerState := (disconnect sampleActive "bob").state

/-- The state with the sample poll created and nobody joined. -/
def sampleFresh : ServerState := run ServerState.init (sampleSetup.take 1)

/-- The state with the sample poll created and Alice joined. -/
def sampleAliceJoined : ServerState := run ServerState.init (sampleSetup.take 2)

/-- What holds of the table of polls in every state that a trace reaches: no
poll id occurs twice, and every stored student name is truthy. -/
structure WellFormed (s : ServerState) : Prop where
  polls_nodup : (JSObj.keys s.polls).Nodup
  names_truthy : ∀ e ∈ s.polls, ∀ st ∈ e.2.students, st.2.truthy = true

/-- The poll id an input is addressed to: the `pollId` of the payload, or,
for the expiry of a pending timer, the `pollId` its callback closes over. -/
def target (s : ServerState) : Input → Option String
  | Input.startQuestion pollId _ _ _ _ _ _ => some pollId
  | Input.join _ pollId _ => some pollId
  | Input.answer _ pollId _ => some pollId
  | Input.timerFire id => (s.timers.find? (fun t => decide (t.id = id))).map Timer.pollId
  | _ => none

/-- A question with its `correctIndex` blanked. -/
def Question.redact (q : Question) : Question := { q with correctIndex := JSVal.undefined }

/-- A history entry with the `correctIndex` of its question blanked. -/
def HistoryEntry.redact (e : HistoryEntry) : HistoryEntry :=
  { e with question := e.question.redact }

/-- A poll with every `correctIndex` in its history blanked. -/
def Poll.redact (p : Poll) : Poll := { p with history := p.history.map HistoryEntry.redact }

/-- A state with every stored `correctIndex` blanked. -/
def ServerState.redact (s : ServerState) : ServerState :=
  { s with
    polls := s.polls.map (fun e => (e.1, e.2.redact)),
    questions := s.questions.map Question.redact }

/-- A broadcast with the `correctIndex` of a `question:end` blanked; other
events are kept as they are. -/
def Broadcast.redact (b : Broadcast) : Broadcast :=
  match b.event with
  | Event.questionEnd results _ options =>
    { b with event := Event.questionEnd results JSVal.undefined options }
  | _ => b

/-- The input does not make `makeId()` return a poll id that is already in
the table: a `teacher:create-poll` draws an unused id. -/
def drawsFresh (s : ServerState) : Input → Bool
  | Input.createPoll _ pollId => (JSObj.get s.polls pollId).isNone
  | _ => true

/-- Every `teacher:create-poll` of the trace draws an id that is unused at
that moment. -/
def freshIds (s : ServerState) : List Input → Bool
  | [] => true
  | e :: rest => drawsFresh s e && freshIds (step s e).state rest

/-- What holds in addition when no poll id is drawn twice: every pending
timer was scheduled for the question that is current in its poll, every
current question has a pending timer, and every ending archived the question
it cleared. -/
structure Sched (view : String → Option PollCore) (timers : List Timer)
    (log : List EndRecord) : Prop where
  timer_current : ∀ t ∈ timers, ∃ c, view t.pollId = some c ∧ c.current = some t.current
  current_timer : ∀ p c r, view p = some c → c.current = some r → ∃ t ∈ timers, t.current = r
  own_results : ∀ rec ∈ log, rec.archived = rec.cleared

/-- The additional invariant, of a state and the endings that led to it. -/
def Scheduled (s : ServerState) (log : List EndRecord) : Prop :=
  Sched s.view s.timers log

/-- The run with a repeated poll id in which the second question receives an
answer before the timer of the first question expires. -/
def staleTrace : List Input :=
  [Input.createPoll (JSVal.string "Quiz 1") "poll1",
   Input.startQuestion "poll1" (JSVal.string "First") sampleOptions (some 60) (JSVal.ofNat 1)
     "q1" 1000,
   Input.createPoll (JSVal.string "Quiz 2") "poll1",
   Input.startQuestion "poll1" (JSVal.string "Second") sampleOptions (some 60) (JSVal.ofNat 2)
     "q2" 2000,
   Input.answer "alice" "poll1" (JSVal.ofNat 0),
   Input.timerFire 0]

/-- The history of a poll, empty for an unregistered id. -/
def historyOf (s : ServerState) (pollId : String) : List HistoryEntry :=
  match JSObj.get s.polls pollId with
  | some poll => poll.history
  | none => []

/-! ## Poll ids that resolve through the prototype chain

`polls` is a plain object, so `polls[pollId]` also finds what `polls`
inherits from `Object.prototype`. The handlers above are the handlers on
poll ids that `polls[pollId]` resolves among the entries of the table or not
at all; the definitions below add the other case. -/

/-- The names of the members of `Object.prototype`: for each of them
`polls[name]` is a built-in object (`Object.prototype` itself for
`__proto__`, a function otherwise) although `polls` has no such entry. -/
def protoMembers : List String :=
  ["constructor", "__defineGetter__", "__defineSetter__", "hasOwnProperty",
   "__lookupGetter__", "__lookupSetter__", "isPrototypeOf", "propertyIsEnumerable",
   "toString", "valueOf", "__proto__", "toLocaleString"]

/-- The process state together with what `teacher:start-question` has written
on built-in objects: `builtins` maps the name of a member of
`Object.prototype` to the address of the question stored in the `current`
property of that built-in object. The entry `__proto__` is
`Object.prototype.current`, which every object without a `current` of its own
inherits. -/
structure Runtime where
  server : ServerState
  builtins : JSObj Nat
  deriving DecidableEq, Repr

/-- The state after start-up. -/
def Runtime.init : Runtime := { server := ServerState.init, builtins := [] }

/-- The value of `Object.prototype.current`, `none` while it is undefined. -/
def Runtime.protoCurrent (r : Runtime) : Option Nat := JSObj.get r.builtins "__proto__"

/-- How `polls[pollId]` resolves when it is not an entry of the table:
`none` when it is an entry or is undefined, `some c` when it is an inherited
object, with `c` the value of its `current` (`none` for undefined). A
built-in object has the `current` written on it or else the one of
`Object.prototype`; once `Object.prototype` has the properties `current` and
`timeout` (line 68 and line 89 run for the poll id `__proto__`), `polls`
inherits these two as well, and the objects they hold inherit `current`. -/
def Runtime.inherited (r : Runtime) (pollId : String) : Option (Option Nat) :=
  match JSObj.get r.server.polls pollId with
  | some _ => none
  | none =>
    if pollId ∈ protoMembers then
      some (match JSObj.get r.builtins pollId with
            | some ref => some ref
            | none => r.protoCurrent)
    else if (pollId = "current" ∨ pollId = "timeout") ∧ r.protoCurrent.isSome then
      some r.protoCurrent
    else none

/-- What one handler run does to the process. -/
structure Result where
  state : Runtime
  emitted : List Broadcast
  ack : Option Ack
  thrown : Option String
  deriving DecidableEq, Repr

/-- The outcome of a handler that touched the table only. -/
def Runtime.lift (r : Runtime) (out : Outcome) : Result :=
  { state := { r with server := out.state }, emitted := out.emitted, ack := out.ack,
    thrown := out.thrown }

/-- Handler of `teacher:start-question` (lines 55-91). On an inherited object
without a `current` both guards pass: the question is stored in its
`current` property, broadcast, and a timer is scheduled. -/
def runtimeStart (r : Runtime) (pollId : String) (question : JSVal) (options : List JSVal)
    (duration : Option Int) (correctIndex : JSVal) (qid : String) (now : Int) : Result :=
  match r.inherited pollId with
  | none => r.lift (startQuestion r.server pollId question options duration correctIndex qid now)
  | some (some _) =>
    { state := r, emitted := [], ack := some (Ack.error "Question already active"),
      thrown := none }
  | some none =>
    let duration := (duration.map JSNum.ofInt).getD 60
    let current : Question :=
      { id := qid, question := question, options := options, answers := [],
        duration := duration, endsAt := JSNum.add (JSNum.ofInt now) (JSNum.mul duration 1000),
        correctIndex := correctIndex }
    let ref := r.server.questions.length
    let timer : Timer :=
      { id := r.server.nextTimer, pollId := pollId, current := ref,
        delay := JSNum.mul duration 1000 }
    { state :=
        { server :=
            { polls := r.server.polls,
              questions := r.server.questions ++ [current],
              timers := r.server.timers ++ [timer],
              nextTimer := r.server.nextTimer + 1 },
          builtins := JSObj.set r.builtins pollId ref },
      emitted :=
        [{ room := pollId,
           event := Event.questionStart current.question current.options current.endsAt }],
      ack := some Ack.ok,
      thrown := none }

/-- Handler of `student:join` (lines 94-104). An inherited object passes the
guard of line 95 and has no `students`, so line 97 throws. -/
def runtimeJoin (r : Runtime) (socket : String) (pollId : String) (name : JSVal) : Result :=
  match r.inherited pollId with
  | none => r.lift (studentJoin r.server socket pollId name)
  | some _ => { state := r, emitted := [], ack := none, thrown := some "TypeError" }

/-- Handler of `student:answer` (lines 107-131). An inherited object with a
`current` passes the guard of line 109: the answer is written, the partial
tally is broadcast, and `Object.keys(poll.students)` throws (line 117). -/
def runtimeAnswer (r : Runtime) (socket : String) (pollId : String) (optionIndex : JSVal) :
    Result :=
  match r.inherited pollId with
  | none => r.lift (studentAnswer r.server socket pollId optionIndex)
  | some none =>
    { state := r, emitted := [], ack := some (Ack.error "No active question"), thrown := none }
  | some (some ref) =>
    match r.server.questions[ref]? with
    | none => { state := r, emitted := [], ack := none, thrown := some "dangling address" }
    | some q =>
      let current := { q with answers := JSObj.set q.answers socket optionIndex }
      { state :=
          { r with server := { r.server with questions := r.server.questions.set ref current } },
        emitted := [{ room := pollId, event := Event.questionPartial (computeResults current) }],
        ack := none,
        thrown := some "TypeError" }

/-- The callback given to `setTimeout` (lines 78-87). On an inherited object
with a `current` the results are computed and `question:end` is broadcast;
the object has no `history`, so line 85 throws and `current` stays. -/
def runtimeCallback (r : Runtime) (t : Timer) : Result :=
  match r.inherited t.pollId with
  | none => r.lift (timerCallback r.server t)
  | some none => { state := r, emitted := [], ack := none, thrown := some "TypeError" }
  | some (some ref) =>
    match r.server.questions[ref]?, r.server.questions[t.current]? with
    | some q, some current =>
      { state := r,
        emitted :=
          [{ room := t.pollId,
             event := Event.questionEnd (computeResults q) current.correctIndex
               current.options }],
        ack := none,
        thrown := some "TypeError" }
    | _, _ => { state := r, emitted := [], ack := none, thrown := some "dangling address" }

/-- The pending timer with handle `id` expires. -/
def runtimeFire (r : Runtime) (id : Nat) : Result :=
  match r.server.timers.find? (fun t => decide (t.id = id)) with
  | none => { state := r, emitted := [], ack := none, thrown := none }
  | some t =>
    runtimeCallback
      { r with
        server :=
          { r.server with timers := r.server.timers.filter (fun u => decide (u.id ≠ id)) } }
      t

/-- Run the handler that an input selects. `teacher:create-poll` and
`disconnect` do not look a poll id up; an id drawn by `makeId()` has at most
seven characters among the digits and the lower-case letters, so it is not
the name of a member of `Object.prototype`. -/
def runtimeStep (r : Runtime) : Input → Result
  | Input.createPoll title pollId => r.lift (createPoll r.server title pollId)
  | Input.startQuestion pollId question options duration correctIndex qid now =>
    runtimeStart r pollId question options duration correctIndex qid now
  | Input.join socket pollId name => runtimeJoin r socket pollId name
  | Input.answer socket pollId optionIndex => runtimeAnswer r socket pollId optionIndex
  | Input.disconnect socket => r.lift (disconnect r.server socket)
  | Input.timerFire id => runtimeFire r id

/-- The state after a sequence of inputs. -/
def runtimeRun (r : Runtime) : List Input → Runtime
  | [] => r
  | e :: rest => runtimeRun (runtimeStep r e).state rest

/-- The broadcasts made during a sequence of inputs, in order. -/
def runtimeBroadcasts (r : Runtime) : List Input → List Broadcast
  | [] => []
  | e :: rest => (runtimeStep r e).emitted ++ runtimeBroadcasts (runtimeStep r e).state rest

/-- The poll id that an input carries. -/
def Input.pollId : Input → Option String
  | Input.createPoll _ pollId => some pollId
  | Input.startQuestion pollId _ _ _ _ _ _ => some pollId
  | Input.join _ pollId _ => some pollId
  | Input.answer _ pollId _ => some pollId
  | _ => none

/-- No input of the trace carries the name of a member of
`Object.prototype` as its poll id. -/
def plainIds (tr : List Input) : Bool :=
  tr.all (fun e => match e.pollId with
    | some k => !(decide (k ∈ protoMembers))
    | none => true)

/-- A start of the sample question addressed to the poll id `constructor`. -/
def constructorStart : Input :=
  Input.startQuestion "constructor" (JSVal.string "Pick one") sampleOptions (some 60)
    (JSVal.ofNat 1) "q1" 1000

/-- The process after `constructorStart` on the empty table. -/
def constructorState : Runtime := (runtimeStep Runtime.init constructorStart).state

/-! # Theorems -/

/-! ## Double-precision arithmetic -/

namespace JSNum

/-- The fuel given to `quantum` is enough: the result bounds `n`. -/
theorem quantum_gt (n : Nat) :
    ∀ fuel q : Nat, n < 9007199254740992 * q * 2 ^ fuel →
      n < 9007199254740992 * quantum n fuel q := by
  intro fuel
  induction fuel with
  | zero =>
    intro q h
    simpa [quantum] using h
  | succ k ih =>
    intro q h
    unfold quantum
    split
    · assumption
    · apply ih
      have e : 9007199254740992 * (2 * q) * 2 ^ k = 9007199254740992 * q * 2 ^ (k + 1) := by
        rw [pow_succ]; ring
      rw [e]
      exact h

/-- The result of `quantum` is the least one: half of it no longer bounds
`n`, unless it is the initial `1`. -/
theorem quantum_le (n : Nat) :
    ∀ fuel q : Nat, (q = 1 ∨ 4503599627370496 * q ≤ n) →
      (quantum n fuel q = 1 ∨ 4503599627370496 * quantum n fuel q ≤ n) := by
  intro fuel
  induction fuel with
  | zero =>
    intro q h
    simpa [quantum] using h
  | succ k ih =>
    intro q h
    unfold quantum
    split
    · exact h
    · apply ih
      right
      omega

theorem quantum_pos (n : Nat) : ∀ fuel q : Nat, 0 < q → 0 < quantum n fuel q := by
  intro fuel
  induction fuel with
  | zero =>
    intro q h
    simpa [quantum] using h
  | succ k ih =>
    intro q h
    unfold quantum
    split
    · exact h
    · exact ih _ (by omega)

/-- The spacing around `n`: `2 ^ 52 * q ≤ n < 2 ^ 53 * q` from `2 ^ 53` on. -/
theorem quantum_spec (n : Nat) (h : 9007199254740992 ≤ n) :
    0 < quantum n n 1 ∧ 4503599627370496 * quantum n n 1 ≤ n ∧
      n < 9007199254740992 * quantum n n 1 := by
  have h1 := quantum_gt n n 1 (by
    have := Nat.lt_two_pow n
    calc n < 2 ^ n := this
      _ ≤ 9007199254740992 * 1 * 2 ^ n := by omega)
  have h2 := quantum_le n n 1 (Or.inl rfl)
  refine ⟨quantum_pos n n 1 (by omega), ?_, h1⟩
  rcases h2 with h2 | h2
  · rw [h2] at h1; omega
  · exact h2

/-- `roundNat n` is a double nearest to `n`: a multiple `m * q` of the spacing
with `2 ^ 52 ≤ m ≤ 2 ^ 53`, at most half a spacing away from `n`. -/
theorem roundNat_spec (n : Nat) (h : 9007199254740992 ≤ n) :
    ∃ m : Nat, roundNat n = m * quantum n n 1 ∧ 4503599627370496 ≤ m ∧ m ≤ 9007199254740992 ∧
      2 * n ≤ 2 * roundNat n + quantum n n 1 ∧ 2 * roundNat n ≤ 2 * n + quantum n n 1 := by
  have hs := quantum_spec n h
  unfold roundNat
  generalize quantum n n 1 = q at hs ⊢
  obtain ⟨hq, hlo, hhi⟩ := hs
  have hn : ¬ n < 9007199254740992 := by omega
  have hdm : q * (n / q) + n % q = n := Nat.div_add_mod n q
  have hr : n % q < q := Nat.mod_lt n hq
  have hm1 : 4503599627370496 ≤ n / q := by
    rw [Nat.le_div_iff_mul_le hq]; exact hlo
  have hm2 : n / q < 9007199254740992 := by
    rw [Nat.div_lt_iff_lt_mul hq]; exact hhi
  have e1 : n / q * q = q * (n / q) := Nat.mul_comm _ _
  have e2 : (n / q + 1) * q = q * (n / q) + q := by ring
  simp only [hn, if_false]
  split
  · refine ⟨n / q + 1, rfl, by omega, by omega, ?_, ?_⟩ <;> rw [e2] <;> omega
  · refine ⟨n / q, rfl, hm1, by omega, ?_, ?_⟩ <;> rw [e1] <;> omega

theorem roundNat_of_lt (n : Nat) (h : n < 9007199254740992) : roundNat n = n := by
  simp [roundNat, h]

theorem ofInt_of_lt (z : Int) (h : z.natAbs < 9007199254740992) : ofInt z = finite z := by
  have ho : z.natAbs < overflow := Nat.lt_trans h (by decide)
  unfold ofInt
  simp only [roundNat_of_lt _ h, ho, if_true]
  congr 1
  have e : Int.ofNat z.natAbs = (z.natAbs : Int) := rfl
  rw [e]
  split <;> omega

end JSNum

/-! ## Lemmas on `computeResults` -/

theorem arrayKey_eq_some_iff (v : JSVal) (i : Nat) : v.arrayKey = some i ↔ v.denotes i = true := by
  cases v <;> simp [JSVal.arrayKey, JSVal.denotes]
  rename_i m k
  have hpos : (0 : Int) < (2 : Int) ^ k := by positivity
  constructor
  · rintro ⟨⟨h0, hmod⟩, hdiv⟩
    have h1 : m = m / (2 : Int) ^ k * (2 : Int) ^ k := by
      rw [Int.ediv_mul_cancel hmod]
    have h2 : 0 ≤ m / (2 : Int) ^ k := Int.ediv_nonneg h0 hpos.le
    have h3 : ((m / (2 : Int) ^ k).toNat : Int) = m / (2 : Int) ^ k := Int.toNat_of_nonneg h2
    rw [← hdiv, h3]
    exact h1
  · intro h
    subst h
    refine ⟨⟨by positivity, Dvd.intro_left _ rfl⟩, ?_⟩
    rw [Int.mul_ediv_cancel _ hpos.ne']
    simp

theorem arrayKey_isNumber (v : JSVal) (i : Nat) (h : v.arrayKey = some i) : v.isNumber = true := by
  cases v <;> simp [JSVal.arrayKey, JSVal.isNumber] at h ⊢

theorem countAnswer_of_key (c : List Nat) (v : JSVal) (i : Nat) (h : v.arrayKey = some i) :
    countAnswer c v = if i < c.length then c.set i (c.getD i 0 + 1) else c := by
  unfold countAnswer elementAt increment
  rw [arrayKey_isNumber v i h, h]
  by_cases hi : i < c.length
  · simp [hi]
  · simp [hi, List.getElem?_eq_none (Nat.le_of_not_lt hi)]

theorem countAnswer_of_no_key (c : List Nat) (v : JSVal) (h : v.arrayKey = none) :
    countAnswer c v = c := by
  unfold countAnswer elementAt increment
  rw [h]
  simp

theorem countAnswer_length (c : List Nat) (v : JSVal) : (countAnswer c v).length = c.length := by
  cases h : v.arrayKey with
  | none => rw [countAnswer_of_no_key c v h]
  | some i =>
    rw [countAnswer_of_key c v i h]
    split <;> simp

theorem foldl_countAnswer_length (vs : List JSVal) (c : List Nat) :
    (vs.foldl countAnswer c).length = c.length := by
  induction vs generalizing c with
  | nil => rfl
  | cons v vs ih => rw [List.foldl_cons, ih, countAnswer_length]

theorem countAnswer_getElem? (c : List Nat) (v : JSVal) (i : Nat) (hi : i < c.length) :
    (countAnswer c v)[i]? = some (c.getD i 0 + if v.denotes i then 1 else 0) := by
  cases h : v.arrayKey with
  | none =>
    have hd : v.denotes i = false := by
      cases hd : v.denotes i with
      | false => rfl
      | true => rw [(arrayKey_eq_some_iff v i).mpr hd] at h; cases h
    rw [countAnswer_of_no_key c v h, hd]
    simp [List.getD_eq_getElem?_getD, List.getElem?_eq_getElem hi]
  | some j =>
    rw [countAnswer_of_key c v j h]
    by_cases hji : j = i
    · subst hji
      rw [(arrayKey_eq_some_iff v j).mp h]
      simp [hi]
    · have hd : v.denotes i = false := by
        cases hd : v.denotes i with
        | false => rfl
        | true =>
          rw [(arrayKey_eq_some_iff v i).mpr hd] at h
          exact absurd (Option.some.inj h).symm hji
      rw [hd]
      split
      · rw [List.getElem?_set_ne hji]
        simp [List.getD_eq_getElem?_getD, List.getElem?_eq_getElem hi]
      · simp [List.getD_eq_getElem?_getD, List.getElem?_eq_getElem hi]

theorem foldl_countAnswer_getElem? (vs : List JSVal) (c : List Nat) (i : Nat) (hi : i < c.length) :
    (vs.foldl countAnswer c)[i]? =
      some (c.getD i 0 + (vs.filter (fun v => v.denotes i)).length) := by
  induction vs generalizing c with
  | nil => simp [List.getD_eq_getElem?_getD, List.getElem?_eq_getElem hi]
  | cons v vs ih =>
    rw [List.foldl_cons, ih (countAnswer c v) (by rw [countAnswer_length]; exact hi)]
    have h := countAnswer_getElem? c v i hi
    rw [List.getD_eq_getElem?_getD, h]
    cases hd : v.denotes i <;> simp [List.filter_cons, hd]
    omega

theorem validIndex_iff (n : Nat) (v : JSVal) :
    v.validIndex n = true ↔ ∃ i, i < n ∧ v.denotes i = true := by
  simp [JSVal.validIndex, List.any_eq_true]

theorem sum_set_succ (c : List Nat) (i : Nat) (hi : i < c.length) :
    (c.set i (c.getD i 0 + 1)).sum = c.sum + 1 := by
  induction c generalizing i with
  | nil => simp at hi
  | cons a c ih =>
    cases i with
    | zero => simp; omega
    | succ i =>
      have h := ih i (by simpa using hi)
      simp only [List.set_cons_succ, List.sum_cons, List.getD_cons_succ]
      omega

theorem countAnswer_sum (c : List Nat) (v : JSVal) :
    (countAnswer c v).sum = c.sum + if v.validIndex c.length then 1 else 0 := by
  cases h : v.arrayKey with
  | none =>
    have hv : v.validIndex c.length = false := by
      cases hv : v.validIndex c.length with
      | false => rfl
      | true =>
        obtain ⟨i, _, hd⟩ := (validIndex_iff _ _).mp hv
        rw [(arrayKey_eq_some_iff v i).mpr hd] at h
        cases h
    rw [countAnswer_of_no_key c v h, hv]
    simp
  | some j =>
    rw [countAnswer_of_key c v j h]
    by_cases hj : j < c.length
    · have hv : v.validIndex c.length = true :=
        (validIndex_iff _ _).mpr ⟨j, hj, (arrayKey_eq_some_iff v j).mp h⟩
      rw [hv, if_pos hj, sum_set_succ c j hj]
      simp
    · have hv : v.validIndex c.length = false := by
        cases hv : v.validIndex c.length with
        | false => rfl
        | true =>
          obtain ⟨i, hi, hd⟩ := (validIndex_iff _ _).mp hv
          rw [(arrayKey_eq_some_iff v i).mpr hd] at h
          exact absurd (Option.some.inj h ▸ hi) hj
      rw [hv]
      simp [hj]

theorem foldl_countAnswer_sum (vs : List JSVal) (c : List Nat) :
    (vs.foldl countAnswer c).sum = c.sum + (vs.filter (fun v => v.validIndex c.length)).length := by
  induction vs generalizing c with
  | nil => simp
  | cons v vs ih =>
    rw [List.foldl_cons, ih, countAnswer_length, countAnswer_sum]
    cases hv : v.validIndex c.length <;> simp [List.filter_cons, hv]
    omega

theorem computeResults_counts_length (q : Question) :
    (computeResults q).counts.length = q.options.length := by
  simp [computeResults, foldl_countAnswer_length]

theorem computeResults_counts_getElem? (q : Question) (i : Nat) (hi : i < q.options.length) :
    (computeResults q).counts[i]? = some (answersFor q.answers i) := by
  have h := foldl_countAnswer_getElem? (JSObj.values q.answers) (q.options.map (fun _ => 0)) i
    (by simpa using hi)
  simp only [computeResults]
  rw [h]
  simp [answersFor, JSObj.values, List.filter_map, List.getD_eq_getElem?_getD, hi, Function.comp_def]

/-! ## Lemmas on objects -/

theorem JSObj.get_replace {α : Type} (o : JSObj α) (key : String) (v : α) (k : String) :
    JSObj.get (JSObj.replace o key v) k =
      if k = key then (JSObj.get o key).map (fun _ => v) else JSObj.get o k := by
  induction o with
  | nil => simp [JSObj.replace, JSObj.get]
  | cons e rest ih =>
    obtain ⟨a, w⟩ := e
    by_cases ha : a = key
    · subst ha
      by_cases hk : k = a
      · subst hk; simp [JSObj.replace, JSObj.get]
      · have hk2 : ¬ a = k := fun h => hk h.symm
        simp [JSObj.replace, JSObj.get, hk, hk2]
    · by_cases hk : k = key
      · subst hk; simp [JSObj.replace, JSObj.get, ha, ih]
      · by_cases hak : a = k
        · simp [JSObj.replace, JSObj.get, ha, hk, hak]
        · simp [JSObj.replace, JSObj.get, ha, hk, hak, ih]

theorem JSObj.get_append_of_none {α : Type} (o : JSObj α) (key : String) (v : α) (k : String)
    (h : JSObj.get o key = none) :
    JSObj.get (o ++ [(key, v)]) k = if k = key then some v else JSObj.get o k := by
  induction o with
  | nil =>
    by_cases hk : k = key
    · subst hk; simp [JSObj.get]
    · have hk2 : ¬ key = k := fun h => hk h.symm
      simp [JSObj.get, hk, hk2]
  | cons e rest ih =>
    obtain ⟨a, w⟩ := e
    have ha : ¬ a = key := by
      intro ha; simp [JSObj.get, ha] at h
    have hr : JSObj.get rest key = none := by simpa [JSObj.get, ha] using h
    by_cases hak : a = k
    · have hk : ¬ k = key := fun h => ha (hak.trans h)
      simp [JSObj.get, hak, hk]
    · simp [JSObj.get, hak, ih hr]

theorem JSObj.get_insertIndex_of_none {α : Type} (o : JSObj α) (n : Nat) (key : String) (v : α)
    (k : String) (h : JSObj.get o key = none) :
    JSObj.get (JSObj.insertIndex o n key v) k = if k = key then some v else JSObj.get o k := by
  induction o with
  | nil =>
    by_cases hk : k = key
    · subst hk; simp [JSObj.insertIndex, JSObj.get]
    · have hk2 : ¬ key = k := fun h => hk h.symm
      simp [JSObj.insertIndex, JSObj.get, hk, hk2]
  | cons e rest ih =>
    obtain ⟨a, w⟩ := e
    have ha : ¬ a = key := by
      intro ha; simp [JSObj.get, ha] at h
    have hr : JSObj.get rest key = none := by simpa [JSObj.get, ha] using h
    have front : JSObj.get ((key, v) :: (a, w) :: rest) k =
        if k = key then some v else JSObj.get ((a, w) :: rest) k := by
      by_cases hk : k = key
      · subst hk; simp [JSObj.get]
      · have hk2 : ¬ key = k := fun h => hk h.symm
        simp [JSObj.get, hk, hk2]
    unfold JSObj.insertIndex
    split
    · split
      · by_cases hak : a = k
        · have hk : ¬ k = key := fun h => ha (hak.trans h)
          simp [JSObj.get, hak, hk]
        · simp [JSObj.get, hak, ih hr]
      · exact front
    · exact front

theorem JSObj.get_set {α : Type} (o : JSObj α) (key : String) (v : α) (k : String) :
    JSObj.get (JSObj.set o key v) k = if k = key then some v else JSObj.get o k := by
  unfold JSObj.set
  split
  · rename_i w hw
    rw [JSObj.get_replace, hw]
    rfl
  · rename_i hw
    split
    · exact JSObj.get_insertIndex_of_none o _ key v k hw
    · exact JSObj.get_append_of_none o key v k hw

theorem JSObj.length_replace {α : Type} (o : JSObj α) (key : String) (v : α) :
    (JSObj.replace o key v).length = o.length := by
  induction o with
  | nil => rfl
  | cons e rest ih =>
    obtain ⟨a, w⟩ := e
    by_cases ha : a = key <;> simp [JSObj.replace, ha, ih]

theorem JSObj.length_insertIndex {α : Type} (o : JSObj α) (n : Nat) (key : String) (v : α) :
    (JSObj.insertIndex o n key v).length = o.length + 1 := by
  induction o with
  | nil => rfl
  | cons e rest ih =>
    obtain ⟨a, w⟩ := e
    unfold JSObj.insertIndex
    split
    · split <;> simp [ih]
    · simp

theorem JSObj.length_set {α : Type} (o : JSObj α) (key : String) (v : α) :
    (JSObj.set o key v).length = if (JSObj.get o key).isSome then o.length else o.length + 1 := by
  unfold JSObj.set
  split
  · rename_i w hw
    simp [hw, JSObj.length_replace]
  · rename_i hw
    split <;> simp [hw, JSObj.length_insertIndex]

/-! ## The result aggregator -/

/-- C1: for every question, whatever its options and answers, `computeResults`
returns one count per option and a total equal to the number of entries of
the answers mapping. -/
theorem computeResults_shape (q : Question) :
    (computeResults q).counts.length = q.options.length ∧
      (computeResults q).total = q.answers.length := by
  refine ⟨computeResults_counts_length q, ?_⟩
  simp [computeResults, JSObj.keys]

/-- C2: for every question and every index `i` below the number of options,
`counts[i]` is the number of entries of the answers mapping whose answer is
the number `i`; entries whose answer is not an integer index in range can be
dropped from the mapping without changing any count. -/
theorem computeResults_counts (q : Question) :
    (∀ i, i < q.options.length →
        (computeResults q).counts[i]? = some (answersFor q.answers i)) ∧
      (computeResults
          { q with
            answers := q.answers.filter (fun e => e.2.validIndex q.options.length) }).counts =
        (computeResults q).counts := by
  refine ⟨computeResults_counts_getElem? q, ?_⟩
  apply List.ext_getElem?
  intro i
  by_cases hi : i < q.options.length
  · have h1 := computeResults_counts_getElem?
      { q with answers := q.answers.filter (fun e => e.2.validIndex q.options.length) } i hi
    rw [computeResults_counts_getElem? q i hi, h1]
    simp only [answersFor, List.filter_filter]
    congr 2
    apply List.filter_congr
    intro e _
    cases hd : e.2.denotes i with
    | false => simp
    | true => simp [(validIndex_iff _ _).mpr ⟨i, hi, hd⟩]
  · rw [List.getElem?_eq_none (by rw [computeResults_counts_length]; exact Nat.le_of_not_lt hi),
      List.getElem?_eq_none (by rw [computeResults_counts_length]; exact Nat.le_of_not_lt hi)]

/-- C3: when every recorded answer is an integer index in range, the total
is the sum of the counts. -/
theorem computeResults_total_eq_sum (q : Question)
    (h : ∀ e ∈ q.answers, e.2.validIndex q.options.length = true) :
    (computeResults q).total = (computeResults q).counts.sum := by
  have hs := foldl_countAnswer_sum (JSObj.values q.answers) (q.options.map (fun _ => 0))
  have hz : (q.options.map (fun _ => (0 : Nat))).sum = 0 := by
    induction q.options with
    | nil => rfl
    | cons a l ih => simp
  have hall : (JSObj.values q.answers).filter
      (fun v => v.validIndex (q.options.map (fun _ => (0 : Nat))).length) =
      JSObj.values q.answers := by
    rw [List.filter_eq_self]
    intro v hv
    simp only [JSObj.values, List.mem_map] at hv
    obtain ⟨e, he, rfl⟩ := hv
    simpa using h e he
  simp only [computeResults]
  rw [hs, hz, hall]
  simp [JSObj.values, JSObj.keys]

/-- Witness for C3 at the sample question: both answers are valid indices and
the total 2 is the sum of the counts. -/
theorem computeResults_total_eq_sum_witness :
    (∀ e ∈ sampleQuestion.answers, e.2.validIndex sampleQuestion.options.length = true) ∧
      (computeResults sampleQuestion).total = (computeResults sampleQuestion).counts.sum :=
  ⟨by decide, computeResults_total_eq_sum sampleQuestion (by decide)⟩

/-- The tally of the sample question. -/
theorem computeResults_sampleQuestion :
    computeResults sampleQuestion = { counts := [1, 1, 0], total := 2 } := by decide

/-- Answers that are not valid indices are counted in the total only. -/
theorem computeResults_messyQuestion :
    computeResults messyQuestion = { counts := [0, 0, 1], total := 7 } := by decide

/-! ## Starting a question -/

/-- C9: on a registered poll whose current question is present,
`teacher:start-question` with any payload is acknowledged with the error
'Question already active', broadcasts nothing and leaves the whole state,
hence the current question, the pending timer, the students and the history,
as they were. -/
theorem startQuestion_rejected_when_active (s : ServerState) (pollId : String) (poll : Poll)
    (question : JSVal) (options : List JSVal) (duration : Option Int) (correctIndex : JSVal)
    (qid : String) (now : Int)
    (hp : JSObj.get s.polls pollId = some poll) (hc : poll.current.isSome = true) :
    startQuestion s pollId question options duration correctIndex qid now =
      { state := s, emitted := [], ack := some (Ack.error "Question already active"),
        thrown := none } := by
  unfold startQuestion
  rw [hp]
  simp [hc]

/-- Witness for C9: a second start while the sample question is running. -/
theorem startQuestion_rejected_when_active_witness :
    JSObj.get sampleActive.polls "poll1" = some sampleActivePoll ∧
      sampleActivePoll.current.isSome = true ∧
      startQuestion sampleActive "poll1" (JSVal.string "Again") [] none JSVal.undefined "q2" 5000 =
        { state := sampleActive, emitted := [],
          ack := some (Ack.error "Question already active"), thrown := none } :=
  ⟨by decide, by decide,
    startQuestion_rejected_when_active sampleActive "poll1" sampleActivePoll (JSVal.string "Again")
      [] none JSVal.undefined "q2" 5000 (by decide) (by decide)⟩

/-- The accepted branch of `teacher:start-question`, in double-precision
arithmetic: `duration` is the double nearest to the payload's integer (60
when omitted) and `endsAt` is `Date.now() + duration * 1000` with the product
and the sum rounded. -/
theorem startQuestion_accepted (s : ServerState) (pollId : String) (poll : Poll)
    (question : JSVal) (options : List JSVal) (duration : Option Int) (correctIndex : JSVal)
    (qid : String) (now : Int)
    (hp : JSObj.get s.polls pollId = some poll) (hc : poll.current = none) :
    startQuestion s pollId question options duration correctIndex qid now =
      { state :=
          { polls := JSObj.replace s.polls pollId
              { poll with current := some s.questions.length, timeout := some s.nextTimer },
            questions := s.questions ++
              [{ id := qid, question := question, options := options, answers := [],
                 duration := (duration.map JSNum.ofInt).getD 60,
                 endsAt := JSNum.add (JSNum.ofInt now)
                   (JSNum.mul ((duration.map JSNum.ofInt).getD 60) 1000),
                 correctIndex := correctIndex }],
            timers := s.timers ++
              [{ id := s.nextTimer, pollId := pollId, current := s.questions.length,
                 delay := JSNum.mul ((duration.map JSNum.ofInt).getD 60) 1000 }],
            nextTimer := s.nextTimer + 1 },
        emitted :=
          [{ room := pollId,
             event := Event.questionStart question options
               (JSNum.add (JSNum.ofInt now)
                 (JSNum.mul ((duration.map JSNum.ofInt).getD 60) 1000)) }],
        ack := some Ack.ok,
        thrown := none } := by
  have hc2 : poll.current.isSome = false := by rw [hc]; rfl
  simp only [startQuestion, hp, hc2]
  rfl

/-- Below `2 ^ 53` the arithmetic of `teacher:start-question` is exact. -/
theorem startQuestion_exact (duration : Option Int) (now : Int)
    (hd : (duration.getD 60 * 1000).natAbs < 9007199254740992)
    (hn : now.natAbs < 9007199254740992)
    (he : (now + duration.getD 60 * 1000).natAbs < 9007199254740992) :
    (duration.map JSNum.ofInt).getD 60 = JSNum.finite (duration.getD 60) ∧
      JSNum.mul ((duration.map JSNum.ofInt).getD 60) 1000 =
        JSNum.finite (duration.getD 60 * 1000) ∧
      JSNum.add (JSNum.ofInt now) (JSNum.mul ((duration.map JSNum.ofInt).getD 60) 1000) =
        JSNum.finite (now + duration.getD 60 * 1000) := by
  have h1 : (duration.map JSNum.ofInt).getD 60 = JSNum.finite (duration.getD 60) := by
    cases duration with
    | none => rfl
    | some d =>
      have hd2 : d.natAbs < 9007199254740992 := by
        simp only [Option.getD_some] at hd
        omega
      simp only [Option.map_some', Option.getD_some]
      exact JSNum.ofInt_of_lt d hd2
  have h2 : JSNum.mul (JSNum.finite (duration.getD 60)) 1000 =
      JSNum.finite (duration.getD 60 * 1000) := JSNum.ofInt_of_lt _ hd
  refine ⟨h1, ?_, ?_⟩
  · rw [h1, h2]
  · rw [h1, h2, JSNum.ofInt_of_lt now hn]
    exact JSNum.ofInt_of_lt _ he

/-- C10 as stated fails: JavaScript numbers are doubles, so `endsAt` is
`now + duration * 1000` rounded. On an idle registered poll, a start with
duration `2 ^ 53` seconds at clock reading 1000 stores
`endsAt = 9007199254740993024`, not `1000 + 9007199254740992 * 1000`. -/
theorem startQuestion_endsAt_rounded :
    ((startQuestion sampleIdle "poll1" (JSVal.string "Pick one") sampleOptions
        (some 9007199254740992) (JSVal.ofNat 1) "q1" 1000).state.currentQuestion "poll1").map
        Question.endsAt = some (JSNum.finite 9007199254740993024) ∧
      ((startQuestion sampleIdle "poll1" (JSVal.string "Pick one") sampleOptions
        (some 9007199254740992) (JSVal.ofNat 1) "q1" 1000).state.currentQuestion "poll1").map
        Question.endsAt ≠ some (JSNum.finite (1000 + 9007199254740992 * 1000)) := by
  decide

/-- C10, amended: on a registered poll with no current question,
`teacher:start-question` at clock reading `now` is acknowledged with ok and
throws nothing; the poll's current question is a new object holding the given
text, options, duration (60 when omitted) and correctIndex, no answers, and
`endsAt`; exactly one timer is added to the pending ones, for that question
and the delay `duration * 1000`, and its handle is stored on the poll; one
`question:start` with the text, the options and `endsAt` is broadcast to the
poll's room; title, students and history of the poll are unchanged. Here
`endsAt` is `now + duration * 1000` milliseconds in double-precision
arithmetic, the product and then the sum each rounded to the nearest double,
which is that integer whenever `duration * 1000`, `now` and their sum are
below `2 ^ 53` in magnitude. -/
theorem startQuestion_accepted_when_idle (s : ServerState) (pollId : String) (poll : Poll)
    (question : JSVal) (options : List JSVal) (duration : Option Int) (correctIndex : JSVal)
    (qid : String) (now : Int)
    (hp : JSObj.get s.polls pollId = some poll) (hc : poll.current = none) :
    let out := startQuestion s pollId question options duration correctIndex qid now
    let d := (duration.map JSNum.ofInt).getD 60
    let endsAt := JSNum.add (JSNum.ofInt now) (JSNum.mul d 1000)
    out.ack = some Ack.ok ∧ out.thrown = none ∧
      out.state.currentQuestion pollId =
        some { id := qid, question := question, options := options, answers := [],
               duration := d, endsAt := endsAt, correctIndex := correctIndex } ∧
      out.state.timers =
        s.timers ++
          [{ id := s.nextTimer, pollId := pollId, current := s.questions.length,
             delay := JSNum.mul d 1000 }] ∧
      out.emitted = [{ room := pollId, event := Event.questionStart question options endsAt }] ∧
      JSObj.get out.state.polls pollId =
        some { title := poll.title, students := poll.students,
               current := some s.questions.length, history := poll.history,
               timeout := some s.nextTimer } ∧
      ((duration.getD 60 * 1000).natAbs < 9007199254740992 →
        now.natAbs < 9007199254740992 →
        (now + duration.getD 60 * 1000).natAbs < 9007199254740992 →
        d = JSNum.finite (duration.getD 60) ∧
          JSNum.mul d 1000 = JSNum.finite (duration.getD 60 * 1000) ∧
          endsAt = JSNum.finite (now + duration.getD 60 * 1000)) := by
  have hg : ∀ p : Poll, JSObj.get (JSObj.replace s.polls pollId p) pollId = some p := by
    intro p
    rw [JSObj.get_replace, hp]
    simp
  intro out d endsAt
  have hout := startQuestion_accepted s pollId poll question options duration correctIndex qid
    now hp hc
  refine ⟨?_, ?_, ?_, ?_, ?_, ?_, ?_⟩
  · simp only [out, hout]
  · simp only [out, hout]
  · simp only [out, hout, ServerState.currentQuestion, hg]
    simp [d, endsAt]
  · simp only [out, hout]
  · simp only [out, hout]
  · simp only [out, hout, hg]
  · exact startQuestion_exact duration now

/-- Witness for C10: the start of the sample question, with the duration
omitted: `endsAt` is `1000 + 60 * 1000`. -/
theorem startQuestion_accepted_when_idle_witness :
    JSObj.get sampleIdle.polls "poll1" =
        some { sampleActivePoll with current := none, timeout := none } ∧
      (startQuestion sampleIdle "poll1" (JSVal.string "Pick one") sampleOptions none
        (JSVal.ofNat 1) "q1" 1000).ack = some Ack.ok ∧
      (startQuestion sampleIdle "poll1" (JSVal.string "Pick one") sampleOptions none
        (JSVal.ofNat 1) "q1" 1000).state.currentQuestion "poll1" =
        some { id := "q1", question := JSVal.string "Pick one", options := sampleOptions,
               answers := [], duration := 60, endsAt := 61000, correctIndex := JSVal.ofNat 1 } ∧
      (startQuestion sampleIdle "poll1" (JSVal.string "Pick one") sampleOptions none
        (JSVal.ofNat 1) "q1" 1000).state.timers =
        [{ id := 0, pollId := "poll1", current := 0, delay := 60000 }] ∧
      (startQuestion sampleIdle "poll1" (JSVal.string "Pick one") sampleOptions none
        (JSVal.ofNat 1) "q1" 1000).emitted =
        [{ room := "poll1",
           event := Event.questionStart (JSVal.string "Pick one") sampleOptions 61000 }] ∧
      JSObj.get (startQuestion sampleIdle "poll1" (JSVal.string "Pick one") sampleOptions none
        (JSVal.ofNat 1) "q1" 1000).state.polls "poll1" = some sampleActivePoll ∧
      JSNum.add (JSNum.ofInt 1000) (JSNum.mul 60 1000) = JSNum.finite (1000 + 60 * 1000) := by
  have h := startQuestion_accepted_when_idle sampleIdle "poll1"
    { sampleActivePoll with current := none, timeout := none } (JSVal.string "Pick one")
    sampleOptions none (JSVal.ofNat 1) "q1" 1000 (by decide) (by decide)
  exact ⟨by decide, h.1, h.2.2.1, h.2.2.2.1, h.2.2.2.2.1, h.2.2.2.2.2.1,
    (h.2.2.2.2.2.2 (by decide) (by decide) (by decide)).2.2⟩

/-! ## Answering -/

/-- C4: on a registered poll with an active question and at least one joined
student, a `student:answer` after which the answers mapping has at least as
many entries as there are joined students removes the timer whose handle the
poll stores from the pending timers, broadcasts the partial tally followed by
exactly one `question:end` carrying `computeResults` of the question with the
new answer, its correctIndex and its options, appends the question with those
results to the history, sets `current` to absent and acknowledges with ok. -/
theorem studentAnswer_early_completion (s : ServerState) (socket pollId : String)
    (optionIndex : JSVal) (poll : Poll) (ref : Nat) (q : Question)
    (hp : JSObj.get s.polls pollId = some poll) (hc : poll.current = some ref)
    (hq : s.questions[ref]? = some q) (hk : 1 ≤ (JSObj.keys poll.students).length)
    (ha : (JSObj.keys poll.students).length ≤
      (JSObj.keys (JSObj.set q.answers socket optionIndex)).length) :
    let current := { q with answers := JSObj.set q.answers socket optionIndex }
    let res := computeResults current
    let out := studentAnswer s socket pollId optionIndex
    out.state.timers = clearTimeout s.timers poll.timeout ∧
      (∀ t ∈ out.state.timers, some t.id ≠ poll.timeout) ∧
      out.emitted =
        [{ room := pollId, event := Event.questionPartial res },
         { room := pollId, event := Event.questionEnd res current.correctIndex current.options }] ∧
      (out.emitted.filter Broadcast.isEnd).length = 1 ∧
      JSObj.get out.state.polls pollId =
        some { poll with
               history := poll.history ++ [{ question := current, results := res }],
               current := none } ∧
      out.state.currentQuestion pollId = none ∧
      out.ack = some Ack.ok ∧ out.thrown = none := by
  have hg : ∀ p : Poll, JSObj.get (JSObj.replace s.polls pollId p) pollId = some p := by
    intro p
    rw [JSObj.get_replace, hp]
    simp
  have hcond : 0 < (JSObj.keys poll.students).length ∧
      (JSObj.keys poll.students).length ≤
        (JSObj.keys (JSObj.set q.answers socket optionIndex)).length := ⟨hk, ha⟩
  simp only [studentAnswer, hp, hc, hq, hcond, ServerState.currentQuestion]
  simp [hg, clearTimeout, Broadcast.isEnd]

/-- Witness for C4, the scenario of the specification: Alice and Bob have
joined, Alice has answered 0, Bob answers 1; the `question:end` carries counts
`[1, 1, 0]` and total 2 and no timer stays pending. -/
theorem studentAnswer_early_completion_witness :
    let out := studentAnswer sampleAfterAlice "bob" "poll1" (JSVal.ofNat 1)
    (out.state.timers = [] ∧
      out.emitted =
        [{ room := "poll1", event := Event.questionPartial { counts := [1, 1, 0], total := 2 } },
         { room := "poll1",
           event := Event.questionEnd { counts := [1, 1, 0], total := 2 } (JSVal.ofNat 1)
             sampleOptions }]) ∧
      (out.state.timers = clearTimeout sampleAfterAlice.timers sampleActivePoll.timeout ∧
        (∀ t ∈ out.state.timers, some t.id ≠ sampleActivePoll.timeout) ∧
        out.emitted =
          [{ room := "poll1", event := Event.questionPartial (computeResults sampleQuestion) },
           { room := "poll1",
             event := Event.questionEnd (computeResults sampleQuestion) (JSVal.ofNat 1)
               sampleOptions }] ∧
        (out.emitted.filter Broadcast.isEnd).length = 1 ∧
        JSObj.get out.state.polls "poll1" =
          some { sampleActivePoll with
                 history :=
                   [{ question := sampleQuestion, results := computeResults sampleQuestion }],
                 current := none } ∧
        out.state.currentQuestion "poll1" = none ∧
        out.ack = some Ack.ok ∧ out.thrown = none) :=
  ⟨by decide,
    studentAnswer_early_completion sampleAfterAlice "bob" "poll1" (JSVal.ofNat 1) sampleActivePoll 0
      { sampleQuestion with answers := [("alice", JSVal.ofNat 0)] }
      (by decide) (by decide) (by decide) (by decide) (by decide)⟩

/-- C5: an accepted `student:answer` ends the question within the handler run
exactly when the poll has at least one joined student and, after the answer
is recorded, the answers mapping has at least as many entries as the students
mapping, whoever the answering sessions are and whatever they answered. When
it does not end the question, the table of polls (hence the poll's current
question address, stored timer handle, students and history) and the pending
timers are unchanged, the question differs only by the recorded answer, and
the only broadcast is one `question:partial`. -/
theorem studentAnswer_ends_iff (s : ServerState) (socket pollId : String) (optionIndex : JSVal)
    (poll : Poll) (ref : Nat) (q : Question)
    (hp : JSObj.get s.polls pollId = some poll) (hc : poll.current = some ref)
    (hq : s.questions[ref]? = some q) :
    let current := { q with answers := JSObj.set q.answers socket optionIndex }
    let out := studentAnswer s socket pollId optionIndex
    let full := 0 < (JSObj.keys poll.students).length ∧
      (JSObj.keys poll.students).length ≤ (JSObj.keys current.answers).length
    (out.emitted.any Broadcast.isEnd = true ↔ full) ∧
      (out.state.currentQuestion pollId = none ↔ full) ∧
      (¬ full →
        out.state.polls = s.polls ∧ out.state.timers = s.timers ∧
          out.state.currentQuestion pollId = some current ∧
          out.emitted =
            [{ room := pollId, event := Event.questionPartial (computeResults current) }]) := by
  have hg : ∀ p : Poll, JSObj.get (JSObj.replace s.polls pollId p) pollId = some p := by
    intro p
    rw [JSObj.get_replace, hp]
    simp
  have hlt : ref < s.questions.length := by
    by_contra hn
    rw [List.getElem?_eq_none (Nat.le_of_not_lt hn)] at hq
    cases hq
  by_cases hfull : 0 < (JSObj.keys poll.students).length ∧
      (JSObj.keys poll.students).length ≤
        (JSObj.keys (JSObj.set q.answers socket optionIndex)).length
  · simp only [studentAnswer, hp, hc, hq, hfull, ServerState.currentQuestion]
    simp [hg, Broadcast.isEnd]
  · simp only [studentAnswer, hp, hc, hq, hfull, ServerState.currentQuestion]
    simp [hp, hc, hlt, Broadcast.isEnd]

/-- Witness for C5: Alice answers first on the sample poll, where two students
have joined; the question goes on. -/
theorem studentAnswer_ends_iff_witness :
    let current := { sampleQuestion with answers := [("alice", JSVal.ofNat 0)] }
    let out := studentAnswer sampleActive "alice" "poll1" (JSVal.ofNat 0)
    let full := 0 < (JSObj.keys sampleActivePoll.students).length ∧
      (JSObj.keys sampleActivePoll.students).length ≤ (JSObj.keys current.answers).length
    (out.emitted.any Broadcast.isEnd = true ↔ full) ∧
      (out.state.currentQuestion "poll1" = none ↔ full) ∧
      (¬ full →
        out.state.polls = sampleActive.polls ∧ out.state.timers = sampleActive.timers ∧
          out.state.currentQuestion "poll1" = some current ∧
          out.emitted =
            [{ room := "poll1", event := Event.questionPartial (computeResults current) }]) :=
  studentAnswer_ends_iff sampleActive "alice" "poll1" (JSVal.ofNat 0) sampleActivePoll 0
    { sampleQuestion with answers := [] } (by decide) (by decide) (by decide)

/-! ## The deadline timer -/

/-- C6: when the pending timer of a poll's current question expires, it
leaves the pending timers and its callback broadcasts one `question:end` whose
results are `computeResults` of the current question with the answers recorded
so far, with the question's correctIndex and options, appends the question
with those results to the history, sets `current` to absent and throws
nothing. -/
theorem timerFire_when_active (s : ServerState) (id : Nat) (t : Timer) (poll : Poll) (q : Question)
    (ht : s.timers.find? (fun u => decide (u.id = id)) = some t)
    (hp : JSObj.get s.polls t.pollId = some poll) (hc : poll.current = some t.current)
    (hq : s.questions[t.current]? = some q) :
    let out := timerFire s id
    out.emitted =
        [{ room := t.pollId,
           event := Event.questionEnd (computeResults q) q.correctIndex q.options }] ∧
      JSObj.get out.state.polls t.pollId =
        some { poll with
               history := poll.history ++ [{ question := q, results := computeResults q }],
               current := none } ∧
      out.state.currentQuestion t.pollId = none ∧
      out.state.timers = s.timers.filter (fun u => decide (u.id ≠ id)) ∧
      out.state.questions = s.questions ∧
      out.thrown = none := by
  have hg : ∀ p : Poll, JSObj.get (JSObj.replace s.polls t.pollId p) t.pollId = some p := by
    intro p
    rw [JSObj.get_replace, hp]
    simp
  simp only [timerFire, ht, timerCallback, hp, hc, hq, ServerState.currentQuestion,
    ServerState.putPoll]
  simp [hg]

/-- Witness for C6, the scenario of the specification: Alice and Bob have
joined, only Alice has answered 0 when the timer expires; the `question:end`
carries counts `[1, 0, 0]` and total 1. -/
theorem timerFire_when_active_witness :
    let q := { sampleQuestion with answers := [("alice", JSVal.ofNat 0)] }
    let out := timerFire sampleAfterAlice 0
    computeResults q = { counts := [1, 0, 0], total := 1 } ∧
      out.emitted =
        [{ room := "poll1",
           event := Event.questionEnd (computeResults q) q.correctIndex q.options }] ∧
      JSObj.get out.state.polls "poll1" =
        some { sampleActivePoll with
               history := [{ question := q, results := computeResults q }],
               current := none } ∧
      out.state.currentQuestion "poll1" = none ∧
      out.state.timers = sampleAfterAlice.timers.filter (fun u => decide (u.id ≠ 0)) ∧
      out.state.questions = sampleAfterAlice.questions ∧
      out.thrown = none :=
  ⟨by decide,
    timerFire_when_active sampleAfterAlice 0
      { id := 0, pollId := "poll1", current := 0, delay := 60000 } sampleActivePoll
      { sampleQuestion with answers := [("alice", JSVal.ofNat 0)] }
      (by decide) (by decide) (by decide) (by decide)⟩

/-- C8, what the code does: in the state reached by `collisionTrace` the poll
is idle because its question was ended by another timer, the timer of that
question (handle 1) is still pending, and when it expires the callback throws
a `TypeError` (from `computeResults(null)`), having broadcast nothing and
changed neither `current` nor the history. -/
theorem timerFire_when_idle_throws :
    (timerFire collisionState 1).thrown = some "TypeError" ∧
      collisionState.currentQuestion "poll1" = none ∧
      collisionState.timers = [{ id := 1, pollId := "poll1", current := 1, delay := 60000 }] ∧
      (timerFire collisionState 1).emitted = [] ∧
      (timerFire collisionState 1).state.polls = collisionState.polls ∧
      (timerFire collisionState 1).state.questions = collisionState.questions := by
  decide

/-- The callback run on an idle poll, in any state: it throws before it
broadcasts or writes anything. -/
theorem timerCallback_when_idle (s : ServerState) (t : Timer) (poll : Poll)
    (hp : JSObj.get s.polls t.pollId = some poll) (hc : poll.current = none) :
    timerCallback s t = { state := s, emitted := [], ack := none, thrown := some "TypeError" } := by
  simp [timerCallback, hp, hc]

/-! ## Traces: what each step broadcasts -/

theorem JSObj.get_cons {α : Type} (e : String × α) (rest : JSObj α) (k : String) :
    JSObj.get (e :: rest) k = if e.1 = k then some e.2 else JSObj.get rest k := by
  obtain ⟨a, w⟩ := e
  rfl

theorem dropStudent_core (socket : String) (a : String) (w : Poll) :
    ∃ w', dropStudent socket (a, w) = (a, w') ∧ w'.core = w.core := by
  unfold dropStudent
  split
  · exact ⟨_, rfl, rfl⟩
  · exact ⟨_, rfl, rfl⟩

theorem view_disconnect (s : ServerState) (socket : String) (p : String) :
    (disconnect s socket).state.view p = s.view p := by
  simp only [disconnect, ServerState.view]
  induction s.polls with
  | nil => rfl
  | cons e rest ih =>
    obtain ⟨a, w⟩ := e
    obtain ⟨w', hw, hcore⟩ := dropStudent_core socket a w
    rw [List.map_cons, hw, JSObj.get_cons, JSObj.get_cons]
    by_cases ha : a = p
    · simp [ha, hcore]
    · simpa [ha] using ih

theorem disconnect_no_end (s : ServerState) (socket : String) :
    (disconnect s socket).emitted.filter Broadcast.isEnd = [] ∧
      (disconnect s socket).emitted.filter Broadcast.isStart = [] := by
  simp only [disconnect, List.filter_eq_nil_iff, List.mem_filterMap]
  constructor <;>
  · rintro b ⟨e, _, he⟩
    unfold dropNotice at he
    split at he
    · cases he; simp [Broadcast.isEnd, Broadcast.isStart]
    · cases he

theorem step_ends (s : ServerState) (e : Input) :
    (step s e).emitted.filter Broadcast.isEnd = (endRecord s e).toList.map EndRecord.broadcast := by
  cases e with
  | createPoll title pollId => simp [step, createPoll, endRecord]
  | startQuestion pollId question options duration correctIndex qid now =>
    simp only [step, startQuestion, endRecord]
    split
    · simp
    · split <;> simp [Broadcast.isEnd]
  | join socket pollId name =>
    simp only [step, studentJoin, endRecord]
    split <;> simp [Broadcast.isEnd]
  | answer socket pollId optionIndex =>
    simp only [step, studentAnswer, endRecord]
    split
    · simp
    · split
      · simp
      · split
        · simp
        · split <;> simp [Broadcast.isEnd, EndRecord.broadcast]
  | disconnect socket => simp [step, endRecord, (disconnect_no_end s socket).1]
  | timerFire id =>
    simp only [step, timerFire, endRecord]
    split
    · simp
    · simp only [timerCallback]
      split
      · simp
      · split
        · simp
        · split <;> simp [Broadcast.isEnd, EndRecord.broadcast]

theorem broadcasts_ends (s : ServerState) (tr : List Input) :
    (broadcasts s tr).filter Broadcast.isEnd = (endLog s tr).map EndRecord.broadcast := by
  induction tr generalizing s with
  | nil => rfl
  | cons e rest ih =>
    simp only [broadcasts, endLog, List.filter_append, List.map_append, ih, step_ends]

theorem step_starts (s : ServerState) (e : Input) :
    (step s e).state.questions.length =
      s.questions.length + ((step s e).emitted.filter Broadcast.isStart).length := by
  cases e with
  | createPoll title pollId => simp [step, createPoll]
  | startQuestion pollId question options duration correctIndex qid now =>
    simp only [step, startQuestion]
    split
    · simp
    · split <;> simp [Broadcast.isStart]
  | join socket pollId name =>
    simp only [step, studentJoin]
    split <;> simp [Broadcast.isStart, ServerState.putPoll]
  | answer socket pollId optionIndex =>
    simp only [step, studentAnswer]
    split
    · simp
    · split
      · simp
      · split
        · simp
        · split <;> simp [Broadcast.isStart]
  | disconnect socket =>
    simp [step, (disconnect_no_end s socket).2]
    simp [disconnect]
  | timerFire id =>
    simp only [step, timerFire]
    split
    · simp
    · simp only [timerCallback]
      split
      · simp
      · split
        · simp
        · split <;> simp [Broadcast.isStart, ServerState.putPoll]

theorem run_starts (s : ServerState) (tr : List Input) :
    (run s tr).questions.length =
      s.questions.length + ((broadcasts s tr).filter Broadcast.isStart).length := by
  induction tr generalizing s with
  | nil => simp [run, broadcasts]
  | cons e rest ih =>
    simp only [run, broadcasts, List.filter_append, List.length_append, ih, step_starts]
    omega

/-! ## Traces: the invariant -/

theorem Inv.initially : Inv (fun _ => none) [] [] 0 [] := by
  constructor <;> simp

theorem Inv.frame {view : String → Option PollCore} {heap heap' : List Question}
    {timers timers' : List Timer} {next : Nat} {log : List EndRecord}
    (h : Inv view heap timers next log) (hlen : heap'.length = heap.length)
    (hfix : ∀ rec ∈ log, heap'[rec.archived]? = heap[rec.archived]? ∧
      heap'[rec.cleared]? = heap[rec.cleared]?)
    (hsub : ∀ t ∈ timers', t ∈ timers) : Inv view heap' timers' next log where
  cur_lt := fun p c r hv hc => hlen ▸ h.cur_lt p c r hv hc
  cur_fresh := h.cur_fresh
  cur_inj := h.cur_inj
  timer_lt := fun t ht => hlen ▸ h.timer_lt t (hsub t ht)
  timer_fresh := fun t ht => h.timer_fresh t (hsub t ht)
  timer_inj := fun t ht t' ht' => h.timer_inj t (hsub t ht) t' (hsub t' ht')
  link := fun p c r hv hc t ht => h.link p c r hv hc t (hsub t ht)
  log_lt := fun rec hr => hlen ▸ h.log_lt rec hr
  archived_nodup := h.archived_nodup
  cleared_nodup := h.cleared_nodup
  history := h.history
  frozen := fun rec hr => (hfix rec hr).1 ▸ h.frozen rec hr
  results := fun rec hr => (hfix rec hr).2 ▸ h.results rec hr
  handle_lt := h.handle_lt
  owner := fun p c n hv hc t ht => h.owner p c n hv hc t (hsub t ht)

theorem Inv.create {view : String → Option PollCore} {heap : List Question}
    {timers : List Timer} {next : Nat} {log : List EndRecord}
    (h : Inv view heap timers next log) (p : String) :
    Inv (fun k => if k = p then some { current := none, timeout := none, history := [] }
      else view k) heap timers next log where
  cur_lt := by
    intro k c r hv hc
    by_cases hk : k = p
    · simp only [hk, if_true, Option.some.injEq] at hv
      subst hv; cases hc
    · simp only [hk, if_false] at hv
      exact h.cur_lt k c r hv hc
  cur_fresh := by
    intro k c r hv hc
    by_cases hk : k = p
    · simp only [hk, if_true, Option.some.injEq] at hv
      subst hv; cases hc
    · simp only [hk, if_false] at hv
      exact h.cur_fresh k c r hv hc
  cur_inj := by
    intro k k' c c' r hv hv' hc hc'
    by_cases hk : k = p
    · simp only [hk, if_true, Option.some.injEq] at hv
      subst hv; cases hc
    · by_cases hk' : k' = p
      · simp only [hk', if_true, Option.some.injEq] at hv'
        subst hv'; cases hc'
      · simp only [hk, if_false] at hv
        simp only [hk', if_false] at hv'
        exact h.cur_inj k k' c c' r hv hv' hc hc'
  timer_lt := h.timer_lt
  timer_fresh := h.timer_fresh
  timer_inj := h.timer_inj
  link := by
    intro k c r hv hc
    by_cases hk : k = p
    · simp only [hk, if_true, Option.some.injEq] at hv
      subst hv; cases hc
    · simp only [hk, if_false] at hv
      exact h.link k c r hv hc
  log_lt := h.log_lt
  archived_nodup := h.archived_nodup
  cleared_nodup := h.cleared_nodup
  history := by
    intro k c hv
    by_cases hk : k = p
    · simp only [hk, if_true, Option.some.injEq] at hv
      subst hv
      exact List.nil_suffix
    · simp only [hk, if_false] at hv
      exact h.history k c hv
  frozen := h.frozen
  results := h.results
  handle_lt := by
    intro k c n hv hc
    by_cases hk : k = p
    · simp only [hk, if_true, Option.some.injEq] at hv
      subst hv; cases hc
    · simp only [hk, if_false] at hv
      exact h.handle_lt k c n hv hc
  owner := by
    intro k c n hv hc
    by_cases hk : k = p
    · simp only [hk, if_true, Option.some.injEq] at hv
      subst hv; cases hc
    · simp only [hk, if_false] at hv
      exact h.owner k c n hv hc

theorem Inv.start {view : String → Option PollCore} {heap : List Question}
    {timers : List Timer} {next : Nat} {log : List EndRecord}
    (h : Inv view heap timers next log) (p : String) (c : PollCore) (q : Question) (d : JSNum)
    (hv : view p = some c) :
    Inv (fun k => if k = p then
        some { current := some heap.length, timeout := some next, history := c.history }
      else view k)
      (heap ++ [q]) (timers ++ [{ id := next, pollId := p, current := heap.length, delay := d }])
      (next + 1) log where
  cur_lt := by
    intro k c' r hv' hc
    by_cases hk : k = p
    · simp only [hk, if_true, Option.some.injEq] at hv'
      subst hv'
      cases hc
      simp
    · simp only [hk, if_false] at hv'
      have := h.cur_lt k c' r hv' hc
      simp only [List.length_append, List.length_singleton]
      omega
  cur_fresh := by
    intro k c' r hv' hc rec hr
    by_cases hk : k = p
    · simp only [hk, if_true, Option.some.injEq] at hv'
      subst hv'
      cases hc
      have := h.log_lt rec hr
      omega
    · simp only [hk, if_false] at hv'
      exact h.cur_fresh k c' r hv' hc rec hr
  cur_inj := by
    intro k k' c1 c2 r hv1 hv2 hc1 hc2
    by_cases hk : k = p
    · by_cases hk' : k' = p
      · rw [hk, hk']
      · simp only [hk, if_true, Option.some.injEq] at hv1
        simp only [hk', if_false] at hv2
        subst hv1
        cases hc1
        have := h.cur_lt k' c2 _ hv2 hc2
        omega
    · by_cases hk' : k' = p
      · simp only [hk', if_true, Option.some.injEq] at hv2
        simp only [hk, if_false] at hv1
        subst hv2
        cases hc2
        have := h.cur_lt k c1 _ hv1 hc1
        omega
      · simp only [hk, if_false] at hv1
        simp only [hk', if_false] at hv2
        exact h.cur_inj k k' c1 c2 r hv1 hv2 hc1 hc2
  timer_lt := by
    intro t ht
    simp only [List.mem_append, List.mem_singleton] at ht
    simp only [List.length_append, List.length_singleton]
    rcases ht with ht | rfl
    · have := h.timer_lt t ht
      omega
    · simp
  timer_fresh := by
    intro t ht rec hr
    simp only [List.mem_append, List.mem_singleton] at ht
    rcases ht with ht | rfl
    · exact h.timer_fresh t ht rec hr
    · have := h.log_lt rec hr
      simp only
      omega
  timer_inj := by
    intro t ht t' ht' heq
    simp only [List.mem_append, List.mem_singleton] at ht ht'
    rcases ht with ht | rfl
    · rcases ht' with ht' | rfl
      · exact h.timer_inj t ht t' ht' heq
      · have := h.timer_lt t ht
        simp only at heq
        omega
    · rcases ht' with ht' | rfl
      · have := h.timer_lt t' ht'
        simp only at heq
        omega
      · rfl
  link := by
    intro k c' r hv' hc t ht htr
    simp only [List.mem_append, List.mem_singleton] at ht
    by_cases hk : k = p
    · simp only [hk, if_true, Option.some.injEq] at hv'
      subst hv'
      cases hc
      rcases ht with ht | rfl
      · have := h.timer_lt t ht
        omega
      · exact ⟨hk.symm, rfl⟩
    · simp only [hk, if_false] at hv'
      rcases ht with ht | rfl
      · exact h.link k c' r hv' hc t ht htr
      · have := h.cur_lt k c' r hv' hc
        simp only at htr
        omega
  log_lt := by
    intro rec hr
    have := h.log_lt rec hr
    simp only [List.length_append, List.length_singleton]
    omega
  archived_nodup := h.archived_nodup
  cleared_nodup := h.cleared_nodup
  history := by
    intro k c' hv'
    by_cases hk : k = p
    · simp only [hk, if_true, Option.some.injEq] at hv'
      subst hv'
      exact hk ▸ h.history p c hv
    · simp only [hk, if_false] at hv'
      exact h.history k c' hv'
  frozen := by
    intro rec hr
    rw [List.getElem?_append_left (h.log_lt rec hr).1]
    exact h.frozen rec hr
  results := by
    intro rec hr
    rw [List.getElem?_append_left (h.log_lt rec hr).2]
    exact h.results rec hr
  handle_lt := by
    intro k c' n hv' hc'
    by_cases hk : k = p
    · simp only [hk, if_true, Option.some.injEq] at hv'
      subst hv'
      cases hc'
      omega
    · simp only [hk, if_false] at hv'
      have := h.handle_lt k c' n hv' hc'
      omega
  owner := by
    intro k c' n hv' hc' t ht htn
    simp only [List.mem_append, List.mem_singleton] at ht
    by_cases hk : k = p
    · simp only [hk, if_true, Option.some.injEq] at hv'
      subst hv'
      cases hc'
      rcases ht with ht | rfl
      · have := h.timer_lt t ht
        omega
      · exact hk.symm
    · simp only [hk, if_false] at hv'
      rcases ht with ht | rfl
      · exact h.owner k c' n hv' hc' t ht htn
      · have := h.handle_lt k c' n hv' hc'
        simp only at htn
        omega

theorem Inv.finish {view : String → Option PollCore} {heap : List Question}
    {timers : List Timer} {next : Nat} {log : List EndRecord}
    (h : Inv view heap timers next log) (p : String) (c : PollCore) (ra rc : Nat) (b : Bool)
    (entry : HistoryEntry)
    (hv : view p = some c) (hc : c.current = some rc) (ha_lt : ra < heap.length)
    (hqa : heap[ra]? = some entry.question)
    (hqc : ∃ qc, heap[rc]? = some qc ∧ entry.results = computeResults qc)
    (ha_fresh : ∀ rec ∈ log, rec.archived ≠ ra)
    (ha_cur : ∀ k c', view k = some c' → c'.current = some ra → k = p)
    (ht : ∀ t ∈ timers, t.current ≠ ra) :
    Inv (fun k => if k = p then
        some { current := none, timeout := c.timeout, history := c.history ++ [entry] }
      else view k)
      heap timers next
      (log ++ [{ room := p, archived := ra, cleared := rc, byTimer := b, entry := entry }]) where
  cur_lt := by
    intro k c' r hv' hc'
    by_cases hk : k = p
    · simp only [hk, if_true, Option.some.injEq] at hv'
      subst hv'; cases hc'
    · simp only [hk, if_false] at hv'
      exact h.cur_lt k c' r hv' hc'
  cur_fresh := by
    intro k c' r hv' hc' rec hr
    by_cases hk : k = p
    · simp only [hk, if_true, Option.some.injEq] at hv'
      subst hv'; cases hc'
    · simp only [hk, if_false] at hv'
      simp only [List.mem_append, List.mem_singleton] at hr
      rcases hr with hr | rfl
      · exact h.cur_fresh k c' r hv' hc' rec hr
      · constructor
        · intro he
          simp only at he
          exact hk (ha_cur k c' hv' (he ▸ hc'))
        · intro he
          simp only at he
          exact hk (h.cur_inj k p c' c r hv' hv hc' (he ▸ hc))
  cur_inj := by
    intro k k' c1 c2 r hv1 hv2 hc1 hc2
    by_cases hk : k = p
    · simp only [hk, if_true, Option.some.injEq] at hv1
      subst hv1; cases hc1
    · by_cases hk' : k' = p
      · simp only [hk', if_true, Option.some.injEq] at hv2
        subst hv2; cases hc2
      · simp only [hk, if_false] at hv1
        simp only [hk', if_false] at hv2
        exact h.cur_inj k k' c1 c2 r hv1 hv2 hc1 hc2
  timer_lt := h.timer_lt
  timer_fresh := by
    intro t htm rec hr
    simp only [List.mem_append, List.mem_singleton] at hr
    rcases hr with hr | rfl
    · exact h.timer_fresh t htm rec hr
    · exact fun he => ht t htm he.symm
  timer_inj := h.timer_inj
  link := by
    intro k c' r hv' hc'
    by_cases hk : k = p
    · simp only [hk, if_true, Option.some.injEq] at hv'
      subst hv'; cases hc'
    · simp only [hk, if_false] at hv'
      exact h.link k c' r hv' hc'
  log_lt := by
    intro rec hr
    simp only [List.mem_append, List.mem_singleton] at hr
    rcases hr with hr | rfl
    · exact h.log_lt rec hr
    · exact ⟨ha_lt, h.cur_lt p c rc hv hc⟩
  archived_nodup := by
    rw [List.map_append, List.nodup_append]
    refine ⟨h.archived_nodup, by simp, ?_⟩
    intro a ha1 ha2
    simp only [List.map_cons, List.map_nil, List.mem_singleton] at ha2
    simp only [List.mem_map] at ha1
    obtain ⟨rec, hr, hra⟩ := ha1
    exact ha_fresh rec hr (hra.trans ha2)
  cleared_nodup := by
    rw [List.map_append, List.nodup_append]
    refine ⟨h.cleared_nodup, by simp, ?_⟩
    intro a ha1 ha2
    simp only [List.map_cons, List.map_nil, List.mem_singleton] at ha2
    simp only [List.mem_map] at ha1
    obtain ⟨rec, hr, hra⟩ := ha1
    exact (h.cur_fresh p c rc hv hc rec hr).2 (hra.trans ha2)
  history := by
    intro k c' hv'
    by_cases hk : k = p
    · simp only [hk, if_true, Option.some.injEq] at hv'
      subst hv'
      subst hk
      obtain ⟨pre, hpre⟩ := h.history k c hv
      refine ⟨pre, ?_⟩
      simp [List.filter_append, ← hpre]
    · simp only [hk, if_false] at hv'
      have hpk : ¬ p = k := fun e => hk e.symm
      simpa [List.filter_append, hpk] using h.history k c' hv'
  frozen := by
    intro rec hr
    simp only [List.mem_append, List.mem_singleton] at hr
    rcases hr with hr | rfl
    · exact h.frozen rec hr
    · exact hqa
  results := by
    intro rec hr
    simp only [List.mem_append, List.mem_singleton] at hr
    rcases hr with hr | rfl
    · exact h.results rec hr
    · exact hqc
  handle_lt := by
    intro k c' n hv' hc'
    by_cases hk : k = p
    · simp only [hk, if_true, Option.some.injEq] at hv'
      subst hv'
      exact h.handle_lt p c n hv hc'
    · simp only [hk, if_false] at hv'
      exact h.handle_lt k c' n hv' hc'
  owner := by
    intro k c' n hv' hc'
    by_cases hk : k = p
    · simp only [hk, if_true, Option.some.injEq] at hv'
      subst hv'
      exact hk ▸ h.owner p c n hv hc'
    · simp only [hk, if_false] at hv'
      exact h.owner k c' n hv' hc'

theorem view_replace (polls : JSObj Poll) (p : String) (poll poll' : Poll)
    (hp : JSObj.get polls p = some poll) (k : String) :
    (JSObj.get (JSObj.replace polls p poll') k).map Poll.core =
      if k = p then some poll'.core else (JSObj.get polls k).map Poll.core := by
  rw [JSObj.get_replace, hp]
  by_cases hk : k = p <;> simp [hk]

theorem view_set (polls : JSObj Poll) (p : String) (poll' : Poll) (k : String) :
    (JSObj.get (JSObj.set polls p poll') k).map Poll.core =
      if k = p then some poll'.core else (JSObj.get polls k).map Poll.core := by
  rw [JSObj.get_set]
  by_cases hk : k = p <;> simp [hk]

theorem Consistent.of_init : Consistent ServerState.init [] := by
  have h : ServerState.init.view = fun _ => none := by
    funext k
    rfl
  unfold Consistent
  rw [h]
  exact Inv.initially

theorem Consistent.after_createPoll {s : ServerState} {log : List EndRecord} (h : Consistent s log)
    (title : JSVal) (p : String) : Consistent (createPoll s title p).state log := by
  have hview : (createPoll s title p).state.view =
      fun k => if k = p then some { current := none, timeout := none, history := [] }
        else s.view k := by
    funext k
    simp only [createPoll, ServerState.view, view_set]
    rfl
  unfold Consistent
  rw [hview]
  exact Inv.create h p

theorem Consistent.after_startQuestion {s : ServerState} {log : List EndRecord} (h : Consistent s log)
    (p : String) (question : JSVal) (options : List JSVal) (duration : Option Int)
    (correctIndex : JSVal) (qid : String) (now : Int) :
    Consistent (startQuestion s p question options duration correctIndex qid now).state log := by
  unfold startQuestion
  cases hp : JSObj.get s.polls p with
  | none => exact h
  | some poll =>
    by_cases hc : poll.current.isSome = true
    · simp only [hc, if_true]
      exact h
    · simp only [hc]
      have hv : s.view p = some poll.core := by simp [ServerState.view, hp]
      unfold Consistent
      have hview : ServerState.view
          { polls := JSObj.replace s.polls p
              { poll with current := some s.questions.length, timeout := some s.nextTimer },
            questions := s.questions ++
              [{ id := qid, question := question, options := options, answers := [],
                 duration := (duration.map JSNum.ofInt).getD 60,
                 endsAt := JSNum.add (JSNum.ofInt now)
                   (JSNum.mul ((duration.map JSNum.ofInt).getD 60) 1000),
                 correctIndex := correctIndex }],
            timers := s.timers ++
              [{ id := s.nextTimer, pollId := p, current := s.questions.length,
                 delay := JSNum.mul ((duration.map JSNum.ofInt).getD 60) 1000 }],
            nextTimer := s.nextTimer + 1 } =
          fun k => if k = p then
              some { current := some s.questions.length, timeout := some s.nextTimer,
                     history := poll.core.history }
            else s.view k := by
        funext k
        simp only [ServerState.view, view_replace _ _ _ _ hp]
        rfl
      simp only [if_false, Bool.false_eq_true]
      rw [hview]
      exact Inv.start h p poll.core _ _ hv

theorem Consistent.after_studentJoin {s : ServerState} {log : List EndRecord} (h : Consistent s log)
    (socket p : String) (name : JSVal) : Consistent (studentJoin s socket p name).state log := by
  unfold studentJoin
  cases hp : JSObj.get s.polls p with
  | none => exact h
  | some poll =>
    have hview : ∀ st : JSObj JSVal,
        (s.putPoll p { poll with students := st }).view = s.view := by
      intro st
      funext k
      simp only [ServerState.putPoll, ServerState.view, view_replace _ _ _ _ hp]
      by_cases hk : k = p
      · simp [hk, hp, Poll.core]
      · simp [hk]
    unfold Consistent
    simp only [hview]
    exact h

theorem Consistent.after_disconnect {s : ServerState} {log : List EndRecord} (h : Consistent s log)
    (socket : String) : Consistent (disconnect s socket).state log := by
  have hview : (disconnect s socket).state.view = s.view := by
    funext k
    exact view_disconnect s socket k
  unfold Consistent
  rw [hview]
  exact h

theorem Consistent.after_studentAnswer {s : ServerState} {log : List EndRecord}
    (h : Consistent s log) (socket p : String) (optionIndex : JSVal) :
    Consistent (studentAnswer s socket p optionIndex).state
      (log ++ (endRecord s (Input.answer socket p optionIndex)).toList) := by
  cases hp : JSObj.get s.polls p with
  | none => simpa [studentAnswer, endRecord, hp] using h
  | some poll =>
    cases hc : poll.current with
    | none => simpa [studentAnswer, endRecord, hp, hc] using h
    | some ref =>
      cases hq : s.questions[ref]? with
      | none => simpa [studentAnswer, endRecord, hp, hc, hq] using h
      | some q =>
        have hv : s.view p = some poll.core := by simp [ServerState.view, hp]
        have hcc : poll.core.current = some ref := hc
        have hlt : ref < s.questions.length := h.cur_lt p _ ref hv hcc
        have hframe : ∀ (timers' : List Timer), (∀ t ∈ timers', t ∈ s.timers) →
            Inv s.view
              (s.questions.set ref { q with answers := JSObj.set q.answers socket optionIndex })
              timers' s.nextTimer log := by
          intro timers' hsub
          refine Inv.frame h (by simp) ?_ hsub
          intro rec hr
          have hne := h.cur_fresh p _ ref hv hcc rec hr
          exact ⟨List.getElem?_set_ne (Ne.symm hne.1), List.getElem?_set_ne (Ne.symm hne.2)⟩
        by_cases hfull : 0 < (JSObj.keys poll.students).length ∧
            (JSObj.keys poll.students).length ≤
              (JSObj.keys (JSObj.set q.answers socket optionIndex)).length
        · simp only [studentAnswer, endRecord, hp, hc, hq, hfull, and_self, if_true, Option.toList]
          unfold Consistent
          have hview : ∀ (hist : List HistoryEntry) (qs : List Question) (ts : List Timer)
              (n : Nat),
              ServerState.view
                { polls := JSObj.replace s.polls p { poll with history := hist, current := none },
                  questions := qs, timers := ts, nextTimer := n } =
              fun k => if k = p then
                  some { current := none, timeout := poll.core.timeout, history := hist }
                else s.view k := by
            intro hist qs ts n
            funext k
            simp only [ServerState.view, view_replace _ _ _ _ hp]
            rfl
          simp only [hview]
          refine Inv.finish (hframe _ ?_) p poll.core ref ref false _ hv hcc (by simpa using hlt)
            ?_ ?_ ?_ ?_ ?_
          · intro t ht
            exact (List.mem_filter.mp ht).1
          · simp [hlt]
          · exact ⟨_, by simp [hlt], rfl⟩
          · intro rec hr
            exact (h.cur_fresh p _ ref hv hcc rec hr).1
          · intro k c' hv' hc'
            exact h.cur_inj k p c' _ ref hv' hv hc' hcc
          · intro t ht htr
            have hmem := List.mem_filter.mp ht
            have hl := (h.link p _ ref hv hcc t hmem.1 htr).2
            have hne : some t.id ≠ poll.timeout := by simpa using hmem.2
            exact hne hl.symm
        · simp only [studentAnswer, endRecord, hp, hc, hq, hfull, if_false, Option.toList,
            List.append_nil]
          exact hframe s.timers (fun t ht => ht)

theorem Consistent.after_timerFire {s : ServerState} {log : List EndRecord}
    (h : Consistent s log) (id : Nat) :
    Consistent (timerFire s id).state (log ++ (endRecord s (Input.timerFire id)).toList) := by
  cases hf : s.timers.find? (fun t => decide (t.id = id)) with
  | none => simpa [timerFire, endRecord, hf] using h
  | some t =>
    have htm : t ∈ s.timers := List.mem_of_find?_eq_some hf
    have hid : t.id = id := by simpa using List.find?_some hf
    have hframe : Consistent { s with timers := s.timers.filter (fun u => decide (u.id ≠ id)) }
        log :=
      Inv.frame h rfl (fun _ _ => ⟨rfl, rfl⟩) (fun u hu => (List.mem_filter.mp hu).1)
    cases hp : JSObj.get s.polls t.pollId with
    | none => simpa [timerFire, endRecord, hf, timerCallback, hp] using hframe
    | some poll =>
      cases hc : poll.current with
      | none => simpa [timerFire, endRecord, hf, timerCallback, hp, hc] using hframe
      | some ref =>
        have hv : s.view t.pollId = some poll.core := by simp [ServerState.view, hp]
        have hcc : poll.core.current = some ref := hc
        cases hq : s.questions[ref]? with
        | none => simpa [timerFire, endRecord, hf, timerCallback, hp, hc, hq] using hframe
        | some q =>
          cases hq2 : s.questions[t.current]? with
          | none => simpa [timerFire, endRecord, hf, timerCallback, hp, hc, hq, hq2] using hframe
          | some current =>
            simp only [timerFire, endRecord, hf, timerCallback, hp, hc, hq, hq2, Option.toList]
            unfold Consistent
            have hview : ∀ (hist : List HistoryEntry) (ts : List Timer),
                ServerState.view
                  (ServerState.putPoll { s with timers := ts } t.pollId
                    { poll with history := hist, current := none }) =
                fun k => if k = t.pollId then
                    some { current := none, timeout := poll.core.timeout, history := hist }
                  else s.view k := by
              intro hist ts
              funext k
              simp only [ServerState.putPoll, ServerState.view, view_replace _ _ _ _ hp]
              rfl
            simp only [hview]
            refine Inv.finish hframe t.pollId poll.core t.current ref true _ hv hcc
              (h.timer_lt t htm).1 hq2 ⟨q, hq, rfl⟩ ?_ ?_ ?_
            · intro rec hr
              exact h.timer_fresh t htm rec hr
            · intro k c' hv' hc'
              exact ((h.link k c' t.current hv' hc' t htm rfl).1).symm
            · intro u hu hcur
              have hmem := List.mem_filter.mp hu
              have hne : u.id ≠ id := by simpa using hmem.2
              have := h.timer_inj u hmem.1 t htm (Or.inl hcur)
              exact hne (this ▸ hid)

theorem Consistent.after_step {s : ServerState} {log : List EndRecord} (h : Consistent s log)
    (e : Input) : Consistent (step s e).state (log ++ (endRecord s e).toList) := by
  cases e with
  | createPoll title pollId => simpa [step, endRecord] using h.after_createPoll title pollId
  | startQuestion pollId question options duration correctIndex qid now =>
    simpa [step, endRecord] using
      h.after_startQuestion pollId question options duration correctIndex qid now
  | join socket pollId name => simpa [step, endRecord] using h.after_studentJoin socket pollId name
  | answer socket pollId optionIndex => exact h.after_studentAnswer socket pollId optionIndex
  | disconnect socket => simpa [step, endRecord] using h.after_disconnect socket
  | timerFire id => exact h.after_timerFire id

theorem Consistent.after_run {s : ServerState} {log : List EndRecord} (h : Consistent s log)
    (tr : List Input) : Consistent (run s tr) (log ++ endLog s tr) := by
  induction tr generalizing s log with
  | nil => simpa [LivePoll.run, endLog] using h
  | cons e rest ih =>
    have := ih (h.after_step e)
    simpa [LivePoll.run, endLog, List.append_assoc] using this

/-! ## Traces: starts and ends per room -/

theorem active_eq (s : ServerState) (p : String) :
    s.active p =
      match JSObj.get s.polls p with
      | some poll => if poll.current.isSome then 1 else 0
      | none => 0 := by
  unfold ServerState.active ServerState.view
  cases JSObj.get s.polls p <;> rfl

theorem active_le_one (s : ServerState) (p : String) : s.active p ≤ 1 := by
  rw [active_eq]
  split
  · split <;> omega
  · omega

theorem active_of_view_eq (s s' : ServerState) (p : String) (h : s'.view p = s.view p) :
    s'.active p = s.active p := by
  unfold ServerState.active
  rw [h]

theorem step_rooms (s : ServerState) (e : Input) (p : String) :
    (endsIn p (step s e).emitted).length + (step s e).state.active p ≤
      (startsIn p (step s e).emitted).length + s.active p := by
  cases e with
  | createPoll title p0 =>
    simp only [step, createPoll, endsIn, startsIn, List.filter_nil, List.length_nil, active_eq]
    simp only [JSObj.get_set]
    by_cases hk : p = p0 <;> simp [hk]
  | startQuestion p0 question options duration correctIndex qid now =>
    cases hp : JSObj.get s.polls p0 with
    | none => simp [step, startQuestion, hp, endsIn, startsIn]
    | some poll =>
      by_cases hc : poll.current.isSome = true
      · simp [step, startQuestion, hp, hc, endsIn, startsIn]
      · simp only [step, startQuestion, hp, hc, endsIn, startsIn, active_eq, Bool.false_eq_true,
          if_false]
        simp only [JSObj.get_replace]
        by_cases hk : p = p0
        · subst hk
          simp [hp, hc, Broadcast.isEnd, Broadcast.isStart]
        · have hk2 : ¬ p0 = p := fun h => hk h.symm
          simp [hk, hk2, Broadcast.isEnd, Broadcast.isStart]
  | join socket p0 name =>
    cases hp : JSObj.get s.polls p0 with
    | none => simp [step, studentJoin, hp, endsIn, startsIn]
    | some poll =>
      simp only [step, studentJoin, hp, endsIn, startsIn, active_eq, ServerState.putPoll]
      simp only [JSObj.get_replace]
      by_cases hk : p = p0
      · subst hk
        simp [hp, Broadcast.isEnd, Broadcast.isStart]
      · simp [hk, Broadcast.isEnd, Broadcast.isStart]
  | answer socket p0 optionIndex =>
    cases hp : JSObj.get s.polls p0 with
    | none => simp [step, studentAnswer, hp, endsIn, startsIn]
    | some poll =>
      cases hc : poll.current with
      | none => simp [step, studentAnswer, hp, hc, endsIn, startsIn]
      | some ref =>
        cases hq : s.questions[ref]? with
        | none => simp [step, studentAnswer, hp, hc, hq, endsIn, startsIn]
        | some q =>
          by_cases hfull : 0 < (JSObj.keys poll.students).length ∧
              (JSObj.keys poll.students).length ≤
                (JSObj.keys (JSObj.set q.answers socket optionIndex)).length
          · simp only [step, studentAnswer, hp, hc, hq, hfull, and_self, if_true, endsIn, startsIn,
              active_eq]
            simp only [JSObj.get_replace]
            by_cases hk : p = p0
            · subst hk
              simp [hp, hc, Broadcast.isEnd, Broadcast.isStart]
            · have hk2 : ¬ p0 = p := fun h => hk h.symm
              simp [hk, hk2, Broadcast.isEnd, Broadcast.isStart]
          · simp [step, studentAnswer, hp, hc, hq, hfull, endsIn, startsIn, active_eq,
              Broadcast.isEnd, Broadcast.isStart]
  | disconnect socket =>
    have h1 := (disconnect_no_end s socket).1
    have h2 := (disconnect_no_end s socket).2
    have hends : endsIn p (disconnect s socket).emitted = [] := by
      rw [List.filter_eq_nil_iff] at h1
      simp only [endsIn, List.filter_eq_nil_iff]
      intro b hb
      simp [h1 b hb]
    simp only [step, hends, List.length_nil, Nat.zero_add]
    rw [active_of_view_eq s _ p (view_disconnect s socket p)]
    omega
  | timerFire id =>
    cases hf : s.timers.find? (fun t => decide (t.id = id)) with
    | none => simp [step, timerFire, hf, endsIn, startsIn]
    | some t =>
      cases hp : JSObj.get s.polls t.pollId with
      | none => simp [step, timerFire, hf, timerCallback, hp, endsIn, startsIn, active_eq]
      | some poll =>
        cases hc : poll.current with
        | none => simp [step, timerFire, hf, timerCallback, hp, hc, endsIn, startsIn, active_eq]
        | some ref =>
          cases hq : s.questions[ref]? with
          | none =>
            simp [step, timerFire, hf, timerCallback, hp, hc, hq, endsIn, startsIn, active_eq]
          | some q =>
            cases hq2 : s.questions[t.current]? with
            | none =>
              simp [step, timerFire, hf, timerCallback, hp, hc, hq, hq2, endsIn, startsIn,
                active_eq]
            | some current =>
              simp only [step, timerFire, hf, timerCallback, hp, hc, hq, hq2, endsIn, startsIn,
                active_eq, ServerState.putPoll]
              simp only [JSObj.get_replace]
              by_cases hk : p = t.pollId
              · subst hk
                simp [hp, hc, Broadcast.isEnd, Broadcast.isStart]
              · have hk2 : ¬ t.pollId = p := fun h => hk h.symm
                simp [hk, hk2, Broadcast.isEnd, Broadcast.isStart]

theorem run_rooms (s : ServerState) (tr : List Input) (p : String) :
    (endsIn p (broadcasts s tr)).length + (run s tr).active p ≤
      (startsIn p (broadcasts s tr)).length + s.active p := by
  induction tr generalizing s with
  | nil => simp [run, broadcasts, endsIn, startsIn]
  | cons e rest ih =>
    have h1 := step_rooms s e p
    have h2 := ih (step s e).state
    simp only [run, broadcasts, endsIn, startsIn, List.filter_append, List.length_append] at *
    omega

/-! ## Traces: one ending per question -/

/-- C7: in every trace of inputs from the empty table of polls, the
`question:end` broadcasts are, in order, those of the logged endings; no two
endings announce and archive the same question object, no two clear the same
current question, and in particular an ending by the timer and an ending by
early completion never concern the same question; every ended question is one
that was started, the started questions being as many as the `question:start`
broadcasts; a question that has ended has no pending timer; for every poll id
the `question:end` broadcasts to its room are at most as many as the
`question:start` broadcasts to it; and the history of every poll is a final
segment of the entries archived in its room, each of which holds the fields
of its own question object. -/
theorem question_ends_at_most_once (tr : List Input) :
    let s := run ServerState.init tr
    let log := endLog ServerState.init tr
    let out := broadcasts ServerState.init tr
    out.filter Broadcast.isEnd = log.map EndRecord.broadcast ∧
      (log.map EndRecord.archived).Nodup ∧
      (log.map EndRecord.cleared).Nodup ∧
      (∀ r1 ∈ log, ∀ r2 ∈ log, r1.byTimer = true → r2.byTimer = false →
        r1.archived ≠ r2.archived ∧ r1.cleared ≠ r2.cleared) ∧
      (∀ rec ∈ log, rec.archived < s.questions.length ∧ rec.cleared < s.questions.length) ∧
      s.questions.length = (out.filter Broadcast.isStart).length ∧
      (∀ t ∈ s.timers, ∀ rec ∈ log, rec.archived ≠ t.current) ∧
      (∀ p, (endsIn p out).length ≤ (startsIn p out).length) ∧
      (∀ p poll, JSObj.get s.polls p = some poll →
        List.IsSuffix poll.history
          ((log.filter (fun r => decide (r.room = p))).map EndRecord.entry)) ∧
      (∀ rec ∈ log, s.questions[rec.archived]? = some rec.entry.question) := by
  have h : Consistent (run ServerState.init tr) (endLog ServerState.init tr) := by
    simpa using Consistent.of_init.after_run tr
  refine ⟨broadcasts_ends _ tr, h.archived_nodup, h.cleared_nodup, ?_, h.log_lt, ?_, h.timer_fresh,
    ?_, ?_, h.frozen⟩
  · intro r1 h1 r2 h2 hb1 hb2
    constructor
    · intro he
      have := List.inj_on_of_nodup_map h.archived_nodup h1 h2 he
      rw [this, hb2] at hb1
      cases hb1
    · intro he
      have := List.inj_on_of_nodup_map h.cleared_nodup h1 h2 he
      rw [this, hb2] at hb1
      cases hb1
  · simpa [ServerState.init] using run_starts ServerState.init tr
  · intro p
    have := run_rooms ServerState.init tr p
    have h0 : ServerState.init.active p = 0 := rfl
    omega
  · intro p poll hp
    have hv : (run ServerState.init tr).view p = some poll.core := by
      simp [ServerState.view, hp]
    exact h.history p poll.core hv

/-- The endings of the run with a repeated poll id: the timer of the first
question ends the second question and archives the first; the timer of the
second question then throws, so there are two starts and one ending. -/
theorem collisionTrace_endings :
    (endLog ServerState.init (collisionTrace ++ [Input.timerFire 1])).map
        (fun r => (r.archived, r.cleared, r.byTimer)) = [(0, 1, true)] ∧
      ((broadcasts ServerState.init (collisionTrace ++ [Input.timerFire 1])).filter
        Broadcast.isStart).length = 2 := by
  decide

/-! ## Disconnecting -/

theorem JSObj.get_delete {α : Type} (o : JSObj α) (key : String) (k : String) :
    JSObj.get (JSObj.delete o key) k = if k = key then none else JSObj.get o k := by
  induction o with
  | nil => simp [JSObj.delete, JSObj.get]
  | cons e rest ih =>
    obtain ⟨a, w⟩ := e
    unfold JSObj.delete at ih ⊢
    by_cases ha : a = key
    · subst ha
      by_cases hk : k = a
      · subst hk; simpa [List.filter_cons, JSObj.get] using ih
      · have hk2 : ¬ a = k := fun h => hk h.symm
        simpa [List.filter_cons, JSObj.get, hk, hk2] using ih
    · by_cases hk : k = key
      · subst hk
        simpa [List.filter_cons, JSObj.get, ha] using ih
      · by_cases hak : a = k
        · simp [List.filter_cons, JSObj.get, ha, hk, hak]
        · simpa [List.filter_cons, JSObj.get, ha, hk, hak] using ih

theorem currentQuestion_of_view (s s' : ServerState) (p : String) (hv : s'.view p = s.view p)
    (hq : s'.questions = s.questions) : s'.currentQuestion p = s.currentQuestion p := by
  unfold ServerState.view at hv
  unfold ServerState.currentQuestion
  rw [hq]
  cases h1 : JSObj.get s'.polls p <;> cases h2 : JSObj.get s.polls p <;>
    simp [h1, h2, Poll.core] at hv ⊢
  rw [hv.1]

theorem isJoined_dropStudent (socket : String) (e : String × Poll) :
    isJoined (dropStudent socket e).2 socket = false := by
  unfold dropStudent
  by_cases hj : isJoined e.2 socket = true
  · rw [if_pos hj]
    simp [isJoined, JSObj.get_delete]
  · rw [if_neg hj]
    simpa using hj

theorem disconnect_of_not_joined (polls : JSObj Poll) (socket : String)
    (h : ∀ e ∈ polls, isJoined e.2 socket = false) :
    polls.map (dropStudent socket) = polls ∧ polls.filterMap (dropNotice socket) = [] := by
  constructor
  · conv_rhs => rw [← List.map_id polls]
    apply List.map_congr_left
    intro e he
    simp [dropStudent, h e he]
  · rw [List.filterMap_eq_nil_iff]
    intro e he
    simp [dropNotice, h e he]

theorem disconnect_emits_lists (s : ServerState) (socket : String) :
    ∀ b ∈ (disconnect s socket).emitted, ∃ names, b.event = Event.studentList names := by
  intro b hb
  simp only [disconnect, List.mem_filterMap] at hb
  obtain ⟨e, _, he⟩ := hb
  unfold dropNotice at he
  split at he
  · cases he
    exact ⟨_, rfl⟩
  · cases he

/-- C16: the disconnect handler leaves the heap of question objects, the
pending timers, and every poll's current question address, stored timer
handle and history as they were; hence every current question, with all its
answers, and its tally are the same before and after; every broadcast it
makes is a `student:list`, so it ends no question and emits neither
`question:partial` nor `question:end`. -/
theorem disconnect_frame (s : ServerState) (socket : String) :
    (disconnect s socket).state.questions = s.questions ∧
      (disconnect s socket).state.timers = s.timers ∧
      (∀ p, (disconnect s socket).state.view p = s.view p) ∧
      (∀ p, (disconnect s socket).state.currentQuestion p = s.currentQuestion p) ∧
      (∀ p, ((disconnect s socket).state.currentQuestion p).map computeResults =
        (s.currentQuestion p).map computeResults) ∧
      (∀ b ∈ (disconnect s socket).emitted, ∃ names, b.event = Event.studentList names) ∧
      (disconnect s socket).thrown = none := by
  have hcur : ∀ p, (disconnect s socket).state.currentQuestion p = s.currentQuestion p :=
    fun p => currentQuestion_of_view s _ p (view_disconnect s socket p) rfl
  exact ⟨rfl, rfl, view_disconnect s socket, hcur, fun p => by rw [hcur p],
    disconnect_emits_lists s socket, rfl⟩

/-- C17: running the disconnect handler for a session a second time leaves
the state the first run produced and broadcasts nothing; and for a session
that no poll has in its students mapping the handler changes nothing and
broadcasts nothing. This holds in every state, reachable or not. -/
theorem disconnect_idempotent (s : ServerState) (socket : String) :
    (disconnect (disconnect s socket).state socket).state = (disconnect s socket).state ∧
      (disconnect (disconnect s socket).state socket).emitted = [] ∧
      ((∀ e ∈ s.polls, JSObj.get e.2.students socket = none) →
        disconnect s socket = { state := s, emitted := [], ack := none, thrown := none }) := by
  have h1 : ∀ e ∈ (disconnect s socket).state.polls, isJoined e.2 socket = false := by
    intro e he
    simp only [disconnect, List.mem_map] at he
    obtain ⟨e0, _, rfl⟩ := he
    exact isJoined_dropStudent socket e0
  have h2 := disconnect_of_not_joined _ socket h1
  refine ⟨?_, h2.2, ?_⟩
  · show ({ (disconnect s socket).state with
        polls := (disconnect s socket).state.polls.map (dropStudent socket) } : ServerState) = _
    rw [h2.1]
  · intro hn
    have h3 : ∀ e ∈ s.polls, isJoined e.2 socket = false := by
      intro e he
      simp [isJoined, hn e he]
    have h4 := disconnect_of_not_joined s.polls socket h3
    simp only [disconnect, h4.1, h4.2]

/-- Witness for C17: Bob leaves the sample poll twice, and a session that
never joined leaves once. -/
theorem disconnect_idempotent_witness :
    (∀ e ∈ sampleBobLeft.polls, JSObj.get e.2.students "bob" = none) ∧
      ((disconnect (disconnect sampleBobLeft "bob").state "bob").state =
          (disconnect sampleBobLeft "bob").state ∧
        (disconnect (disconnect sampleBobLeft "bob").state "bob").emitted = [] ∧
        ((∀ e ∈ sampleBobLeft.polls, JSObj.get e.2.students "bob" = none) →
          disconnect sampleBobLeft "bob" =
            { state := sampleBobLeft, emitted := [], ack := none, thrown := none })) :=
  ⟨by decide, disconnect_idempotent sampleBobLeft "bob"⟩

/-! ## Answers: rejection and last write wins -/

theorem JSObj.get_eq_none_iff {α : Type} (o : JSObj α) (k : String) :
    JSObj.get o k = none ↔ k ∉ JSObj.keys o := by
  induction o with
  | nil => simp [JSObj.get, JSObj.keys]
  | cons e rest ih =>
    obtain ⟨a, w⟩ := e
    by_cases ha : a = k
    · simp [JSObj.get, JSObj.keys, ha]
    · have hk : ¬ k = a := fun h => ha h.symm
      simpa [JSObj.get, JSObj.keys, ha, hk] using ih

theorem length_le_one_of_all_eq {α : Type} (l : List α) (a : α) (hn : l.Nodup)
    (h : ∀ x ∈ l, x = a) : l.length ≤ 1 := by
  match l, hn, h with
  | [], _, _ => simp
  | [_], _, _ => simp
  | x :: y :: rest, hn, h =>
    have hx := h x (by simp)
    have hy := h y (by simp)
    rw [hx, hy] at hn
    simp at hn

/-- On poll ids that resolve among the entries of the table or not at all,
`student:answer` is acknowledged with the error 'No active question' exactly
when `polls[pollId]` is absent or its `current` is absent; when it is, the
state is unchanged and nothing is broadcast; in every other case, the address
of the current question being allocated, the answer is written into the
question's answers under the session id and the acknowledgment is ok. A poll
id that resolves to an inherited object behaves otherwise
(`studentAnswer_on_inherited_id`). -/
theorem studentAnswer_rejected_iff (s : ServerState) (socket pollId : String)
    (optionIndex : JSVal)
    (hwf : ∀ poll r, JSObj.get s.polls pollId = some poll → poll.current = some r →
      r < s.questions.length) :
    ((studentAnswer s socket pollId optionIndex).ack = some (Ack.error "No active question") ↔
        (JSObj.get s.polls pollId = none ∨
          ∃ poll, JSObj.get s.polls pollId = some poll ∧ poll.current = none)) ∧
      ((studentAnswer s socket pollId optionIndex).ack = some (Ack.error "No active question") →
        (studentAnswer s socket pollId optionIndex).state = s ∧
          (studentAnswer s socket pollId optionIndex).emitted = []) ∧
      ((studentAnswer s socket pollId optionIndex).ack ≠ some (Ack.error "No active question") →
        (studentAnswer s socket pollId optionIndex).ack = some Ack.ok ∧
          (studentAnswer s socket pollId optionIndex).thrown = none ∧
          ∃ poll ref q, JSObj.get s.polls pollId = some poll ∧ poll.current = some ref ∧
            s.questions[ref]? = some q ∧
            (studentAnswer s socket pollId optionIndex).state.questions[ref]? =
              some { q with answers := JSObj.set q.answers socket optionIndex } ∧
            JSObj.get (JSObj.set q.answers socket optionIndex) socket = some optionIndex) := by
  cases hp : JSObj.get s.polls pollId with
  | none => simp [studentAnswer, hp]
  | some poll =>
    cases hc : poll.current with
    | none => simp [studentAnswer, hp, hc]
    | some ref =>
      have hlt : ref < s.questions.length := hwf poll ref hp hc
      have hq : s.questions[ref]? = some s.questions[ref] := List.getElem?_eq_getElem hlt
      by_cases hfull : 0 < (JSObj.keys poll.students).length ∧
          (JSObj.keys poll.students).length ≤
            (JSObj.keys (JSObj.set s.questions[ref].answers socket optionIndex)).length
      · simp only [studentAnswer, hp, hc, hq, hfull, and_self, if_true]
        simp [hc, hlt, JSObj.get_set]
      · simp only [studentAnswer, hp, hc, hq, hfull, if_false]
        simp [hc, hlt, JSObj.get_set]

/-- Alice's first answer on the sample poll is accepted. -/
theorem studentAnswer_rejected_iff_witness :
    (∀ poll r, JSObj.get sampleActive.polls "poll1" = some poll → poll.current = some r →
        r < sampleActive.questions.length) ∧
      (studentAnswer sampleActive "alice" "poll1" (JSVal.ofNat 0)).ack = some Ack.ok ∧
      (studentAnswer sampleActive "alice" "nopoll" (JSVal.ofNat 0)).ack =
        some (Ack.error "No active question") ∧
      (studentAnswer sampleIdle "alice" "poll1" (JSVal.ofNat 0)).ack =
        some (Ack.error "No active question") ∧
      ((studentAnswer sampleActive "alice" "poll1" (JSVal.ofNat 0)).ack ≠
          some (Ack.error "No active question") →
        (studentAnswer sampleActive "alice" "poll1" (JSVal.ofNat 0)).ack = some Ack.ok ∧
          (studentAnswer sampleActive "alice" "poll1" (JSVal.ofNat 0)).thrown = none ∧
          ∃ poll ref q, JSObj.get sampleActive.polls "poll1" = some poll ∧
            poll.current = some ref ∧ sampleActive.questions[ref]? = some q ∧
            (studentAnswer sampleActive "alice" "poll1" (JSVal.ofNat 0)).state.questions[ref]? =
              some { q with answers := JSObj.set q.answers "alice" (JSVal.ofNat 0) } ∧
            JSObj.get (JSObj.set q.answers "alice" (JSVal.ofNat 0)) "alice" =
              some (JSVal.ofNat 0)) :=
  have hwf : ∀ poll r, JSObj.get sampleActive.polls "poll1" = some poll → poll.current = some r →
      r < sampleActive.questions.length := by
    intro poll r hp hc
    have h1 : JSObj.get sampleActive.polls "poll1" = some sampleActivePoll := by decide
    rw [h1] at hp
    cases hp
    cases hc
    decide
  ⟨hwf, by decide, by decide, by decide,
    (studentAnswer_rejected_iff sampleActive "alice" "poll1" (JSVal.ofNat 0) hwf).2.2⟩


/-- C13: an accepted `student:answer` from session `socket` with value
`optionIndex` leaves the question's answers mapping the session to that value
and every other session to what it had; the question with these answers is
the poll's current question, or the question of the entry just appended to
the history when the answer ended it; a session that had already answered
does not change the number of entries, nor the total of the tally; and when
at most this one session has answered and two or more students have joined,
the answer does not end the question. -/
theorem studentAnswer_last_write_wins (s : ServerState) (socket pollId : String)
    (optionIndex : JSVal) (poll : Poll) (ref : Nat) (q : Question)
    (hp : JSObj.get s.polls pollId = some poll) (hc : poll.current = some ref)
    (hq : s.questions[ref]? = some q) :
    (∀ k, JSObj.get (JSObj.set q.answers socket optionIndex) k =
        if k = socket then some optionIndex else JSObj.get q.answers k) ∧
      ((studentAnswer s socket pollId optionIndex).state.currentQuestion pollId =
          some { q with answers := JSObj.set q.answers socket optionIndex } ∨
        JSObj.get (studentAnswer s socket pollId optionIndex).state.polls pollId =
          some { poll with
                 history := poll.history ++
                   [{ question := { q with answers := JSObj.set q.answers socket optionIndex },
                      results := computeResults
                        { q with answers := JSObj.set q.answers socket optionIndex } }],
                 current := none }) ∧
      ((JSObj.get q.answers socket).isSome = true →
        (JSObj.set q.answers socket optionIndex).length = q.answers.length ∧
          (computeResults { q with answers := JSObj.set q.answers socket optionIndex }).total =
            (computeResults q).total) ∧
      ((JSObj.keys q.answers).Nodup → (∀ k ∈ JSObj.keys q.answers, k = socket) →
        2 ≤ (JSObj.keys poll.students).length →
        (studentAnswer s socket pollId optionIndex).emitted.any Broadcast.isEnd = false ∧
          (studentAnswer s socket pollId optionIndex).state.currentQuestion pollId =
            some { q with answers := JSObj.set q.answers socket optionIndex }) := by
  have hg : ∀ p : Poll, JSObj.get (JSObj.replace s.polls pollId p) pollId = some p := by
    intro p
    rw [JSObj.get_replace, hp]
    simp
  have hlt : ref < s.questions.length := by
    by_contra hn
    rw [List.getElem?_eq_none (Nat.le_of_not_lt hn)] at hq
    cases hq
  refine ⟨JSObj.get_set q.answers socket optionIndex, ?_, ?_, ?_⟩
  · by_cases hfull : 0 < (JSObj.keys poll.students).length ∧
        (JSObj.keys poll.students).length ≤
          (JSObj.keys (JSObj.set q.answers socket optionIndex)).length
    · right
      simp only [studentAnswer, hp, hc, hq, hfull, and_self, if_true]
      simp [hg]
    · left
      simp only [studentAnswer, hp, hc, hq, hfull, if_false, ServerState.currentQuestion]
      simp [hp, hc, hlt]
  · intro hs
    have hl : (JSObj.set q.answers socket optionIndex).length = q.answers.length := by
      rw [JSObj.length_set, if_pos hs]
    refine ⟨hl, ?_⟩
    simp [computeResults, JSObj.keys, hl]
  · intro hn hall h2
    have h1 : (JSObj.keys q.answers).length ≤ 1 := length_le_one_of_all_eq _ socket hn hall
    have hlen : (JSObj.keys (JSObj.set q.answers socket optionIndex)).length ≤ 1 := by
      simp only [JSObj.keys, List.length_map] at h1 ⊢
      rw [JSObj.length_set]
      split
      · exact h1
      · rename_i hnone
        have hnone' : JSObj.get q.answers socket = none := by
          cases hg2 : JSObj.get q.answers socket with
          | none => rfl
          | some w => simp [hg2] at hnone
        have hnot := (JSObj.get_eq_none_iff q.answers socket).mp hnone'
        have hempty : q.answers = [] := by
          cases hqa : q.answers with
          | nil => rfl
          | cons e rest =>
            exfalso
            apply hnot
            have := hall e.1 (by simp [JSObj.keys, hqa])
            rw [← this]
            simp [JSObj.keys, hqa]
        simp [hempty]
    have hfull : ¬ (0 < (JSObj.keys poll.students).length ∧
        (JSObj.keys poll.students).length ≤
          (JSObj.keys (JSObj.set q.answers socket optionIndex)).length) := by
      intro h
      omega
    simp only [studentAnswer, hp, hc, hq, hfull, if_false, ServerState.currentQuestion]
    simp [hp, hc, hlt, Broadcast.isEnd]

/-- Witness for C13: Alice, who has answered 0 on the sample poll, answers 2;
the mapping still has one entry, now with 2, and the question goes on. -/
theorem studentAnswer_last_write_wins_witness :
    JSObj.get sampleAfterAlice.polls "poll1" = some sampleActivePoll ∧
      sampleAfterAlice.questions[0]? =
        some { sampleQuestion with answers := [("alice", JSVal.ofNat 0)] } ∧
      (studentAnswer sampleAfterAlice "alice" "poll1" (JSVal.ofNat 2)).state.currentQuestion
          "poll1" =
        some { sampleQuestion with answers := [("alice", JSVal.ofNat 2)] } ∧
      ((JSObj.keys [("alice", JSVal.ofNat 0)]).Nodup →
        (∀ k ∈ JSObj.keys [("alice", JSVal.ofNat 0)], k = "alice") →
        2 ≤ (JSObj.keys sampleActivePoll.students).length →
        (studentAnswer sampleAfterAlice "alice" "poll1" (JSVal.ofNat 2)).emitted.any
            Broadcast.isEnd = false ∧
          (studentAnswer sampleAfterAlice "alice" "poll1" (JSVal.ofNat 2)).state.currentQuestion
              "poll1" =
            some { sampleQuestion with
                   answers := JSObj.set [("alice", JSVal.ofNat 0)] "alice" (JSVal.ofNat 2) }) :=
  ⟨by decide, by decide, by decide,
    (studentAnswer_last_write_wins sampleAfterAlice "alice" "poll1" (JSVal.ofNat 2)
      sampleActivePoll 0 { sampleQuestion with answers := [("alice", JSVal.ofNat 0)] }
      (by decide) (by decide) (by decide)).2.2.2⟩

/-! ## Joining -/

theorem JSObj.keys_replace {α : Type} (o : JSObj α) (key : String) (v : α) :
    JSObj.keys (JSObj.replace o key v) = JSObj.keys o := by
  induction o with
  | nil => rfl
  | cons e rest ih =>
    obtain ⟨a, w⟩ := e
    unfold JSObj.keys at ih ⊢
    by_cases ha : a = key <;> simp [JSObj.replace, ha, ih]

theorem JSObj.keys_set {α : Type} (o : JSObj α) (key : String) (v : α)
    (hk : arrayIndex key = none) :
    JSObj.keys (JSObj.set o key v) =
      if (JSObj.get o key).isSome then JSObj.keys o else JSObj.keys o ++ [key] := by
  unfold JSObj.set
  split
  · rename_i w hw
    simp [hw, JSObj.keys_replace]
  · rename_i hw
    simp [hw, hk, JSObj.keys]

/-- C14: on a registered poll, `student:join` by session `socket` with name
`name` stores `name || 'Anonymous'` under the session id, which is the name
itself when it is a non-empty string and 'Anonymous' when it is missing or
the empty string; every other session keeps its name; title, current
question, stored timer handle and history of the poll, the heap of questions
and the timers are unchanged; the acknowledgment is ok; one `student:list`
with the values of the students mapping is broadcast to the poll's room; and,
session ids not being array indices, the sessions are listed in their former
order, a session that joins for the first time coming last. -/
theorem studentJoin_roster (s : ServerState) (socket pollId : String) (name : JSVal) (poll : Poll)
    (hp : JSObj.get s.polls pollId = some poll) :
    (studentJoin s socket pollId name).ack = some Ack.ok ∧
      (studentJoin s socket pollId name).thrown = none ∧
      JSObj.get (studentJoin s socket pollId name).state.polls pollId =
        some { poll with
               students :=
                 JSObj.set poll.students socket (name.orElse (JSVal.string "Anonymous")) } ∧
      (∀ k, JSObj.get
          (JSObj.set poll.students socket (name.orElse (JSVal.string "Anonymous"))) k =
        if k = socket then some (name.orElse (JSVal.string "Anonymous"))
        else JSObj.get poll.students k) ∧
      (∀ t, t ≠ "" → name = JSVal.string t →
        name.orElse (JSVal.string "Anonymous") = JSVal.string t) ∧
      (name = JSVal.undefined ∨ name = JSVal.null ∨ name = JSVal.string "" →
        name.orElse (JSVal.string "Anonymous") = JSVal.string "Anonymous") ∧
      (studentJoin s socket pollId name).state.questions = s.questions ∧
      (studentJoin s socket pollId name).state.timers = s.timers ∧
      (studentJoin s socket pollId name).emitted =
        [{ room := pollId,
           event := Event.studentList (JSObj.values
             (JSObj.set poll.students socket (name.orElse (JSVal.string "Anonymous")))) }] ∧
      (arrayIndex socket = none →
        JSObj.keys (JSObj.set poll.students socket (name.orElse (JSVal.string "Anonymous"))) =
          if (JSObj.get poll.students socket).isSome then JSObj.keys poll.students
          else JSObj.keys poll.students ++ [socket]) := by
  have hg : ∀ p : Poll, JSObj.get (JSObj.replace s.polls pollId p) pollId = some p := by
    intro p
    rw [JSObj.get_replace, hp]
    simp
  refine ⟨by simp [studentJoin, hp], by simp [studentJoin, hp], ?_, JSObj.get_set _ _ _, ?_, ?_,
    by simp [studentJoin, hp, ServerState.putPoll], by simp [studentJoin, hp, ServerState.putPoll],
    by simp [studentJoin, hp], JSObj.keys_set _ _ _⟩
  · simp only [studentJoin, hp, ServerState.putPoll]
    exact hg _
  · intro t ht hn
    subst hn
    simp [JSVal.orElse, JSVal.truthy, ht]
  · rintro (h | h | h) <;> subst h <;> simp [JSVal.orElse, JSVal.truthy]

/-- Witness for C14, the scenario of the specification: on a fresh poll Alice
joins, then Bob; the second broadcast is `['Alice', 'Bob']`. -/
theorem studentJoin_roster_witness :
    JSObj.get sampleAliceJoined.polls "poll1" =
        some { sampleActivePoll with
               students := [("alice", JSVal.string "Alice")], current := none, timeout := none } ∧
      (studentJoin sampleFresh "alice" "poll1" (JSVal.string "Alice")).state = sampleAliceJoined ∧
      (studentJoin sampleAliceJoined "bob" "poll1" (JSVal.string "Bob")).emitted =
        [{ room := "poll1",
           event := Event.studentList [JSVal.string "Alice", JSVal.string "Bob"] }] ∧
      arrayIndex "bob" = none ∧
      (studentJoin sampleAliceJoined "bob" "poll1" (JSVal.string "Bob")).ack = some Ack.ok :=
  ⟨by decide, by decide, by decide, by decide,
    (studentJoin_roster sampleAliceJoined "bob" "poll1" (JSVal.string "Bob")
      { sampleActivePoll with
        students := [("alice", JSVal.string "Alice")], current := none, timeout := none }
      (by decide)).1⟩


/-! ## Well-formed tables -/

theorem JSObj.mem_of_get {α : Type} (o : JSObj α) (k : String) (v : α)
    (h : JSObj.get o k = some v) : (k, v) ∈ o := by
  induction o with
  | nil => simp [JSObj.get] at h
  | cons e rest ih =>
    obtain ⟨a, w⟩ := e
    by_cases ha : a = k
    · simp only [JSObj.get, ha, if_true, Option.some.injEq] at h
      simp [ha, h]
    · simp only [JSObj.get, ha, if_false] at h
      exact List.mem_cons_of_mem _ (ih h)

theorem JSObj.get_of_mem {α : Type} (o : JSObj α) (k : String) (v : α)
    (hn : (JSObj.keys o).Nodup) (h : (k, v) ∈ o) : JSObj.get o k = some v := by
  induction o with
  | nil => simp at h
  | cons e rest ih =>
    obtain ⟨a, w⟩ := e
    simp only [JSObj.keys, List.map_cons, List.nodup_cons, List.mem_map, not_exists, not_and] at hn
    rcases List.mem_cons.mp h with h1 | h1
    · cases h1
      simp [JSObj.get]
    · have ha : ¬ a = k := by
        intro ha
        exact hn.1 (k, v) h1 ha.symm
      simp only [JSObj.get, ha, if_false]
      exact ih hn.2 h1

theorem JSObj.mem_replace {α : Type} (o : JSObj α) (key : String) (v : α) (e : String × α)
    (h : e ∈ JSObj.replace o key v) : e ∈ o ∨ e = (key, v) := by
  induction o with
  | nil => simp [JSObj.replace] at h
  | cons e0 rest ih =>
    obtain ⟨a, w⟩ := e0
    by_cases ha : a = key
    · simp only [JSObj.replace, ha, if_true, List.mem_cons] at h
      rcases h with h | h
      · exact Or.inr h
      · exact Or.inl (List.mem_cons_of_mem _ h)
    · simp only [JSObj.replace, ha, if_false, List.mem_cons] at h
      rcases h with h | h
      · exact Or.inl (by simp [h])
      · rcases ih h with h2 | h2
        · exact Or.inl (List.mem_cons_of_mem _ h2)
        · exact Or.inr h2

theorem JSObj.insertIndex_perm {α : Type} (o : JSObj α) (n : Nat) (key : String) (v : α) :
    List.Perm (JSObj.insertIndex o n key v) ((key, v) :: o) := by
  induction o with
  | nil => exact List.Perm.refl _
  | cons e rest ih =>
    obtain ⟨a, w⟩ := e
    unfold JSObj.insertIndex
    split
    · split
      · exact (List.Perm.cons _ ih).trans (List.Perm.swap _ _ _)
      · exact List.Perm.refl _
    · exact List.Perm.refl _

theorem JSObj.mem_set {α : Type} (o : JSObj α) (key : String) (v : α) (e : String × α)
    (h : e ∈ JSObj.set o key v) : e ∈ o ∨ e = (key, v) := by
  unfold JSObj.set at h
  split at h
  · exact JSObj.mem_replace o key v e h
  · split at h
    · have := (JSObj.insertIndex_perm o _ key v).mem_iff.mp h
      rcases List.mem_cons.mp this with h1 | h1
      · exact Or.inr h1
      · exact Or.inl h1
    · rcases List.mem_append.mp h with h1 | h1
      · exact Or.inl h1
      · exact Or.inr (by simpa using h1)

theorem JSObj.nodup_keys_set {α : Type} (o : JSObj α) (key : String) (v : α)
    (hn : (JSObj.keys o).Nodup) : (JSObj.keys (JSObj.set o key v)).Nodup := by
  unfold JSObj.set
  split
  · rw [JSObj.keys_replace]
    exact hn
  · rename_i hnone
    have hnot := (JSObj.get_eq_none_iff o key).mp hnone
    split
    · rename_i n _
      have hp := (JSObj.insertIndex_perm o n key v).map Prod.fst
      unfold JSObj.keys
      rw [hp.nodup_iff]
      simpa [JSObj.keys] using And.intro hnot hn
    · unfold JSObj.keys at hn hnot ⊢
      rw [List.map_append, List.nodup_append]
      refine ⟨hn, by simp, ?_⟩
      intro a h1 h2
      simp only [List.map_cons, List.map_nil, List.mem_singleton] at h2
      exact hnot (h2 ▸ h1)

theorem WellFormed.at_init : WellFormed ServerState.init := by
  constructor <;> simp [ServerState.init, JSObj.keys]

theorem WellFormed.of_replace {s : ServerState} (h : WellFormed s) (p : String) (poll poll' : Poll)
    (qs : List Question) (ts : List Timer) (n : Nat)
    (hp : JSObj.get s.polls p = some poll)
    (hst : ∀ st ∈ poll'.students, st ∈ poll.students ∨ st.2.truthy = true) :
    WellFormed { polls := JSObj.replace s.polls p poll', questions := qs, timers := ts,
                 nextTimer := n } where
  polls_nodup := by
    rw [JSObj.keys_replace]
    exact h.polls_nodup
  names_truthy := by
    intro e he st hs
    rcases JSObj.mem_replace _ _ _ _ he with h1 | h1
    · exact h.names_truthy e h1 st hs
    · subst h1
      rcases hst st hs with h2 | h2
      · exact h.names_truthy (p, poll) (JSObj.mem_of_get _ _ _ hp) st h2
      · exact h2

theorem orElse_truthy (name : JSVal) : (name.orElse (JSVal.string "Anonymous")).truthy = true := by
  unfold JSVal.orElse
  by_cases h : name.truthy = true
  · simp [h]
  · simp only [h, Bool.false_eq_true, if_false]
    decide

theorem WellFormed.keeps_step {s : ServerState} (h : WellFormed s) (e : Input) :
    WellFormed (step s e).state := by
  cases e with
  | createPoll title p =>
    constructor
    · exact JSObj.nodup_keys_set _ _ _ h.polls_nodup
    · intro e he st hs
      rcases JSObj.mem_set _ _ _ _ he with h1 | h1
      · exact h.names_truthy e h1 st hs
      · subst h1
        simp at hs
  | startQuestion p question options duration correctIndex qid now =>
    cases hp : JSObj.get s.polls p with
    | none => simpa [step, startQuestion, hp] using h
    | some poll =>
      by_cases hc : poll.current.isSome = true
      · simpa [step, startQuestion, hp, hc] using h
      · simp only [step, startQuestion, hp, hc, Bool.false_eq_true, if_false]
        exact h.of_replace p poll _ _ _ _ hp (fun st hs => Or.inl hs)
  | join socket p name =>
    cases hp : JSObj.get s.polls p with
    | none => simpa [step, studentJoin, hp] using h
    | some poll =>
      simp only [step, studentJoin, hp, ServerState.putPoll]
      refine h.of_replace p poll _ _ _ _ hp ?_
      intro st hs
      rcases JSObj.mem_set _ _ _ _ hs with h1 | h1
      · exact Or.inl h1
      · subst h1
        exact Or.inr (orElse_truthy name)
  | answer socket p optionIndex =>
    cases hp : JSObj.get s.polls p with
    | none => simpa [step, studentAnswer, hp] using h
    | some poll =>
      cases hc : poll.current with
      | none => simpa [step, studentAnswer, hp, hc] using h
      | some ref =>
        cases hq : s.questions[ref]? with
        | none => simpa [step, studentAnswer, hp, hc, hq] using h
        | some q =>
          by_cases hfull : 0 < (JSObj.keys poll.students).length ∧
              (JSObj.keys poll.students).length ≤
                (JSObj.keys (JSObj.set q.answers socket optionIndex)).length
          · simp only [step, studentAnswer, hp, hc, hq, hfull, and_self, if_true]
            exact h.of_replace p poll _ _ _ _ hp (fun st hs => Or.inl hs)
          · simp only [step, studentAnswer, hp, hc, hq, hfull, if_false]
            exact ⟨h.polls_nodup, h.names_truthy⟩
  | disconnect socket =>
    constructor
    · have hk : JSObj.keys (s.polls.map (dropStudent socket)) = JSObj.keys s.polls := by
        unfold JSObj.keys
        rw [List.map_map]
        apply List.map_congr_left
        intro e _
        obtain ⟨w', hw, _⟩ := dropStudent_core socket e.1 e.2
        simp [hw]
      simp only [step, disconnect]
      rw [hk]
      exact h.polls_nodup
    · intro e he st hs
      simp only [step, disconnect, List.mem_map] at he
      obtain ⟨e0, he0, rfl⟩ := he
      unfold dropStudent at hs
      split at hs
      · exact h.names_truthy e0 he0 st (List.mem_filter.mp hs).1
      · exact h.names_truthy e0 he0 st hs
  | timerFire id =>
    cases hf : s.timers.find? (fun t => decide (t.id = id)) with
    | none => simpa [step, timerFire, hf] using h
    | some t =>
      have h0 : WellFormed { s with timers := s.timers.filter (fun u => decide (u.id ≠ id)) } :=
        ⟨h.polls_nodup, h.names_truthy⟩
      cases hp : JSObj.get s.polls t.pollId with
      | none => simpa [step, timerFire, hf, timerCallback, hp] using h0
      | some poll =>
        cases hc : poll.current with
        | none => simpa [step, timerFire, hf, timerCallback, hp, hc] using h0
        | some ref =>
          cases hq : s.questions[ref]? with
          | none => simpa [step, timerFire, hf, timerCallback, hp, hc, hq] using h0
          | some q =>
            cases hq2 : s.questions[t.current]? with
            | none => simpa [step, timerFire, hf, timerCallback, hp, hc, hq, hq2] using h0
            | some current =>
              simp only [step, timerFire, hf, timerCallback, hp, hc, hq, hq2, ServerState.putPoll]
              exact h.of_replace t.pollId poll _ _ _ _ hp (fun st hs => Or.inl hs)

theorem WellFormed.keeps_run {s : ServerState} (h : WellFormed s) (tr : List Input) :
    WellFormed (run s tr) := by
  induction tr generalizing s with
  | nil => exact h
  | cons e rest ih => exact ih (h.keeps_step e)


/-! ## Disconnecting, in reachable states -/

theorem get_map_dropStudent (polls : JSObj Poll) (socket : String) (p : String) :
    JSObj.get (polls.map (dropStudent socket)) p =
      (JSObj.get polls p).map (fun poll => (dropStudent socket (p, poll)).2) := by
  induction polls with
  | nil => rfl
  | cons e rest ih =>
    obtain ⟨a, w⟩ := e
    obtain ⟨w', hw, _⟩ := dropStudent_core socket a w
    rw [List.map_cons, hw, JSObj.get_cons, JSObj.get_cons]
    by_cases ha : a = p
    · subst ha
      simp [hw]
    · simpa [ha] using ih

theorem isJoined_iff_of_truthy (poll : Poll) (socket : String)
    (h : ∀ st ∈ poll.students, st.2.truthy = true) :
    isJoined poll socket = true ↔ (JSObj.get poll.students socket).isSome = true := by
  unfold isJoined
  cases hg : JSObj.get poll.students socket with
  | none => simp
  | some name =>
    have := h (socket, name) (JSObj.mem_of_get _ _ _ hg)
    simpa using this

theorem dropNotice_rooms (polls : JSObj Poll) (socket : String) :
    List.Sublist ((polls.filterMap (dropNotice socket)).map Broadcast.room) (JSObj.keys polls) := by
  induction polls with
  | nil => exact List.Sublist.refl _
  | cons e rest ih =>
    unfold JSObj.keys at ih ⊢
    by_cases hj : isJoined e.2 socket = true
    · simpa [List.filterMap_cons, dropNotice, hj] using ih
    · simp only [List.filterMap_cons, dropNotice, hj, if_false, Bool.false_eq_true, List.map_cons]
      exact List.Sublist.cons _ ih

/-- C15: in every state reached by a trace from the empty table, after the
disconnect handler has run for session `socket` no poll has the session in
its students mapping, the polls are the same ones with the same title,
current question, stored timer handle and history, every other session has
the entry it had, and the broadcasts are exactly one `student:list` per poll
whose mapping contained the session, to that poll's room, carrying the values
of the mapping without the session. -/
theorem disconnect_everywhere (tr : List Input) (socket : String) :
    (∀ p poll', JSObj.get (disconnect (run ServerState.init tr) socket).state.polls p = some poll' →
        JSObj.get poll'.students socket = none ∧
          ∃ poll, JSObj.get (run ServerState.init tr).polls p = some poll ∧
            poll'.title = poll.title ∧ poll'.core = poll.core ∧
            ∀ k, k ≠ socket → JSObj.get poll'.students k = JSObj.get poll.students k) ∧
      (∀ p, (JSObj.get (disconnect (run ServerState.init tr) socket).state.polls p).isSome =
        (JSObj.get (run ServerState.init tr).polls p).isSome) ∧
      (∀ p names,
        ({ room := p, event := Event.studentList names } : Broadcast) ∈
            (disconnect (run ServerState.init tr) socket).emitted ↔
          ∃ poll, JSObj.get (run ServerState.init tr).polls p = some poll ∧
            (JSObj.get poll.students socket).isSome = true ∧
            names = JSObj.values (JSObj.delete poll.students socket)) ∧
      ((disconnect (run ServerState.init tr) socket).emitted.map Broadcast.room).Nodup ∧
      (∀ b ∈ (disconnect (run ServerState.init tr) socket).emitted,
        ∃ names, b.event = Event.studentList names) := by
  have hwf : WellFormed (run ServerState.init tr) := WellFormed.at_init.keeps_run tr
  generalize run ServerState.init tr = s at hwf
  have htr : ∀ p poll, JSObj.get s.polls p = some poll →
      ∀ st ∈ poll.students, st.2.truthy = true :=
    fun p poll hp => hwf.names_truthy (p, poll) (JSObj.mem_of_get _ _ _ hp)
  refine ⟨?_, ?_, ?_, ?_, disconnect_emits_lists s socket⟩
  · intro p poll' h
    simp only [disconnect, get_map_dropStudent] at h
    cases hp : JSObj.get s.polls p with
    | none => simp [hp] at h
    | some poll =>
      simp only [hp, Option.map_some', Option.some.injEq] at h
      subst h
      by_cases hj : isJoined poll socket = true
      · simp only [dropStudent, hj, if_true]
        refine ⟨by simp [JSObj.get_delete], poll, rfl, rfl, rfl, ?_⟩
        intro k hk
        simp [JSObj.get_delete, hk]
      · simp only [dropStudent, hj, if_false, Bool.false_eq_true]
        refine ⟨?_, poll, rfl, rfl, rfl, fun _ _ => rfl⟩
        cases hg : JSObj.get poll.students socket with
        | none => rfl
        | some name =>
          exfalso
          apply hj
          rw [isJoined_iff_of_truthy poll socket (htr p poll hp), hg]
          rfl
  · intro p
    simp only [disconnect, get_map_dropStudent]
    cases JSObj.get s.polls p <;> rfl
  · intro p names
    simp only [disconnect, List.mem_filterMap]
    constructor
    · rintro ⟨e, he, hd⟩
      unfold dropNotice at hd
      split at hd
      · rename_i hj
        simp only [Option.some.injEq, Broadcast.mk.injEq, Event.studentList.injEq] at hd
        obtain ⟨h1, h2⟩ := hd
        have hget : JSObj.get s.polls e.1 = some e.2 :=
          JSObj.get_of_mem _ _ _ hwf.polls_nodup he
        refine ⟨e.2, h1 ▸ hget, ?_, h2.symm⟩
        exact (isJoined_iff_of_truthy e.2 socket (hwf.names_truthy e he)).mp hj
      · cases hd
    · rintro ⟨poll, hp, hs, hn⟩
      refine ⟨(p, poll), JSObj.mem_of_get _ _ _ hp, ?_⟩
      have hj := (isJoined_iff_of_truthy poll socket (htr p poll hp)).mpr hs
      simp [dropNotice, hj, hn]
  · exact (dropNotice_rooms s.polls socket).nodup hwf.polls_nodup

/-- Witness for C15 on the sample poll: when Bob leaves, the one broadcast is
`student:list ['Alice']` to the poll's room, as the theorem says for the poll
that had Bob in its students mapping. -/
theorem disconnect_everywhere_witness :
    (disconnect (run ServerState.init sampleSetup) "bob").emitted =
        [{ room := "poll1", event := Event.studentList [JSVal.string "Alice"] }] ∧
      (({ room := "poll1", event := Event.studentList [JSVal.string "Alice"] } : Broadcast) ∈
          (disconnect (run ServerState.init sampleSetup) "bob").emitted ↔
        ∃ poll, JSObj.get (run ServerState.init sampleSetup).polls "poll1" = some poll ∧
          (JSObj.get poll.students "bob").isSome = true ∧
          [JSVal.string "Alice"] = JSObj.values (JSObj.delete poll.students "bob")) :=
  ⟨by decide, (disconnect_everywhere sampleSetup "bob").2.2.1 "poll1" [JSVal.string "Alice"]⟩


/-! ## Isolation of polls -/

theorem currentQuestion_of_get (s s' : ServerState) (p : String)
    (hg : JSObj.get s'.polls p = JSObj.get s.polls p)
    (hq : ∀ poll r, JSObj.get s.polls p = some poll → poll.current = some r →
      s'.questions[r]? = s.questions[r]?) :
    s'.currentQuestion p = s.currentQuestion p := by
  unfold ServerState.currentQuestion
  rw [hg]
  cases hp : JSObj.get s.polls p with
  | none => rfl
  | some poll =>
    cases hc : poll.current with
    | none => simp only [hc]
    | some r =>
      simp only [hc]
      exact hq poll r hp hc

theorem isolated_of_consistent (s : ServerState) (log : List EndRecord) (h : Consistent s log)
    (e : Input) (p : String) (ht : target s e = some p) :
    (∀ b ∈ (step s e).emitted, b.room = p) ∧
      ∀ p', p' ≠ p →
        JSObj.get (step s e).state.polls p' = JSObj.get s.polls p' ∧
          (step s e).state.currentQuestion p' = s.currentQuestion p' ∧
          (step s e).state.timers.filter (fun t => decide (t.pollId = p')) =
            s.timers.filter (fun t => decide (t.pollId = p')) := by
  have hview : ∀ k poll, JSObj.get s.polls k = some poll → s.view k = some poll.core := by
    intro k poll hk
    simp [ServerState.view, hk]
  have hsame : ∀ (ts : List Timer),
      (∀ p', p' ≠ p → ts.filter (fun t => decide (t.pollId = p')) =
        s.timers.filter (fun t => decide (t.pollId = p'))) →
      (∀ b ∈ ([] : List Broadcast), b.room = p) ∧
        ∀ p', p' ≠ p →
          JSObj.get ({ s with timers := ts } : ServerState).polls p' = JSObj.get s.polls p' ∧
            ({ s with timers := ts } : ServerState).currentQuestion p' = s.currentQuestion p' ∧
            ({ s with timers := ts } : ServerState).timers.filter
                (fun t => decide (t.pollId = p')) =
              s.timers.filter (fun t => decide (t.pollId = p')) := by
    intro ts hts
    refine ⟨by simp, fun p' hne => ⟨rfl, ?_, hts p' hne⟩⟩
    apply currentQuestion_of_get _ _ _ rfl
    intros
    rfl
  generalize hout : step s e = out
  cases e with
  | createPoll title p0 => simp [target] at ht
  | disconnect socket => simp [target] at ht
  | startQuestion p0 question options duration correctIndex qid now =>
    simp only [target, Option.some.injEq] at ht
    subst ht
    cases hp : JSObj.get s.polls p0 with
    | none =>
      simp only [step, startQuestion, hp] at hout
      subst hout
      exact hsame s.timers (fun _ _ => rfl)
    | some poll =>
      by_cases hc : poll.current.isSome = true
      · simp only [step, startQuestion, hp, hc, if_true] at hout
        subst hout
        exact hsame s.timers (fun _ _ => rfl)
      · simp only [step, startQuestion, hp, hc, Bool.false_eq_true, if_false] at hout
        subst hout
        refine ⟨by simp, ?_⟩
        intro p' hne
        have hg : JSObj.get (JSObj.replace s.polls p0
            { poll with current := some s.questions.length, timeout := some s.nextTimer }) p' =
            JSObj.get s.polls p' := by
          rw [JSObj.get_replace, if_neg hne]
        refine ⟨hg, ?_, ?_⟩
        · apply currentQuestion_of_get _ _ _ hg
          intro poll' r hp' hc'
          exact List.getElem?_append_left (h.cur_lt p' _ r (hview p' poll' hp') hc')
        · have hne' : ¬ p0 = p' := fun e => hne e.symm
          simp [List.filter_append, hne']
  | join socket p0 name =>
    simp only [target, Option.some.injEq] at ht
    subst ht
    cases hp : JSObj.get s.polls p0 with
    | none =>
      simp only [step, studentJoin, hp] at hout
      subst hout
      exact hsame s.timers (fun _ _ => rfl)
    | some poll =>
      simp only [step, studentJoin, hp, ServerState.putPoll] at hout
      subst hout
      refine ⟨by simp, ?_⟩
      intro p' hne
      have hg : ∀ poll' : Poll, JSObj.get (JSObj.replace s.polls p0 poll') p' =
          JSObj.get s.polls p' := by
        intro poll'
        rw [JSObj.get_replace, if_neg hne]
      refine ⟨hg _, ?_, rfl⟩
      apply currentQuestion_of_get _ _ _ (hg _)
      intros
      rfl
  | answer socket p0 optionIndex =>
    simp only [target, Option.some.injEq] at ht
    subst ht
    cases hp : JSObj.get s.polls p0 with
    | none =>
      simp only [step, studentAnswer, hp] at hout
      subst hout
      exact hsame s.timers (fun _ _ => rfl)
    | some poll =>
      cases hc : poll.current with
      | none =>
        simp only [step, studentAnswer, hp, hc] at hout
        subst hout
        exact hsame s.timers (fun _ _ => rfl)
      | some ref =>
        cases hq : s.questions[ref]? with
        | none =>
          simp only [step, studentAnswer, hp, hc, hq] at hout
          subst hout
          exact hsame s.timers (fun _ _ => rfl)
        | some q =>
          have hheap : ∀ p', p' ≠ p0 → ∀ poll' r, JSObj.get s.polls p' = some poll' →
              poll'.current = some r →
              (s.questions.set ref
                { q with answers := JSObj.set q.answers socket optionIndex })[r]? =
                s.questions[r]? := by
            intro p' hne poll' r hp' hc'
            apply List.getElem?_set_ne
            intro hr
            subst hr
            exact hne (h.cur_inj p' p0 _ _ ref (hview p' poll' hp') (hview p0 poll hp) hc' hc)
          by_cases hfull : 0 < (JSObj.keys poll.students).length ∧
              (JSObj.keys poll.students).length ≤
                (JSObj.keys (JSObj.set q.answers socket optionIndex)).length
          · simp only [step, studentAnswer, hp, hc, hq, hfull, and_self, if_true] at hout
            subst hout
            refine ⟨by simp, ?_⟩
            intro p' hne
            have hg : ∀ poll' : Poll, JSObj.get (JSObj.replace s.polls p0 poll') p' =
                JSObj.get s.polls p' := by
              intro poll'
              rw [JSObj.get_replace, if_neg hne]
            refine ⟨hg _, ?_, ?_⟩
            · apply currentQuestion_of_get _ _ _ (hg _)
              exact hheap p' hne
            · show (clearTimeout s.timers poll.timeout).filter _ = _
              simp only [clearTimeout, List.filter_filter]
              apply List.filter_congr
              intro t htm
              by_cases htp : t.pollId = p'
              · have hid : some t.id ≠ poll.timeout := by
                  intro hid
                  have := h.owner p0 _ t.id (hview p0 poll hp) hid.symm t htm rfl
                  exact hne (htp ▸ this)
                simp [htp, hid]
              · simp [htp]
          · simp only [step, studentAnswer, hp, hc, hq, hfull, if_false] at hout
            subst hout
            refine ⟨by simp, ?_⟩
            intro p' hne
            refine ⟨rfl, ?_, rfl⟩
            refine currentQuestion_of_get s _ p' ?_ ?_
            · rfl
            · exact hheap p' hne
  | timerFire id =>
    cases hf : s.timers.find? (fun t => decide (t.id = id)) with
    | none => simp [target, hf] at ht
    | some t =>
      simp only [target, hf, Option.map_some', Option.some.injEq] at ht
      have htm : t ∈ s.timers := List.mem_of_find?_eq_some hf
      have hid : t.id = id := by simpa using List.find?_some hf
      have htimers : ∀ p', p' ≠ p →
          (s.timers.filter (fun u => decide (u.id ≠ id))).filter
              (fun u => decide (u.pollId = p')) =
            s.timers.filter (fun u => decide (u.pollId = p')) := by
        intro p' hne
        simp only [List.filter_filter]
        apply List.filter_congr
        intro u hu
        by_cases hup : u.pollId = p'
        · have hne2 : u.id ≠ id := by
            intro hu2
            have := h.timer_inj u hu t htm (Or.inr (hu2.trans hid.symm))
            exact hne (hup ▸ this ▸ ht)
          simp [hup, hne2]
        · simp [hup]
      cases hp : JSObj.get s.polls t.pollId with
      | none =>
        simp only [step, timerFire, hf, timerCallback, hp] at hout
        subst hout
        exact hsame _ htimers
      | some poll =>
        cases hc : poll.current with
        | none =>
          simp only [step, timerFire, hf, timerCallback, hp, hc] at hout
          subst hout
          exact hsame _ htimers
        | some ref =>
          cases hq : s.questions[ref]? with
          | none =>
            simp only [step, timerFire, hf, timerCallback, hp, hc, hq] at hout
            subst hout
            exact hsame _ htimers
          | some q =>
            cases hq2 : s.questions[t.current]? with
            | none =>
              simp only [step, timerFire, hf, timerCallback, hp, hc, hq, hq2] at hout
              subst hout
              exact hsame _ htimers
            | some current =>
              simp only [step, timerFire, hf, timerCallback, hp, hc, hq, hq2,
                ServerState.putPoll] at hout
              subst hout
              refine ⟨by simp [ht], ?_⟩
              intro p' hne
              have hg : ∀ poll' : Poll, JSObj.get (JSObj.replace s.polls t.pollId poll') p' =
                  JSObj.get s.polls p' := by
                intro poll'
                rw [JSObj.get_replace, if_neg (ht ▸ hne)]
              refine ⟨hg _, ?_, htimers p' hne⟩
              apply currentQuestion_of_get _ _ _ (hg _)
              intros
              rfl

/-- In every state reached by a trace of the handlers on the table, a
start-question, join, answer or timer expiry addressed to poll id `p`,
accepted or not, broadcasts to room `p` only and leaves every other poll as
it was: its poll object (title, students, current question address, stored
timer handle, history), its current question and its pending timers. A step
that throws is included: the statement is about the table at the throw. -/
theorem polls_isolated (tr : List Input) (e : Input) (p : String)
    (ht : target (run ServerState.init tr) e = some p) :
    (∀ b ∈ (step (run ServerState.init tr) e).emitted, b.room = p) ∧
      (∀ p', p' ≠ p →
        JSObj.get (step (run ServerState.init tr) e).state.polls p' =
            JSObj.get (run ServerState.init tr).polls p' ∧
          (step (run ServerState.init tr) e).state.currentQuestion p' =
            (run ServerState.init tr).currentQuestion p' ∧
          (step (run ServerState.init tr) e).state.timers.filter
              (fun t => decide (t.pollId = p')) =
            (run ServerState.init tr).timers.filter (fun t => decide (t.pollId = p'))) := by
  have hc : Consistent (run ServerState.init tr) (endLog ServerState.init tr) := by
    simpa using Consistent.of_init.after_run tr
  exact isolated_of_consistent _ _ hc e p ht

/-- With a second poll beside the sample poll, Bob's answer ends the question
of the sample poll and leaves the other poll untouched. -/
theorem polls_isolated_witness :
    target (run ServerState.init (Input.createPoll (JSVal.string "Quiz 2") "poll2" :: sampleSetup))
        (Input.answer "bob" "poll1" (JSVal.ofNat 1)) = some "poll1" ∧
      JSObj.get
          (step (run ServerState.init
            (Input.createPoll (JSVal.string "Quiz 2") "poll2" :: sampleSetup))
            (Input.answer "bob" "poll1" (JSVal.ofNat 1))).state.polls "poll2" =
        JSObj.get
          (run ServerState.init
            (Input.createPoll (JSVal.string "Quiz 2") "poll2" :: sampleSetup)).polls "poll2" :=
  ⟨by decide,
    ((polls_isolated (Input.createPoll (JSVal.string "Quiz 2") "poll2" :: sampleSetup)
      (Input.answer "bob" "poll1" (JSVal.ofNat 1)) "poll1" (by decide)).2 "poll2"
      (by decide)).1⟩


/-! ## The correct answer stays hidden while a question runs -/

theorem JSObj.get_map_snd {α β : Type} (f : α → β) (o : JSObj α) (k : String) :
    JSObj.get (o.map (fun e => (e.1, f e.2))) k = (JSObj.get o k).map f := by
  induction o with
  | nil => rfl
  | cons e rest ih =>
    rw [List.map_cons, JSObj.get_cons, JSObj.get_cons]
    by_cases ha : e.1 = k
    · simp [ha]
    · simpa [ha] using ih

theorem JSObj.replace_map_snd {α β : Type} (f : α → β) (o : JSObj α) (k : String) (v : α) :
    (JSObj.replace o k v).map (fun e => (e.1, f e.2)) =
      JSObj.replace (o.map (fun e => (e.1, f e.2))) k (f v) := by
  induction o with
  | nil => rfl
  | cons e rest ih =>
    obtain ⟨a, w⟩ := e
    by_cases ha : a = k
    · simp [JSObj.replace, ha]
    · simp [JSObj.replace, ha, ih]

theorem JSObj.insertIndex_map_snd {α β : Type} (f : α → β) (o : JSObj α) (n : Nat) (k : String)
    (v : α) :
    (JSObj.insertIndex o n k v).map (fun e => (e.1, f e.2)) =
      JSObj.insertIndex (o.map (fun e => (e.1, f e.2))) n k (f v) := by
  induction o with
  | nil => rfl
  | cons e rest ih =>
    obtain ⟨a, w⟩ := e
    simp only [JSObj.insertIndex, List.map_cons]
    cases arrayIndex a with
    | none => simp
    | some m =>
      by_cases hm : m < n
      · simp [hm, ih]
      · simp [hm]

theorem JSObj.set_map_snd {α β : Type} (f : α → β) (o : JSObj α) (k : String) (v : α) :
    (JSObj.set o k v).map (fun e => (e.1, f e.2)) =
      JSObj.set (o.map (fun e => (e.1, f e.2))) k (f v) := by
  unfold JSObj.set
  rw [JSObj.get_map_snd]
  cases JSObj.get o k with
  | some w => simp [JSObj.replace_map_snd]
  | none =>
    cases arrayIndex k with
    | none => simp
    | some n => simp [JSObj.insertIndex_map_snd]

theorem computeResults_redact (q : Question) : computeResults q.redact = computeResults q := rfl

theorem question_redact_twice (q : Question) : q.redact.redact = q.redact := rfl

theorem Poll.redact_twice (p : Poll) : p.redact.redact = p.redact := by
  simp [Poll.redact, HistoryEntry.redact, Question.redact, Function.comp_def]

theorem get_redact (s : ServerState) (p : String) :
    JSObj.get s.redact.polls p = (JSObj.get s.polls p).map Poll.redact :=
  JSObj.get_map_snd Poll.redact s.polls p

theorem questions_redact (s : ServerState) (r : Nat) :
    s.redact.questions[r]? = (s.questions[r]?).map Question.redact := by
  simp [ServerState.redact]

theorem redact_idem (s : ServerState) : s.redact.redact = s.redact := by
  simp [ServerState.redact, Poll.redact, HistoryEntry.redact, Question.redact,
    Function.comp_def]

theorem replace_redact (polls : JSObj Poll) (p : String) (poll : Poll) :
    (JSObj.replace (polls.map (fun e => (e.1, e.2.redact))) p poll).map
        (fun e => (e.1, e.2.redact)) =
      (JSObj.replace polls p poll).map (fun e => (e.1, e.2.redact)) := by
  rw [JSObj.replace_map_snd Poll.redact, JSObj.replace_map_snd Poll.redact, List.map_map]
  congr 1
  apply List.map_congr_left
  intro e _
  simp [Poll.redact_twice]

theorem map_redact_redact (h : List HistoryEntry) :
    (h.map HistoryEntry.redact).map HistoryEntry.redact = h.map HistoryEntry.redact := by
  rw [List.map_map]
  rfl

theorem map_question_redact (qs : List Question) :
    (qs.map Question.redact).map Question.redact = qs.map Question.redact := by
  rw [List.map_map]
  rfl

theorem ServerState.mk_congr (a b : JSObj Poll) (c d : List Question) (ts : List Timer) (n : Nat)
    (h1 : a = b) (h2 : c = d) :
    ({ polls := a, questions := c, timers := ts, nextTimer := n } : ServerState) =
      { polls := b, questions := d, timers := ts, nextTimer := n } := by
  subst h1 h2
  rfl

theorem redact_of_replace (s : ServerState) (p : String) (x y : Poll) (qs1 qs2 : List Question)
    (ts : List Timer) (n : Nat) (hxy : x.redact = y.redact)
    (hq : qs1.map Question.redact = qs2.map Question.redact) :
    ServerState.redact
        { polls := JSObj.replace s.redact.polls p x, questions := qs1, timers := ts,
          nextTimer := n } =
      ServerState.redact
        { polls := JSObj.replace s.polls p y, questions := qs2, timers := ts, nextTimer := n } := by
  have hp : (JSObj.replace s.redact.polls p x).map (fun e => (e.1, e.2.redact)) =
      (JSObj.replace s.polls p y).map (fun e => (e.1, e.2.redact)) := by
    show (JSObj.replace (s.polls.map (fun e => (e.1, e.2.redact))) p x).map
        (fun e => (e.1, e.2.redact)) = _
    rw [replace_redact, JSObj.replace_map_snd Poll.redact, JSObj.replace_map_snd Poll.redact, hxy]
  exact ServerState.mk_congr _ _ _ _ ts n hp hq

theorem redact_of_timers (s : ServerState) (qs1 qs2 : List Question) (ts : List Timer)
    (hq : qs1.map Question.redact = qs2.map Question.redact) :
    ServerState.redact
        { polls := s.redact.polls, questions := qs1, timers := ts, nextTimer := s.nextTimer } =
      ServerState.redact
        { polls := s.polls, questions := qs2, timers := ts, nextTimer := s.nextTimer } := by
  have hp : s.redact.polls.map (fun e => (e.1, e.2.redact)) =
      s.polls.map (fun e => (e.1, e.2.redact)) := by
    show (s.polls.map (fun e => (e.1, e.2.redact))).map (fun e => (e.1, e.2.redact)) = _
    rw [List.map_map]
    apply List.map_congr_left
    intro e _
    simp [Poll.redact_twice]
  exact ServerState.mk_congr _ _ _ _ ts _ hp hq

theorem step_redact (s : ServerState) (e : Input) :
    (step s.redact e).state.redact = (step s e).state.redact ∧
      (step s.redact e).emitted.map Broadcast.redact =
        (step s e).emitted.map Broadcast.redact := by
  have hsame : s.redact.redact = s.redact ∧
      ([] : List Broadcast).map Broadcast.redact = ([] : List Broadcast).map Broadcast.redact :=
    ⟨redact_idem s, rfl⟩
  have hqs : (s.redact.questions).map Question.redact = s.questions.map Question.redact :=
    map_question_redact s.questions
  generalize h1 : step s.redact e = o1
  generalize h2 : step s e = o2
  cases e with
  | createPoll title p =>
    simp only [step, createPoll] at h1 h2
    subst h1 h2
    refine ⟨?_, rfl⟩
    have hp : (JSObj.set s.redact.polls p
          { title := title.orElse (JSVal.string "Untitled Poll"), students := [],
            current := none, history := [], timeout := none }).map
          (fun e => (e.1, e.2.redact)) =
        (JSObj.set s.polls p
          { title := title.orElse (JSVal.string "Untitled Poll"), students := [],
            current := none, history := [], timeout := none }).map
          (fun e => (e.1, e.2.redact)) := by
      show (JSObj.set (s.polls.map (fun e => (e.1, e.2.redact))) p _).map _ = _
      rw [JSObj.set_map_snd Poll.redact, JSObj.set_map_snd Poll.redact, List.map_map]
      congr 1
      apply List.map_congr_left
      intro e _
      simp [Poll.redact_twice]
    exact ServerState.mk_congr _ _ _ _ _ _ hp hqs
  | startQuestion p question options duration correctIndex qid now =>
    cases hp : JSObj.get s.polls p with
    | none =>
      have hp' : JSObj.get s.redact.polls p = none := by rw [get_redact, hp]; rfl
      simp only [step, startQuestion, hp, hp'] at h1 h2
      subst h1 h2
      exact hsame
    | some poll =>
      have hp' : JSObj.get s.redact.polls p = some poll.redact := by rw [get_redact, hp]; rfl
      by_cases hc : poll.current.isSome = true
      · have hc' : poll.redact.current.isSome = true := hc
        simp only [step, startQuestion, hp, hp', hc, hc', if_true] at h1 h2
        subst h1 h2
        exact hsame
      · have hc' : ¬ poll.redact.current.isSome = true := hc
        simp only [step, startQuestion, hp, hp', hc, hc', Bool.false_eq_true, if_false] at h1 h2
        subst h1 h2
        have hl : s.redact.questions.length = s.questions.length := by
          simp [ServerState.redact]
        refine ⟨?_, rfl⟩
        simp only [hl]
        apply redact_of_replace
        · simp only [Poll.redact, map_redact_redact]
          rfl
        · simp only [List.map_append, hqs]
  | join socket p name =>
    cases hp : JSObj.get s.polls p with
    | none =>
      have hp' : JSObj.get s.redact.polls p = none := by rw [get_redact, hp]; rfl
      simp only [step, studentJoin, hp, hp'] at h1 h2
      subst h1 h2
      exact hsame
    | some poll =>
      have hp' : JSObj.get s.redact.polls p = some poll.redact := by rw [get_redact, hp]; rfl
      simp only [step, studentJoin, hp, hp', ServerState.putPoll] at h1 h2
      subst h1 h2
      refine ⟨?_, rfl⟩
      apply redact_of_replace
      · simp only [Poll.redact, map_redact_redact]
      · exact hqs
  | answer socket p optionIndex =>
    cases hp : JSObj.get s.polls p with
    | none =>
      have hp' : JSObj.get s.redact.polls p = none := by rw [get_redact, hp]; rfl
      simp only [step, studentAnswer, hp, hp'] at h1 h2
      subst h1 h2
      exact hsame
    | some poll =>
      have hp' : JSObj.get s.redact.polls p = some poll.redact := by rw [get_redact, hp]; rfl
      cases hc : poll.current with
      | none =>
        have hc' : poll.redact.current = none := hc
        simp only [step, studentAnswer, hp, hp', hc, hc'] at h1 h2
        subst h1 h2
        exact hsame
      | some ref =>
        have hc' : poll.redact.current = some ref := hc
        cases hq : s.questions[ref]? with
        | none =>
          have hq' : s.redact.questions[ref]? = none := by rw [questions_redact, hq]; rfl
          simp only [step, studentAnswer, hp, hp', hc, hc', hq, hq'] at h1 h2
          subst h1 h2
          exact hsame
        | some q =>
          have hq' : s.redact.questions[ref]? = some q.redact := by
            rw [questions_redact, hq]; rfl
          have hset : (s.redact.questions.set ref
                { q.redact with answers := JSObj.set q.redact.answers socket optionIndex }).map
                Question.redact =
              (s.questions.set ref
                { q with answers := JSObj.set q.answers socket optionIndex }).map
                Question.redact := by
            simp only [List.map_set, hqs]
            rfl
          by_cases hfull : 0 < (JSObj.keys poll.students).length ∧
              (JSObj.keys poll.students).length ≤
                (JSObj.keys (JSObj.set q.answers socket optionIndex)).length
          · have hfull' : 0 < (JSObj.keys poll.redact.students).length ∧
                (JSObj.keys poll.redact.students).length ≤
                  (JSObj.keys (JSObj.set q.redact.answers socket optionIndex)).length := hfull
            simp only [step, studentAnswer, hp, hp', hc, hc', hq, hq', hfull, hfull', and_self,
              if_true] at h1 h2
            subst h1 h2
            refine ⟨?_, rfl⟩
            apply redact_of_replace
            · simp only [Poll.redact, List.map_append, map_redact_redact]
              rfl
            · exact hset
          · have hfull' : ¬ (0 < (JSObj.keys poll.redact.students).length ∧
                (JSObj.keys poll.redact.students).length ≤
                  (JSObj.keys (JSObj.set q.redact.answers socket optionIndex)).length) := hfull
            simp only [step, studentAnswer, hp, hp', hc, hc', hq, hq', hfull, hfull',
              if_false] at h1 h2
            subst h1 h2
            exact ⟨redact_of_timers s _ _ _ hset, rfl⟩
  | disconnect socket =>
    simp only [step, disconnect] at h1 h2
    subst h1 h2
    have hd : ∀ e : String × Poll,
        ((dropStudent socket (e.1, e.2.redact)).1,
            (dropStudent socket (e.1, e.2.redact)).2.redact) =
          ((dropStudent socket e).1, (dropStudent socket e).2.redact) := by
      intro e
      unfold dropStudent
      by_cases hj : isJoined e.2 socket = true
      · have hj' : isJoined e.2.redact socket = true := hj
        simp only [hj, hj', if_true]
        simp only [Poll.redact, map_redact_redact]
      · have hj' : ¬ isJoined e.2.redact socket = true := hj
        simp only [hj, hj', if_false, Bool.false_eq_true]
        simp only [Poll.redact, map_redact_redact]
    have hn : ∀ e : String × Poll,
        dropNotice socket (e.1, e.2.redact) = dropNotice socket e := by
      intro e
      unfold dropNotice
      by_cases hj : isJoined e.2 socket = true
      · have hj' : isJoined e.2.redact socket = true := hj
        simp only [hj, hj', if_true]
        rfl
      · have hj' : ¬ isJoined e.2.redact socket = true := hj
        simp only [hj, hj', if_false, Bool.false_eq_true]
    constructor
    · have hp : ((s.redact.polls).map (dropStudent socket)).map (fun e => (e.1, e.2.redact)) =
          (s.polls.map (dropStudent socket)).map (fun e => (e.1, e.2.redact)) := by
        show ((s.polls.map (fun e => (e.1, e.2.redact))).map (dropStudent socket)).map _ = _
        rw [List.map_map, List.map_map, List.map_map]
        apply List.map_congr_left
        intro e _
        exact hd e
      exact ServerState.mk_congr _ _ _ _ _ _ hp hqs
    · congr 1
      show (s.polls.map (fun e => (e.1, e.2.redact))).filterMap (dropNotice socket) = _
      rw [List.filterMap_map]
      apply List.filterMap_congr
      intro e _
      exact hn e
  | timerFire id =>
    have ht : s.redact.timers = s.timers := rfl
    cases hf : s.timers.find? (fun t => decide (t.id = id)) with
    | none =>
      simp only [step, timerFire, ht, hf] at h1 h2
      subst h1 h2
      exact hsame
    | some t =>
      have hidem : ∀ ts : List Timer,
          ({ s.redact with timers := ts } : ServerState).redact =
              ({ s with timers := ts } : ServerState).redact ∧
            ([] : List Broadcast).map Broadcast.redact =
              ([] : List Broadcast).map Broadcast.redact :=
        fun ts => ⟨redact_of_timers s _ _ ts hqs, rfl⟩
      cases hp : JSObj.get s.polls t.pollId with
      | none =>
        have hp' : JSObj.get s.redact.polls t.pollId = none := by rw [get_redact, hp]; rfl
        simp only [step, timerFire, ht, hf, timerCallback, hp, hp'] at h1 h2
        subst h1 h2
        exact hidem _
      | some poll =>
        have hp' : JSObj.get s.redact.polls t.pollId = some poll.redact := by
          rw [get_redact, hp]; rfl
        cases hc : poll.current with
        | none =>
          have hc' : poll.redact.current = none := hc
          simp only [step, timerFire, ht, hf, timerCallback, hp, hp', hc, hc'] at h1 h2
          subst h1 h2
          exact hidem _
        | some ref =>
          have hc' : poll.redact.current = some ref := hc
          have hqr : ∀ r, s.redact.questions[r]? = (s.questions[r]?).map Question.redact :=
            questions_redact s
          cases hq : s.questions[ref]? with
          | none =>
            simp only [step, timerFire, ht, hf, timerCallback, hp, hp', hc, hc', hqr, hq,
              Option.map_none'] at h1 h2
            subst h1 h2
            exact hidem _
          | some q =>
            cases hq2 : s.questions[t.current]? with
            | none =>
              simp only [step, timerFire, ht, hf, timerCallback, hp, hp', hc, hc', hqr, hq, hq2,
                Option.map_none', Option.map_some'] at h1 h2
              subst h1 h2
              exact hidem _
            | some current =>
              simp only [step, timerFire, ht, hf, timerCallback, hp, hp', hc, hc', hqr, hq, hq2,
                Option.map_some', ServerState.putPoll] at h1 h2
              subst h1 h2
              refine ⟨?_, rfl⟩
              apply redact_of_replace
              · simp only [Poll.redact, List.map_append, map_redact_redact]
                rfl
              · exact hqs


theorem step_of_redact_eq (s1 s2 : ServerState) (h : s1.redact = s2.redact) (e : Input) :
    (step s1 e).state.redact = (step s2 e).state.redact ∧
      (step s1 e).emitted.map Broadcast.redact = (step s2 e).emitted.map Broadcast.redact := by
  have h1 := step_redact s1 e
  have h2 := step_redact s2 e
  rw [h] at h1
  exact ⟨h1.1.symm.trans h2.1, h1.2.symm.trans h2.2⟩

theorem broadcasts_of_redact_eq (tr : List Input) (s1 s2 : ServerState)
    (h : s1.redact = s2.redact) :
    (broadcasts s1 tr).map Broadcast.redact = (broadcasts s2 tr).map Broadcast.redact := by
  induction tr generalizing s1 s2 with
  | nil => rfl
  | cons e rest ih =>
    have hs := step_of_redact_eq s1 s2 h e
    simp only [broadcasts, List.map_append, hs.2, ih _ _ hs.1]

theorem startQuestion_redact (s : ServerState) (p : String) (question : JSVal)
    (options : List JSVal) (duration : Option Int) (c1 c2 : JSVal) (qid : String) (now : Int) :
    (startQuestion s p question options duration c1 qid now).state.redact =
        (startQuestion s p question options duration c2 qid now).state.redact ∧
      (startQuestion s p question options duration c1 qid now).emitted =
        (startQuestion s p question options duration c2 qid now).emitted := by
  generalize h1 : startQuestion s p question options duration c1 qid now = o1
  generalize h2 : startQuestion s p question options duration c2 qid now = o2
  cases hp : JSObj.get s.polls p with
  | none =>
    simp only [startQuestion, hp] at h1 h2
    subst h1 h2
    exact ⟨rfl, rfl⟩
  | some poll =>
    by_cases hc : poll.current.isSome = true
    · simp only [startQuestion, hp, hc, if_true] at h1 h2
      subst h1 h2
      exact ⟨rfl, rfl⟩
    · simp only [startQuestion, hp, hc, Bool.false_eq_true, if_false] at h1 h2
      subst h1 h2
      refine ⟨?_, rfl⟩
      simp [ServerState.redact, Question.redact]

theorem isEnd_redact (b : Broadcast) : b.redact.isEnd = b.isEnd := by
  obtain ⟨room, event⟩ := b
  cases event <;> rfl

theorem redact_of_not_end (b : Broadcast) (h : b.isEnd = false) : b.redact = b := by
  obtain ⟨room, event⟩ := b
  cases event <;> first | rfl | cases h

theorem filter_redact (l : List Broadcast) :
    (l.map Broadcast.redact).filter (fun b => !b.isEnd) = l.filter (fun b => !b.isEnd) := by
  induction l with
  | nil => rfl
  | cons b rest ih =>
    rw [List.map_cons, List.filter_cons, List.filter_cons, isEnd_redact, ih]
    cases h : b.isEnd with
    | false => simp [redact_of_not_end b h]
    | true => simp

/-- C11: two runs from the same state that start a question with the same
payload, ids drawn and clock reading, except for `correctIndex`, and then
receive the same inputs, make the same broadcasts apart from `question:end`:
every `question:start`, `question:partial` and `student:list` is identical
in both; and their `question:end` broadcasts differ at most in the
`correctIndex` they carry. -/
theorem correctIndex_hidden (s : ServerState) (p : String) (question : JSVal)
    (options : List JSVal) (duration : Option Int) (c1 c2 : JSVal) (qid : String) (now : Int)
    (tr : List Input) :
    (broadcasts s (Input.startQuestion p question options duration c1 qid now :: tr)).filter
          (fun b => !b.isEnd) =
        (broadcasts s (Input.startQuestion p question options duration c2 qid now :: tr)).filter
          (fun b => !b.isEnd) ∧
      (broadcasts s (Input.startQuestion p question options duration c1 qid now :: tr)).map
          Broadcast.redact =
        (broadcasts s (Input.startQuestion p question options duration c2 qid now :: tr)).map
          Broadcast.redact := by
  have hs := startQuestion_redact s p question options duration c1 c2 qid now
  have hm : (broadcasts s (Input.startQuestion p question options duration c1 qid now :: tr)).map
        Broadcast.redact =
      (broadcasts s (Input.startQuestion p question options duration c2 qid now :: tr)).map
        Broadcast.redact := by
    simp only [broadcasts, step, List.map_append, hs.2, broadcasts_of_redact_eq tr _ _ hs.1]
  refine ⟨?_, hm⟩
  rw [← filter_redact, hm, filter_redact]

/-- The sample run started with two different correct answers: the
broadcasts before the end are the same, the `question:end` differ. -/
theorem correctIndex_hidden_sample :
    (broadcasts sampleIdle
        [Input.startQuestion "poll1" (JSVal.string "Pick one") sampleOptions none (JSVal.ofNat 1)
          "q1" 1000, Input.answer "alice" "poll1" (JSVal.ofNat 0), Input.timerFire 0]).filter
        Broadcast.isEnd ≠
      (broadcasts sampleIdle
        [Input.startQuestion "poll1" (JSVal.string "Pick one") sampleOptions none (JSVal.ofNat 2)
          "q1" 1000, Input.answer "alice" "poll1" (JSVal.ofNat 0), Input.timerFire 0]).filter
        Broadcast.isEnd := by
  decide


/-! ## Traces without repeated poll ids -/

theorem Sched.at_start : Sched (fun _ => none) [] [] := by
  constructor <;> simp

theorem Sched.on_create {view : String → Option PollCore} {timers : List Timer}
    {log : List EndRecord} (h : Sched view timers log) (p : String) (hnew : view p = none) :
    Sched (fun k => if k = p then some { current := none, timeout := none, history := [] }
      else view k) timers log where
  timer_current := by
    intro t ht
    obtain ⟨c, hv, hc⟩ := h.timer_current t ht
    have hne : ¬ t.pollId = p := by
      intro he
      rw [he, hnew] at hv
      cases hv
    exact ⟨c, by simp only [hne, if_false]; exact hv, hc⟩
  current_timer := by
    intro k c r hv hc
    by_cases hk : k = p
    · simp only [hk, if_true, Option.some.injEq] at hv
      subst hv; cases hc
    · simp only [hk, if_false] at hv
      exact h.current_timer k c r hv hc
  own_results := h.own_results

theorem Sched.on_start {view : String → Option PollCore} {timers : List Timer}
    {log : List EndRecord} (h : Sched view timers log) (p : String) (c : PollCore)
    (hv : view p = some c) (hc : c.current = none) (id r : Nat) (d : JSNum) (n : Option Nat) :
    Sched (fun k => if k = p then some { current := some r, timeout := n, history := c.history }
      else view k)
      (timers ++ [{ id := id, pollId := p, current := r, delay := d }]) log where
  timer_current := by
    intro t ht
    simp only [List.mem_append, List.mem_singleton] at ht
    rcases ht with ht | rfl
    · obtain ⟨c', hv', hc'⟩ := h.timer_current t ht
      have hne : ¬ t.pollId = p := by
        intro he
        rw [he, hv] at hv'
        cases hv'
        rw [hc] at hc'
        cases hc'
      exact ⟨c', by simp only [hne, if_false]; exact hv', hc'⟩
    · exact ⟨{ current := some r, timeout := n, history := c.history }, by simp, rfl⟩
  current_timer := by
    intro k c' r' hv' hc'
    by_cases hk : k = p
    · simp only [hk, if_true, Option.some.injEq] at hv'
      subst hv'
      cases hc'
      exact ⟨{ id := id, pollId := p, current := r, delay := d }, by simp, rfl⟩
    · simp only [hk, if_false] at hv'
      obtain ⟨t, ht, htr⟩ := h.current_timer k c' r' hv' hc'
      exact ⟨t, by simp [ht], htr⟩
  own_results := h.own_results

theorem Sched.on_finish {view : String → Option PollCore} {heap : List Question}
    {timers timers' : List Timer} {next : Nat} {log : List EndRecord}
    (h : Sched view timers log) (hi : Inv view heap timers next log) (p : String) (c : PollCore)
    (rc : Nat) (b : Bool) (entry : HistoryEntry) (hist : List HistoryEntry)
    (hv : view p = some c) (hc : c.current = some rc)
    (hsub : ∀ t ∈ timers', t ∈ timers) (hgone : ∀ t ∈ timers', t.current ≠ rc)
    (hkeep : ∀ t ∈ timers, t.current ≠ rc → t ∈ timers') :
    Sched (fun k => if k = p then some { current := none, timeout := c.timeout, history := hist }
      else view k)
      timers'
      (log ++ [{ room := p, archived := rc, cleared := rc, byTimer := b, entry := entry }]) where
  timer_current := by
    intro t ht
    obtain ⟨c', hv', hc'⟩ := h.timer_current t (hsub t ht)
    have hne : ¬ t.pollId = p := by
      intro he
      rw [he, hv] at hv'
      cases hv'
      rw [hc] at hc'
      exact hgone t ht (Option.some.inj hc').symm
    exact ⟨c', by simp only [hne, if_false]; exact hv', hc'⟩
  current_timer := by
    intro k c' r hv' hc'
    by_cases hk : k = p
    · simp only [hk, if_true, Option.some.injEq] at hv'
      subst hv'; cases hc'
    · simp only [hk, if_false] at hv'
      obtain ⟨t, ht, htr⟩ := h.current_timer k c' r hv' hc'
      refine ⟨t, hkeep t ht ?_, htr⟩
      intro he
      exact hk (hi.cur_inj k p c' c rc hv' hv (by rw [hc', ← htr, he]) hc)
  own_results := by
    intro rec hr
    simp only [List.mem_append, List.mem_singleton] at hr
    rcases hr with hr | rfl
    · exact h.own_results rec hr
    · rfl


theorem view_of_replace (s : ServerState) (p : String) (poll poll' : Poll) (qs : List Question)
    (ts : List Timer) (n : Nat) (hp : JSObj.get s.polls p = some poll) :
    ServerState.view { polls := JSObj.replace s.polls p poll', questions := qs, timers := ts,
                       nextTimer := n } =
      fun k => if k = p then some poll'.core else s.view k := by
  funext k
  simp only [ServerState.view, view_replace _ _ _ _ hp]

theorem view_of_get (s : ServerState) (p : String) (c : PollCore) (h : s.view p = some c) :
    ∃ poll, JSObj.get s.polls p = some poll ∧ poll.core = c := by
  unfold ServerState.view at h
  cases hp : JSObj.get s.polls p with
  | none => simp [hp] at h
  | some poll => exact ⟨poll, rfl, by simpa [hp] using h⟩

theorem Scheduled.holds_step {s : ServerState} {log : List EndRecord} (hs : Scheduled s log)
    (hi : Consistent s log) (e : Input) (hf : drawsFresh s e = true) :
    Scheduled (step s e).state (log ++ (endRecord s e).toList) := by
  have hview : ∀ k poll, JSObj.get s.polls k = some poll → s.view k = some poll.core := by
    intro k poll hk
    simp [ServerState.view, hk]
  generalize hout : step s e = out
  cases e with
  | createPoll title p =>
    simp only [step, createPoll] at hout
    subst hout
    simp only [endRecord, Option.toList, List.append_nil]
    have hnone : s.view p = none := by
      simp only [drawsFresh, Option.isNone_iff_eq_none] at hf
      simp [ServerState.view, hf]
    have hv : ServerState.view
        { s with polls := (JSObj.set s.polls p
            { title := title.orElse (JSVal.string "Untitled Poll"), students := [],
              current := none, history := [], timeout := none }) } =
        fun k => if k = p then some { current := none, timeout := none, history := [] }
          else s.view k := by
      funext k
      simp only [ServerState.view, view_set]
      rfl
    unfold Scheduled
    rw [hv]
    exact Sched.on_create hs p hnone
  | startQuestion p question options duration correctIndex qid now =>
    simp only [endRecord, Option.toList, List.append_nil]
    cases hp : JSObj.get s.polls p with
    | none =>
      simp only [step, startQuestion, hp] at hout
      subst hout
      exact hs
    | some poll =>
      by_cases hc : poll.current.isSome = true
      · simp only [step, startQuestion, hp, hc, if_true] at hout
        subst hout
        exact hs
      · simp only [step, startQuestion, hp, hc, Bool.false_eq_true, if_false] at hout
        subst hout
        unfold Scheduled
        rw [view_of_replace s p poll _ _ _ _ hp]
        have hcn : poll.core.current = none := by
          cases hcc : poll.current with
          | none => exact hcc
          | some r => simp [hcc] at hc
        exact Sched.on_start hs p poll.core (hview p poll hp) hcn _ _ _ _
  | join socket p name =>
    simp only [endRecord, Option.toList, List.append_nil]
    cases hp : JSObj.get s.polls p with
    | none =>
      simp only [step, studentJoin, hp] at hout
      subst hout
      exact hs
    | some poll =>
      simp only [step, studentJoin, hp, ServerState.putPoll] at hout
      subst hout
      unfold Scheduled
      rw [view_of_replace s p poll _ _ _ _ hp]
      have hsame : ∀ st : JSObj JSVal, (fun k => if k = p then
          some (Poll.core { poll with students := st })
          else s.view k) = s.view := by
        intro st
        funext k
        by_cases hk : k = p
        · simp only [hk, if_true]
          exact (hview p poll hp).symm
        · simp only [hk, if_false]
      rw [hsame]
      exact hs
  | answer socket p optionIndex =>
    cases hp : JSObj.get s.polls p with
    | none =>
      simp only [step, studentAnswer, hp] at hout
      subst hout
      simpa [endRecord, hp] using hs
    | some poll =>
      cases hc : poll.current with
      | none =>
        simp only [step, studentAnswer, hp, hc] at hout
        subst hout
        simpa [endRecord, hp, hc] using hs
      | some ref =>
        have hv := hview p poll hp
        have hcc : poll.core.current = some ref := hc
        have hlt : ref < s.questions.length := hi.cur_lt p _ ref hv hcc
        cases hq : s.questions[ref]? with
        | none =>
          rw [List.getElem?_eq_getElem hlt] at hq
          cases hq
        | some q =>
          by_cases hfull : 0 < (JSObj.keys poll.students).length ∧
              (JSObj.keys poll.students).length ≤
                (JSObj.keys (JSObj.set q.answers socket optionIndex)).length
          · simp only [step, studentAnswer, hp, hc, hq, hfull, and_self, if_true] at hout
            subst hout
            simp only [endRecord, hp, hc, hq, hfull, and_self, if_true, Option.toList]
            unfold Scheduled
            rw [view_of_replace s p poll _ _ _ _ hp]
            refine Sched.on_finish hs hi p poll.core ref false _ _ hv hcc ?_ ?_ ?_
            · intro t ht
              exact (List.mem_filter.mp ht).1
            · intro t ht htr
              have hmem := List.mem_filter.mp ht
              have hl := (hi.link p _ ref hv hcc t hmem.1 htr).2
              have hne : some t.id ≠ poll.timeout := by simpa using hmem.2
              exact hne hl.symm
            · intro t ht htr
              refine List.mem_filter.mpr ⟨ht, ?_⟩
              obtain ⟨t0, ht0, ht0r⟩ := hs.current_timer p _ ref hv hcc
              have hl := (hi.link p _ ref hv hcc t0 ht0 ht0r).2
              have hne : some t.id ≠ poll.timeout := by
                intro he
                have hl' : poll.timeout = some t0.id := hl
                rw [hl'] at he
                have := hi.timer_inj t ht t0 ht0 (Or.inr (Option.some.inj he))
                exact htr (this ▸ ht0r)
              simpa using hne
          · simp only [step, studentAnswer, hp, hc, hq, hfull, if_false] at hout
            subst hout
            simp only [endRecord, hp, hc, hq, hfull, if_false, Option.toList, List.append_nil]
            exact hs
  | disconnect socket =>
    simp only [step] at hout
    subst hout
    simp only [endRecord, Option.toList, List.append_nil]
    have hv : (disconnect s socket).state.view = s.view := by
      funext k
      exact view_disconnect s socket k
    unfold Scheduled
    rw [hv]
    exact hs
  | timerFire id =>
    cases hfd : s.timers.find? (fun t => decide (t.id = id)) with
    | none =>
      simp only [step, timerFire, hfd] at hout
      subst hout
      simpa [endRecord, hfd] using hs
    | some t =>
      have htm : t ∈ s.timers := List.mem_of_find?_eq_some hfd
      have hid : t.id = id := by simpa using List.find?_some hfd
      obtain ⟨c, hvc, hcc⟩ := hs.timer_current t htm
      obtain ⟨poll, hp, hcore⟩ := view_of_get s t.pollId c hvc
      have hc : poll.current = some t.current := by
        rw [← hcore] at hcc
        exact hcc
      have hlt : t.current < s.questions.length := (hi.timer_lt t htm).1
      have hq : s.questions[t.current]? = some s.questions[t.current] :=
        List.getElem?_eq_getElem hlt
      simp only [step, timerFire, hfd, timerCallback, hp, hc, hq, ServerState.putPoll] at hout
      subst hout
      simp only [endRecord, hfd, hp, hc, hq, Option.toList]
      unfold Scheduled
      rw [view_of_replace _ t.pollId poll _ _ _ _ hp]
      refine Sched.on_finish hs hi t.pollId poll.core t.current true _ _ (hview _ poll hp) hc
        ?_ ?_ ?_
      · intro u hu
        exact (List.mem_filter.mp hu).1
      · intro u hu hcur
        have hmem := List.mem_filter.mp hu
        have hne : u.id ≠ id := by simpa using hmem.2
        have := hi.timer_inj u hmem.1 t htm (Or.inl hcur)
        exact hne (this ▸ hid)
      · intro u hu hcur
        refine List.mem_filter.mpr ⟨hu, ?_⟩
        have hne : u.id ≠ id := by
          intro he
          have := hi.timer_inj u hu t htm (Or.inr (he.trans hid.symm))
          exact hcur (this ▸ rfl)
        simpa using hne

theorem Scheduled.holds_run {s : ServerState} {log : List EndRecord} (hs : Scheduled s log)
    (hi : Consistent s log) (tr : List Input) (hf : freshIds s tr = true) :
    Scheduled (run s tr) (log ++ endLog s tr) := by
  induction tr generalizing s log with
  | nil => simpa [run, endLog] using hs
  | cons e rest ih =>
    simp only [freshIds, Bool.and_eq_true] at hf
    have := ih (hs.holds_step hi e hf.1) (hi.after_step e) hf.2
    simpa [run, endLog, List.append_assoc] using this

theorem Scheduled.at_boot : Scheduled ServerState.init [] := by
  have h : ServerState.init.view = fun _ => none := by
    funext k
    rfl
  unfold Scheduled
  rw [h]
  exact Sched.at_start


/-- C20: in every state reached from the empty table by a trace in which
`teacher:create-poll` always draws an unused id, every pending timer is the
timer of the question that is current in its poll, and the handle the poll
stores is its handle; a poll with a current question has exactly one pending
timer; so a poll has a pending timer exactly when its current question is
present; and whichever timer expires, its callback finds both the poll and
its current question and throws nothing. -/
theorem timers_match_current (tr : List Input) (hf : freshIds ServerState.init tr = true) :
    (∀ t ∈ (run ServerState.init tr).timers,
        ∃ poll, JSObj.get (run ServerState.init tr).polls t.pollId = some poll ∧
          poll.current = some t.current ∧ poll.timeout = some t.id) ∧
      (∀ p poll r, JSObj.get (run ServerState.init tr).polls p = some poll →
        poll.current = some r →
        ∃ t ∈ (run ServerState.init tr).timers, t.pollId = p ∧ t.current = r ∧
          ∀ u ∈ (run ServerState.init tr).timers, u.pollId = p → u = t) ∧
      (∀ p, (∃ t ∈ (run ServerState.init tr).timers, t.pollId = p) ↔
        ∃ poll, JSObj.get (run ServerState.init tr).polls p = some poll ∧
          poll.current.isSome = true) ∧
      (∀ id, (timerFire (run ServerState.init tr) id).thrown = none) := by
  have hi : Consistent (run ServerState.init tr) (endLog ServerState.init tr) := by
    simpa using Consistent.of_init.after_run tr
  have hs : Scheduled (run ServerState.init tr) (endLog ServerState.init tr) := by
    simpa using Scheduled.at_boot.holds_run Consistent.of_init tr hf
  generalize run ServerState.init tr = s at hi hs
  generalize endLog ServerState.init tr = log at hi hs
  have hview : ∀ k poll, JSObj.get s.polls k = some poll → s.view k = some poll.core := by
    intro k poll hk
    simp [ServerState.view, hk]
  have h1 : ∀ t ∈ s.timers, ∃ poll, JSObj.get s.polls t.pollId = some poll ∧
      poll.current = some t.current ∧ poll.timeout = some t.id := by
    intro t ht
    obtain ⟨c, hvc, hcc⟩ := hs.timer_current t ht
    obtain ⟨poll, hp, hcore⟩ := view_of_get s t.pollId c hvc
    subst hcore
    exact ⟨poll, hp, hcc, (hi.link t.pollId _ t.current hvc hcc t ht rfl).2⟩
  have h2 : ∀ p poll r, JSObj.get s.polls p = some poll → poll.current = some r →
      ∃ t ∈ s.timers, t.pollId = p ∧ t.current = r ∧ ∀ u ∈ s.timers, u.pollId = p → u = t := by
    intro p poll r hp hc
    obtain ⟨t, ht, htr⟩ := hs.current_timer p _ r (hview p poll hp) hc
    refine ⟨t, ht, (hi.link p _ r (hview p poll hp) hc t ht htr).1, htr, ?_⟩
    intro u hu hup
    obtain ⟨poll', hp', hc', _⟩ := h1 u hu
    rw [hup, hp] at hp'
    cases hp'
    rw [hc] at hc'
    exact hi.timer_inj u hu t ht (Or.inl ((Option.some.inj hc').symm.trans htr.symm))
  refine ⟨h1, h2, ?_, ?_⟩
  · intro p
    constructor
    · rintro ⟨t, ht, rfl⟩
      obtain ⟨poll, hp, hc, _⟩ := h1 t ht
      exact ⟨poll, hp, by simp [hc]⟩
    · rintro ⟨poll, hp, hc⟩
      cases hcc : poll.current with
      | none => simp [hcc] at hc
      | some r =>
        obtain ⟨t, ht, htp, _⟩ := h2 p poll r hp hcc
        exact ⟨t, ht, htp⟩
  · intro id
    cases hfd : s.timers.find? (fun t => decide (t.id = id)) with
    | none => simp [timerFire, hfd]
    | some t =>
      have htm : t ∈ s.timers := List.mem_of_find?_eq_some hfd
      obtain ⟨poll, hp, hc, _⟩ := h1 t htm
      have hlt : t.current < s.questions.length := (hi.timer_lt t htm).1
      have hq : s.questions[t.current]? = some s.questions[t.current] :=
        List.getElem?_eq_getElem hlt
      simp [timerFire, hfd, timerCallback, hp, hc, hq]

/-- Witness for C20: the sample scenario after Alice's answer draws each poll
id once; its one pending timer is that of the running question. -/
theorem timers_match_current_witness :
    freshIds ServerState.init (sampleSetup ++ [Input.answer "alice" "poll1" (JSVal.ofNat 0)]) =
        true ∧
      (run ServerState.init
        (sampleSetup ++ [Input.answer "alice" "poll1" (JSVal.ofNat 0)])).timers =
        [{ id := 0, pollId := "poll1", current := 0, delay := 60000 }] ∧
      ∀ id, (timerFire (run ServerState.init
        (sampleSetup ++ [Input.answer "alice" "poll1" (JSVal.ofNat 0)])) id).thrown = none :=
  ⟨by decide, by decide,
    (timers_match_current (sampleSetup ++ [Input.answer "alice" "poll1" (JSVal.ofNat 0)])
      (by decide)).2.2.2⟩


/-! ## The history -/

/-- In every state, an input other than a `teacher:create-poll` that draws a
used id leaves the history of every poll as it was or appends one entry at
its end, together with a `question:end` for that entry to the poll's room
and with `current` set to absent. -/
theorem history_step (s : ServerState) (e : Input) (hf : drawsFresh s e = true) (p : String)
    (poll : Poll) (hp : JSObj.get s.polls p = some poll) :
    ∃ poll', JSObj.get (step s e).state.polls p = some poll' ∧
      (poll'.history = poll.history ∨
        ∃ x, poll'.history = poll.history ++ [x] ∧ poll'.current = none ∧
          ({ room := p,
             event := Event.questionEnd x.results x.question.correctIndex x.question.options } :
            Broadcast) ∈ (step s e).emitted) := by
  have hsame : ∀ ts : List Timer, ∀ qs : List Question,
      ∃ poll', JSObj.get ({ s with timers := ts, questions := qs } : ServerState).polls p =
          some poll' ∧
        (poll'.history = poll.history ∨
          ∃ x, poll'.history = poll.history ++ [x] ∧ poll'.current = none ∧
            ({ room := p,
               event := Event.questionEnd x.results x.question.correctIndex x.question.options } :
              Broadcast) ∈ ([] : List Broadcast)) :=
    fun _ _ => ⟨poll, hp, Or.inl rfl⟩
  have hrep : ∀ (p0 : String) (poll0 new : Poll) (out : List Broadcast),
      JSObj.get s.polls p0 = some poll0 →
      (new.history = poll0.history ∨
        ∃ x, new.history = poll0.history ++ [x] ∧ new.current = none ∧
          ({ room := p0,
             event := Event.questionEnd x.results x.question.correctIndex x.question.options } :
            Broadcast) ∈ out) →
      ∃ poll', JSObj.get (JSObj.replace s.polls p0 new) p = some poll' ∧
        (poll'.history = poll.history ∨
          ∃ x, poll'.history = poll.history ++ [x] ∧ poll'.current = none ∧
            ({ room := p,
               event := Event.questionEnd x.results x.question.correctIndex x.question.options } :
              Broadcast) ∈ out) := by
    intro p0 poll0 new out hp0 hnew
    rw [JSObj.get_replace]
    by_cases hk : p = p0
    · subst hk
      rw [hp] at hp0
      cases hp0
      exact ⟨new, by simp [hp], hnew⟩
    · exact ⟨poll, by simp [hk, hp], Or.inl rfl⟩
  generalize hout : step s e = out
  cases e with
  | createPoll title p0 =>
    simp only [step, createPoll] at hout
    subst hout
    simp only [drawsFresh, Option.isNone_iff_eq_none] at hf
    have hne : ¬ p = p0 := by
      intro he
      rw [he, hf] at hp
      cases hp
    exact ⟨poll, by simp only [JSObj.get_set, hne, if_false]; exact hp, Or.inl rfl⟩
  | startQuestion p0 question options duration correctIndex qid now =>
    cases hp0 : JSObj.get s.polls p0 with
    | none =>
      simp only [step, startQuestion, hp0] at hout
      subst hout
      exact hsame s.timers s.questions
    | some poll0 =>
      by_cases hc : poll0.current.isSome = true
      · simp only [step, startQuestion, hp0, hc, if_true] at hout
        subst hout
        exact hsame s.timers s.questions
      · simp only [step, startQuestion, hp0, hc, Bool.false_eq_true, if_false] at hout
        subst hout
        exact hrep p0 poll0 _ _ hp0 (Or.inl rfl)
  | join socket p0 name =>
    cases hp0 : JSObj.get s.polls p0 with
    | none =>
      simp only [step, studentJoin, hp0] at hout
      subst hout
      exact hsame s.timers s.questions
    | some poll0 =>
      simp only [step, studentJoin, hp0, ServerState.putPoll] at hout
      subst hout
      exact hrep p0 poll0 _ _ hp0 (Or.inl rfl)
  | answer socket p0 optionIndex =>
    cases hp0 : JSObj.get s.polls p0 with
    | none =>
      simp only [step, studentAnswer, hp0] at hout
      subst hout
      exact hsame s.timers s.questions
    | some poll0 =>
      cases hc : poll0.current with
      | none =>
        simp only [step, studentAnswer, hp0, hc] at hout
        subst hout
        exact hsame s.timers s.questions
      | some ref =>
        cases hq : s.questions[ref]? with
        | none =>
          simp only [step, studentAnswer, hp0, hc, hq] at hout
          subst hout
          exact hsame s.timers s.questions
        | some q =>
          by_cases hfull : 0 < (JSObj.keys poll0.students).length ∧
              (JSObj.keys poll0.students).length ≤
                (JSObj.keys (JSObj.set q.answers socket optionIndex)).length
          · simp only [step, studentAnswer, hp0, hc, hq, hfull, and_self, if_true] at hout
            subst hout
            exact hrep p0 poll0 _ _ hp0 (Or.inr ⟨_, rfl, rfl, by simp⟩)
          · simp only [step, studentAnswer, hp0, hc, hq, hfull, if_false] at hout
            subst hout
            exact ⟨poll, hp, Or.inl rfl⟩
  | disconnect socket =>
    simp only [step, disconnect] at hout
    subst hout
    refine ⟨(dropStudent socket (p, poll)).2, ?_, Or.inl ?_⟩
    · show JSObj.get (s.polls.map (dropStudent socket)) p = _
      rw [get_map_dropStudent, hp]
      rfl
    · obtain ⟨w', hw, hcore⟩ := dropStudent_core socket p poll
      rw [hw]
      exact congrArg PollCore.history hcore
  | timerFire id =>
    cases hfd : s.timers.find? (fun t => decide (t.id = id)) with
    | none =>
      simp only [step, timerFire, hfd] at hout
      subst hout
      exact hsame s.timers s.questions
    | some t =>
      cases hp0 : JSObj.get s.polls t.pollId with
      | none =>
        simp only [step, timerFire, hfd, timerCallback, hp0] at hout
        subst hout
        exact hsame _ s.questions
      | some poll0 =>
        cases hc : poll0.current with
        | none =>
          simp only [step, timerFire, hfd, timerCallback, hp0, hc] at hout
          subst hout
          exact hsame _ s.questions
        | some ref =>
          cases hq : s.questions[ref]? with
          | none =>
            simp only [step, timerFire, hfd, timerCallback, hp0, hc, hq] at hout
            subst hout
            exact hsame _ s.questions
          | some q =>
            cases hq2 : s.questions[t.current]? with
            | none =>
              simp only [step, timerFire, hfd, timerCallback, hp0, hc, hq, hq2] at hout
              subst hout
              exact hsame _ s.questions
            | some current =>
              simp only [step, timerFire, hfd, timerCallback, hp0, hc, hq, hq2,
                ServerState.putPoll] at hout
              subst hout
              exact hrep t.pollId poll0 _ _ hp0 (Or.inr ⟨_, rfl, rfl, by simp⟩)

/-- C19: the code departs from the claim in the state reached by
`staleTrace`, where `makeId()` returned one poll id twice. The timer of the
replaced poll's question archives its own question `q1`, which has no
answers, with the results of the question that is current in the new poll:
line 79 reads `polls[pollId].current`, line 85 archives the `current` of the
closure. The one history entry therefore carries counts `[1, 0, 0]` and
total 1 where `computeResults` of the entry itself gives `[0, 0, 0]` and 0. -/
theorem history_results_stale :
    (historyOf (run ServerState.init staleTrace) "poll1").map
        (fun e => (e.question.id, e.question.answers, e.results, computeResults e.question)) =
        [("q1", [], { counts := [1, 0, 0], total := 1 }, { counts := [0, 0, 0], total := 0 })] ∧
      ¬ ∀ e ∈ historyOf (run ServerState.init staleTrace) "poll1",
        e.results = computeResults e.question := by
  decide

/-- In every state reached from the empty table by a trace in which
`teacher:create-poll` always draws an unused id, every history entry of every
poll carries the results `computeResults` gives on the entry's own question;
and any further input that draws no used id leaves the history of every poll
as it was or appends one entry at its end, the latter only together with a
`question:end` for that entry to the poll's room and with `current` set to
absent (`history_step` has this second part in every state). -/
theorem history_frozen (tr : List Input) (hf : freshIds ServerState.init tr = true) :
    (∀ p, ∀ e ∈ historyOf (run ServerState.init tr) p, e.results = computeResults e.question) ∧
      (∀ e p poll, drawsFresh (run ServerState.init tr) e = true →
        JSObj.get (run ServerState.init tr).polls p = some poll →
        ∃ poll', JSObj.get (step (run ServerState.init tr) e).state.polls p = some poll' ∧
          (poll'.history = poll.history ∨
            ∃ x, poll'.history = poll.history ++ [x] ∧ poll'.current = none ∧
              ({ room := p,
                 event := Event.questionEnd x.results x.question.correctIndex
                   x.question.options } : Broadcast) ∈
                (step (run ServerState.init tr) e).emitted)) := by
  have hi : Consistent (run ServerState.init tr) (endLog ServerState.init tr) := by
    simpa using Consistent.of_init.after_run tr
  have hs : Scheduled (run ServerState.init tr) (endLog ServerState.init tr) := by
    simpa using Scheduled.at_boot.holds_run Consistent.of_init tr hf
  refine ⟨?_, fun e p poll hd hp => history_step _ e hd p poll hp⟩
  intro p e he
  unfold historyOf at he
  cases hp : JSObj.get (run ServerState.init tr).polls p with
  | none => simp [hp] at he
  | some poll =>
    simp only [hp] at he
    have hv : (run ServerState.init tr).view p = some poll.core := by
      simp [ServerState.view, hp]
    have hsuf := hi.history p poll.core hv
    have hmem : e ∈ ((endLog ServerState.init tr).filter (fun r => decide (r.room = p))).map
        EndRecord.entry := hsuf.subset he
    simp only [List.mem_map, List.mem_filter] at hmem
    obtain ⟨rec, ⟨hr, _⟩, rfl⟩ := hmem
    obtain ⟨qc, hqc, hres⟩ := hi.results rec hr
    have hfro := hi.frozen rec hr
    rw [hs.own_results rec hr, hqc] at hfro
    cases hfro
    exact hres

/-- The sample scenario ended by Bob's answer draws each poll id once; its
one history entry carries the tally of its own question. -/
theorem history_frozen_witness :
    freshIds ServerState.init
        (sampleSetup ++ [Input.answer "alice" "poll1" (JSVal.ofNat 0),
          Input.answer "bob" "poll1" (JSVal.ofNat 1)]) = true ∧
      (historyOf (run ServerState.init
        (sampleSetup ++ [Input.answer "alice" "poll1" (JSVal.ofNat 0),
          Input.answer "bob" "poll1" (JSVal.ofNat 1)])) "poll1").map HistoryEntry.results =
        [{ counts := [1, 1, 0], total := 2 }] ∧
      ∀ p, ∀ e ∈ historyOf (run ServerState.init
          (sampleSetup ++ [Input.answer "alice" "poll1" (JSVal.ofNat 0),
            Input.answer "bob" "poll1" (JSVal.ofNat 1)])) p,
        e.results = computeResults e.question :=
  ⟨by decide, by decide,
    (history_frozen
      (sampleSetup ++ [Input.answer "alice" "poll1" (JSVal.ofNat 0),
        Input.answer "bob" "poll1" (JSVal.ofNat 1)]) (by decide)).1⟩

/-! ## Poll ids that resolve through the prototype chain -/

/-- While nothing has been written on a built-in object, a poll id that is
not the name of a member of `Object.prototype` resolves among the entries of
the table or not at all. -/
theorem inherited_of_plain (r : Runtime) (k : String) (hb : r.builtins = [])
    (hk : k ∉ protoMembers) : r.inherited k = none := by
  unfold Runtime.inherited
  cases JSObj.get r.server.polls k with
  | some poll => rfl
  | none => simp [hk, Runtime.protoCurrent, hb, JSObj.get]

/-- A step only adds a timer for the poll id it carries. -/
theorem step_timer_ids (s : ServerState) (e : Input) :
    ∀ t ∈ (step s e).state.timers, t ∈ s.timers ∨ e.pollId = some t.pollId := by
  generalize hout : step s e = out
  cases e with
  | createPoll title p =>
    simp only [step, createPoll] at hout
    subst hout
    intro t ht
    exact Or.inl ht
  | startQuestion p question options duration correctIndex qid now =>
    cases hp : JSObj.get s.polls p with
    | none =>
      simp only [step, startQuestion, hp] at hout
      subst hout
      intro t ht
      exact Or.inl ht
    | some poll =>
      by_cases hc : poll.current.isSome = true
      · simp only [step, startQuestion, hp, hc, if_true] at hout
        subst hout
        intro t ht
        exact Or.inl ht
      · simp only [step, startQuestion, hp, hc, Bool.false_eq_true, if_false] at hout
        subst hout
        intro t ht
        simp only [List.mem_append, List.mem_singleton] at ht
        rcases ht with ht | rfl
        · exact Or.inl ht
        · exact Or.inr rfl
  | join socket p name =>
    cases hp : JSObj.get s.polls p with
    | none =>
      simp only [step, studentJoin, hp] at hout
      subst hout
      intro t ht
      exact Or.inl ht
    | some poll =>
      simp only [step, studentJoin, hp, ServerState.putPoll] at hout
      subst hout
      intro t ht
      exact Or.inl ht
  | answer socket p optionIndex =>
    cases hp : JSObj.get s.polls p with
    | none =>
      simp only [step, studentAnswer, hp] at hout
      subst hout
      intro t ht
      exact Or.inl ht
    | some poll =>
      cases hc : poll.current with
      | none =>
        simp only [step, studentAnswer, hp, hc] at hout
        subst hout
        intro t ht
        exact Or.inl ht
      | some ref =>
        cases hq : s.questions[ref]? with
        | none =>
          simp only [step, studentAnswer, hp, hc, hq] at hout
          subst hout
          intro t ht
          exact Or.inl ht
        | some q =>
          by_cases hfull : 0 < (JSObj.keys poll.students).length ∧
              (JSObj.keys poll.students).length ≤
                (JSObj.keys (JSObj.set q.answers socket optionIndex)).length
          · simp only [step, studentAnswer, hp, hc, hq, hfull, and_self, if_true] at hout
            subst hout
            intro t ht
            exact Or.inl (List.mem_filter.mp ht).1
          · simp only [step, studentAnswer, hp, hc, hq, hfull, if_false] at hout
            subst hout
            intro t ht
            exact Or.inl ht
  | disconnect socket =>
    simp only [step, disconnect] at hout
    subst hout
    intro t ht
    exact Or.inl ht
  | timerFire id =>
    have hsub : ∀ (u : ServerState) (w t : Timer),
        t ∈ (timerCallback u w).state.timers → t ∈ u.timers := by
      intro u w t
      unfold timerCallback
      split
      · exact fun h => h
      · split
        · exact fun h => h
        · split
          · exact fun h => h
          · exact fun h => h
    simp only [step, timerFire] at hout
    subst hout
    intro t ht
    split at ht
    · exact Or.inl ht
    · exact Or.inl (List.mem_filter.mp (hsub _ _ t ht)).1

/-- On an input whose poll id is not the name of a member of
`Object.prototype`, in a state where nothing has been written on a built-in
object and no timer is pending for such a name, the handlers are the
handlers on the table. -/
theorem runtimeStep_of_plain (r : Runtime) (e : Input) (hb : r.builtins = [])
    (hk : ∀ k, e.pollId = some k → k ∉ protoMembers)
    (ht : ∀ t ∈ r.server.timers, t.pollId ∉ protoMembers) :
    runtimeStep r e = r.lift (step r.server e) := by
  cases e with
  | createPoll title p => rfl
  | startQuestion p question options duration correctIndex qid now =>
    simp only [runtimeStep, runtimeStart, inherited_of_plain r p hb (hk p rfl), step]
  | join socket p name =>
    simp only [runtimeStep, runtimeJoin, inherited_of_plain r p hb (hk p rfl), step]
  | answer socket p optionIndex =>
    simp only [runtimeStep, runtimeAnswer, inherited_of_plain r p hb (hk p rfl), step]
  | disconnect socket => rfl
  | timerFire id =>
    cases hfd : r.server.timers.find? (fun t => decide (t.id = id)) with
    | none => simp only [runtimeStep, runtimeFire, step, timerFire, hfd, Runtime.lift]
    | some t =>
      have hmem : t ∈ r.server.timers := List.mem_of_find?_eq_some hfd
      have hinh := inherited_of_plain
        { r with
          server :=
            { r.server with timers := r.server.timers.filter (fun u => decide (u.id ≠ id)) } }
        t.pollId hb (ht t hmem)
      simp only [runtimeStep, runtimeFire, step, timerFire, hfd, runtimeCallback, hinh]
      rfl

/-- On a trace in which no poll id is the name of a member of
`Object.prototype`, nothing is ever written on a built-in object: the states
and the broadcasts are those of the handlers on the table. -/
theorem runtimeRun_of_plain (tr : List Input) (hplain : plainIds tr = true) :
    ∀ r : Runtime, r.builtins = [] → (∀ t ∈ r.server.timers, t.pollId ∉ protoMembers) →
      runtimeRun r tr = { server := run r.server tr, builtins := [] } ∧
        runtimeBroadcasts r tr = broadcasts r.server tr := by
  induction tr with
  | nil =>
    intro r hb _
    cases r
    simp only at hb
    subst hb
    exact ⟨rfl, rfl⟩
  | cons e rest ih =>
    intro r hb ht
    simp only [plainIds, List.all_cons, Bool.and_eq_true] at hplain
    have hk : ∀ k, e.pollId = some k → k ∉ protoMembers := by
      intro k hek
      have h1 := hplain.1
      rw [hek] at h1
      simpa using h1
    have hstep := runtimeStep_of_plain r e hb hk ht
    have ht2 : ∀ t ∈ (step r.server e).state.timers, t.pollId ∉ protoMembers := by
      intro t htm
      rcases step_timer_ids r.server e t htm with h | h
      · exact ht t h
      · exact hk _ h
    have hrest := ih hplain.2 (r.lift (step r.server e)).state hb ht2
    simp only [runtimeRun, runtimeBroadcasts, run, broadcasts, hstep]
    exact ⟨hrest.1, by rw [hrest.2]; rfl⟩

/-- From the empty table, a trace in which no poll id is the name of a
member of `Object.prototype` runs as on the table alone. -/
theorem runtimeRun_init (tr : List Input) (hplain : plainIds tr = true) :
    runtimeRun Runtime.init tr = { server := run ServerState.init tr, builtins := [] } ∧
      runtimeBroadcasts Runtime.init tr = broadcasts ServerState.init tr :=
  runtimeRun_of_plain tr hplain Runtime.init rfl (by intro t ht; cases ht)

/-- The sample scenario carries the poll id `poll1` only. -/
theorem runtimeRun_sample :
    plainIds sampleSetup = true ∧
      runtimeRun Runtime.init sampleSetup = { server := sampleActive, builtins := [] } :=
  ⟨by decide, (runtimeRun_init sampleSetup (by decide)).1⟩

/-- C18: the code departs from the claim on a poll id that `polls` inherits
from `Object.prototype`. On the empty table `constructor` is not a registered
poll, yet a `teacher:start-question` addressed to it passes the guard of line
56: it is acknowledged with ok, not with 'Poll not found', broadcasts
`question:start` to the room `constructor`, schedules a timer and stores the
question on the built-in object. When that timer expires the callback
broadcasts `question:end` and throws at line 85. A `student:join` addressed
to `__proto__` throws at line 97 without any acknowledgment. -/
theorem startQuestion_on_inherited_id :
    JSObj.get Runtime.init.server.polls "constructor" = none ∧
      (runtimeStep Runtime.init constructorStart).ack = some Ack.ok ∧
      (runtimeStep Runtime.init constructorStart).emitted =
        [{ room := "constructor",
           event := Event.questionStart (JSVal.string "Pick one") sampleOptions 61000 }] ∧
      constructorState.server.timers =
        [{ id := 0, pollId := "constructor", current := 0, delay := 60000 }] ∧
      constructorState.builtins = [("constructor", 0)] ∧
      (runtimeFire constructorState 0).emitted =
        [{ room := "constructor",
           event := Event.questionEnd { counts := [0, 0, 0], total := 0 } (JSVal.ofNat 1)
             sampleOptions }] ∧
      (runtimeFire constructorState 0).thrown = some "TypeError" ∧
      (runtimeJoin Runtime.init "alice" "__proto__" (JSVal.string "Alice")).ack = none ∧
      (runtimeJoin Runtime.init "alice" "__proto__" (JSVal.string "Alice")).thrown =
        some "TypeError" := by
  decide

/-- C12: the code departs from the claim on a poll id that `polls` inherits
from `Object.prototype`. After a `teacher:start-question` addressed to
`constructor` on the empty table, `constructor` is still not a registered
poll, yet a `student:answer` addressed to it passes the guard of line 109:
the answer is recorded, `question:partial` is broadcast, and the handler
throws at line 117 without any acknowledgment, where the claim has the
rejection 'No active question', an unchanged registry and no broadcast. -/
theorem studentAnswer_on_inherited_id :
    JSObj.get constructorState.server.polls "constructor" = none ∧
      constructorState.server.questions.map Question.answers = [[]] ∧
      (runtimeAnswer constructorState "alice" "constructor" (JSVal.ofNat 0)).ack = none ∧
      (runtimeAnswer constructorState "alice" "constructor" (JSVal.ofNat 0)).thrown =
        some "TypeError" ∧
      (runtimeAnswer constructorState "alice" "constructor" (JSVal.ofNat 0)).emitted =
        [{ room := "constructor",
           event := Event.questionPartial { counts := [1, 0, 0], total := 1 } }] ∧
      (runtimeAnswer constructorState "alice" "constructor"
          (JSVal.ofNat 0)).state.server.questions.map Question.answers =
        [[("alice", JSVal.ofNat 0)]] := by
  decide

/-- Once a question has been started on `__proto__`, every object inherits
its `current`: a start addressed to another member name or to `current` is
refused as already active, and an answer addressed to `toString` is written
into that question. -/
theorem runtime_after_proto_start :
    (runtimeStart
        (runtimeStart Runtime.init "__proto__" (JSVal.string "Pick one") sampleOptions none
          (JSVal.ofNat 1) "q1" 1000).state
        "current" (JSVal.string "Again") [] none JSVal.undefined "q2" 5000).ack =
        some (Ack.error "Question already active") ∧
      (runtimeStart
        (runtimeStart Runtime.init "__proto__" (JSVal.string "Pick one") sampleOptions none
          (JSVal.ofNat 1) "q1" 1000).state
        "valueOf" (JSVal.string "Again") [] none JSVal.undefined "q2" 5000).ack =
        some (Ack.error "Question already active") ∧
      (runtimeStart Runtime.init "current" (JSVal.string "Again") [] none JSVal.undefined "q2"
        5000).ack = some (Ack.error "Poll not found") ∧
      (runtimeAnswer
        (runtimeStart Runtime.init "__proto__" (JSVal.string "Pick one") sampleOptions none
          (JSVal.ofNat 1) "q1" 1000).state
        "alice" "toString" (JSVal.ofNat 2)).state.server.questions.map Question.answers =
        [[("alice", JSVal.ofNat 2)]] := by
  decide

end LivePoll
